import Mathlib

/-!
# Modifier stacking and item placement of `Player` (src/game/Entities/Player.h)

A shallow embedding of `Player::ApplySpellMod` (Player.h:2513-2564), instantiated at
`T = int32` and at `T = float`, together with the data it reads and writes:
`SpellModifier` (Player.h:121-146), the per-operation modifier lists `m_spellMods` and
the counter `m_SpellModRemoveCount` (Player.h:2349-2350); of the slot enumerations
(Player.h:562-633) and the position decoding of the `uint16` overloads
(Player.h:1102-1109); of the auction access mode (Player.h:1021-1031); and of the store
checks `CanStoreNewItem` and `CanStoreItem` (Player.h:1119-1129). The placement
resolver behind the store checks has no body in these sources and is modelled from
section 4.3 of the specification. The last part embeds four small pieces of `Player`:
the timed quest set (Player.h:1364-1365), `ModifyMoney` (Player.h:1416-1432), the
battleground queue slots (Player.h:1907-1964) and the packing of `ActionButton`
(Player.h:163-207).

Modelling conventions.

* A `Spell const*` is an `Option Nat`: `none` is `nullptr`, `some a` the address `a`.
* `int32` values are integers; every `int32` addition and multiplication of the source is
  wrapped by `wrapInt32` (two's complement), so a theorem about exact arithmetic carries
  the hypothesis that the value it speaks of fits in 32 bits.
* `float` values are IEEE 754 binary32 values (`Float32`): a finite value is a rational
  that is a binary32 number, and every floating operation is the exact operation rounded
  to the nearest such number, ties to even (`roundFloat`), with infinities and NaN.
* `m_spellMods[op]` is a `std::list<SpellModifier*>`; the embedding stores the pointed-to
  records themselves, so it covers lists in which no record is registered twice.
* The functions `sSpellTemplate.LookupEntry`, `Player::IsAffectedBySpellmod` and
  `Unit::FindCurrentSpellBySpellId` are only declared in these sources; they are taken
  as parameters (`World`), so every theorem holds for all of their implementations
  that are pure during one call.
-/

namespace Mangos

/-- Enumeration `SpellModType` (Player.h:76-80): `SPELLMOD_FLAT = 107`,
`SPELLMOD_PCT = 108`. -/
inductive SpellModType where
  | SPELLMOD_FLAT
  | SPELLMOD_PCT
  deriving DecidableEq

/-- Values of the enumeration `SpellModOp`, which indexes `m_spellMods`. -/
abbrev SpellModOp := Nat

/-- A spell template record (`SpellEntry const*`). The record type is declared outside
these sources and `ApplySpellMod` only passes it on, so a record is a handle. -/
abbrev SpellEntry := Nat

/-- Modelled from the spec: the enumerator `SPELLMOD_CASTING_TIME` of `SpellModOp` is
declared outside these sources; it is the "casting time" operation of the
special case in section 4.4. Its numeric value plays no role in any statement. -/
def SPELLMOD_CASTING_TIME : SpellModOp := 10

/-- Modelled from the spec: the constant `IN_MILLISECONDS` is declared outside these
sources; `10 * IN_MILLISECONDS` is the ten-second threshold, in milliseconds. -/
def IN_MILLISECONDS : Int := 1000

/-- Record `SpellModifier` (Player.h:121-146). `charges` is an `int16`, `value` an
`int32`, `lastAffected` a `Spell const*`. -/
structure SpellModifier where
  op : SpellModOp
  type : SpellModType
  charges : Int
  value : Int
  mask : Nat
  spellId : Nat
  lastAffected : Option Nat
  deriving DecidableEq

/-- Constructor `SpellModifier(_op, _type, _value, _spellId, _mask, _charges = 0)`
(Player.h:125-127): the last charge user starts as `nullptr`. -/
def SpellModifier.new (op : SpellModOp) (type : SpellModType) (value : Int) (spellId : Nat)
    (mask : Nat) (charges : Int) : SpellModifier :=
  ⟨op, type, charges, value, mask, spellId, none⟩

/-- The value an `int32` holds after an arithmetic result `x` is stored in it. -/
def wrapInt32 (x : Int) : Int := (x + 2147483648) % 4294967296 - 2147483648

/-- The integer `x` is representable as an `int32`. -/
def isInt32 (x : Int) : Prop := -2147483648 ≤ x ∧ x ≤ 2147483647

instance (x : Int) : Decidable (isInt32 x) := by unfold isInt32; infer_instance

/-- The collaborators `ApplySpellMod` calls and whose bodies are outside these sources. -/
structure World where
  /-- The call `sSpellTemplate.LookupEntry<SpellEntry>(spellId)`; `none` is `nullptr`. -/
  LookupEntry : Nat → Option SpellEntry
  /-- The call `IsAffectedBySpellmod(spellInfo, mod, spell)`. -/
  IsAffectedBySpellmod : SpellEntry → SpellModifier → Option Nat → Bool
  /-- The call `FindCurrentSpellBySpellId(spellId)`. -/
  FindCurrentSpellBySpellId : Nat → Option Nat

/-- The part of `Player` that `ApplySpellMod` touches (Player.h:2349-2350). -/
structure Player where
  m_spellMods : SpellModOp → List SpellModifier
  m_SpellModRemoveCount : Int

/-- The local variables of `ApplySpellMod` that the loop updates, and the counter. -/
structure ModLoop where
  totalpct : Int
  addedFlat : Int
  spell : Option Nat
  m_SpellModRemoveCount : Int
  deriving DecidableEq

/-- The block `if (mod->charges > 0) { ... }` of the loop body (Player.h:2540-2558). -/
def consumeCharge (w : World) (spellId : Nat) (st : ModLoop) (mod : SpellModifier) :
    ModLoop × SpellModifier :=
  if mod.charges > 0 then
    let spell := if st.spell = none then w.FindCurrentSpellBySpellId spellId else st.spell
    if mod.lastAffected = none ∨ mod.lastAffected ≠ spell then
      if mod.charges - 1 = 0 then
        (⟨st.totalpct, st.addedFlat, spell, wrapInt32 (st.m_SpellModRemoveCount + 1)⟩,
         ⟨mod.op, mod.type, -1, mod.value, mod.mask, mod.spellId, spell⟩)
      else
        (⟨st.totalpct, st.addedFlat, spell, st.m_SpellModRemoveCount⟩,
         ⟨mod.op, mod.type, mod.charges - 1, mod.value, mod.mask, mod.spellId, spell⟩)
    else
      (⟨st.totalpct, st.addedFlat, spell, st.m_SpellModRemoveCount⟩, mod)
  else
    (st, mod)

/-- One iteration of the loop of `ApplySpellMod` (Player.h:2521-2558); a `continue`
leaves the variables and the modifier as they are. -/
def spellModBody (w : World) (spellInfo : SpellEntry) (spellId : Nat) (basevalue : Int)
    (st : ModLoop) (mod : SpellModifier) : ModLoop × SpellModifier :=
  if w.IsAffectedBySpellmod spellInfo mod st.spell = false then
    (st, mod)
  else
    match mod.type with
    | .SPELLMOD_FLAT =>
      consumeCharge w spellId
        ⟨st.totalpct, wrapInt32 (st.addedFlat + mod.value), st.spell, st.m_SpellModRemoveCount⟩ mod
    | .SPELLMOD_PCT =>
      if basevalue = 0 then
        (st, mod)
      else if mod.op = SPELLMOD_CASTING_TIME ∧ basevalue ≥ 10 * IN_MILLISECONDS
          ∧ mod.value ≤ -100 then
        (st, mod)
      else
        consumeCharge w spellId
          ⟨wrapInt32 (st.totalpct + mod.value), st.addedFlat, st.spell, st.m_SpellModRemoveCount⟩
          mod

/-- The loop over `m_spellMods[op]` (Player.h:2519-2559): the variables after the last
iteration and the list with each modifier as the loop left it. -/
def spellModLoop (w : World) (spellInfo : SpellEntry) (spellId : Nat) (basevalue : Int) :
    ModLoop → List SpellModifier → ModLoop × List SpellModifier
  | st, [] => (st, [])
  | st, mod :: rest =>
    let r := spellModBody w spellInfo spellId basevalue st mod
    let q := spellModLoop w spellInfo spellId basevalue r.1 rest
    (q.1, r.2 :: q.2)

/-- What a call of `ApplySpellMod` leaves behind: the returned value, the caller's
`basevalue` (passed by reference) and the player. -/
structure ApplyResult where
  ret : Int
  basevalue : Int
  player : Player

/-- The expression `basevalue * totalpct / 100 + addedFlat * (100 + totalpct) / 100`
(Player.h:2561) in `int32` arithmetic; `/` truncates toward zero. -/
def spellModDiff (basevalue totalpct addedFlat : Int) : Int :=
  wrapInt32 (Int.tdiv (wrapInt32 (basevalue * totalpct)) 100
    + Int.tdiv (wrapInt32 (addedFlat * wrapInt32 (100 + totalpct))) 100)

/-- Function `Player::ApplySpellMod<int32>` (Player.h:2513-2564). -/
def ApplySpellMod (w : World) (p : Player) (spellId : Nat) (op : SpellModOp) (basevalue : Int)
    (spell : Option Nat) : ApplyResult :=
  match w.LookupEntry spellId with
  | none => ⟨0, basevalue, p⟩
  | some spellInfo =>
    let r := spellModLoop w spellInfo spellId basevalue
      ⟨0, 0, spell, p.m_SpellModRemoveCount⟩ (p.m_spellMods op)
    let diff := spellModDiff basevalue r.1.totalpct r.1.addedFlat
    ⟨diff, wrapInt32 (basevalue + diff),
      ⟨Function.update p.m_spellMods op r.2, r.1.m_SpellModRemoveCount⟩⟩

/-- One call of `ApplySpellMod` as its caller issues it; the collaborators may answer
differently from one call to the next. -/
structure Call where
  w : World
  spellId : Nat
  op : SpellModOp
  basevalue : Int
  spell : Option Nat

/-- The player after a sequence of `ApplySpellMod` calls, first call first. -/
def applyCalls : Player → List Call → Player
  | p, [] => p
  | p, c :: cs => applyCalls (ApplySpellMod c.w p c.spellId c.op c.basevalue c.spell).player cs

/-! ## The words of the specification -/

/-- A percent modifier that the loop passes over with `continue` after the predicate
accepted it: the base value is zero, or the casting-time special case applies. -/
def pctSkipped (basevalue : Int) (mod : SpellModifier) : Prop :=
  mod.type = .SPELLMOD_PCT ∧
    (basevalue = 0 ∨
      (mod.op = SPELLMOD_CASTING_TIME ∧ basevalue ≥ 10 * IN_MILLISECONDS ∧ mod.value ≤ -100))

instance (basevalue : Int) (mod : SpellModifier) : Decidable (pctSkipped basevalue mod) := by
  unfold pctSkipped; infer_instance

/-- The modifier affects the spell, judged under the casting context `ctx`, and is not
skipped: its value enters a total and its charges are looked at. -/
def isApplied (w : World) (spellInfo : SpellEntry) (basevalue : Int) (ctx : Option Nat)
    (mod : SpellModifier) : Prop :=
  w.IsAffectedBySpellmod spellInfo mod ctx = true ∧ ¬ pctSkipped basevalue mod

instance (w : World) (spellInfo : SpellEntry) (basevalue : Int) (ctx : Option Nat)
    (mod : SpellModifier) : Decidable (isApplied w spellInfo basevalue ctx mod) := by
  unfold isApplied; infer_instance

/-- The casting context of a call: the `spell` argument, or, when that is `nullptr`,
the current spell found for the spell id. -/
def callContext (w : World) (spellId : Nat) (spell : Option Nat) : Option Nat :=
  if spell = none then w.FindCurrentSpellBySpellId spellId else spell

/-- The variable `spell` after the loop has handled `mod`: it is replaced by the call's
casting context as soon as a modifier with charges is applied. -/
def nextContext (w : World) (spellInfo : SpellEntry) (spellId : Nat) (basevalue : Int)
    (ctx : Option Nat) (mod : SpellModifier) : Option Nat :=
  if isApplied w spellInfo basevalue ctx mod ∧ mod.charges > 0 then callContext w spellId ctx
  else ctx

/-- The value of the variable `spell` when the loop reaches the modifier that follows
the modifiers `pre` in the list; `IsAffectedBySpellmod` is asked under this value. -/
def contextAt (w : World) (spellInfo : SpellEntry) (spellId : Nat) (basevalue : Int)
    (spell : Option Nat) (pre : List SpellModifier) : Option Nat :=
  pre.foldl (nextContext w spellInfo spellId basevalue) spell

/-- A modifier after one of its charges was used by the casting context `ctx`: one
charge less, `-1` instead of `0`, and `ctx` recorded as the last charge user. -/
def useCharge (ctx : Option Nat) (mod : SpellModifier) : SpellModifier :=
  ⟨mod.op, mod.type, if mod.charges = 1 then -1 else mod.charges - 1, mod.value, mod.mask,
    mod.spellId, ctx⟩

/-- The modifier as one iteration leaves it, when `IsAffectedBySpellmod` is asked under
`ctx`. -/
def modAfter (w : World) (spellInfo : SpellEntry) (spellId : Nat) (basevalue : Int)
    (ctx : Option Nat) (mod : SpellModifier) : SpellModifier :=
  if isApplied w spellInfo basevalue ctx mod ∧ mod.charges > 0
      ∧ (mod.lastAffected = none ∨ mod.lastAffected ≠ callContext w spellId ctx) then
    useCharge (callContext w spellId ctx) mod
  else mod

/-- The modifier list as a call leaves it. -/
def modsAfter (w : World) (spellInfo : SpellEntry) (spellId : Nat) (basevalue : Int) :
    Option Nat → List SpellModifier → List SpellModifier
  | _, [] => []
  | ctx, mod :: rest =>
    modAfter w spellInfo spellId basevalue ctx mod
      :: modsAfter w spellInfo spellId basevalue
          (nextContext w spellInfo spellId basevalue ctx mod) rest

/-- The affecting flat modifiers of a list, in list order: the modifiers of type flat
for which `IsAffectedBySpellmod` answers true when the loop reaches them. -/
def affectingFlat (w : World) (spellInfo : SpellEntry) (spellId : Nat) (basevalue : Int) :
    Option Nat → List SpellModifier → List SpellModifier
  | _, [] => []
  | ctx, mod :: rest =>
    (if w.IsAffectedBySpellmod spellInfo mod ctx = true ∧ mod.type = .SPELLMOD_FLAT then [mod]
      else [])
      ++ affectingFlat w spellInfo spellId basevalue
          (nextContext w spellInfo spellId basevalue ctx mod) rest

/-- The affecting percent modifiers of a list that are not skipped, in list order: the
modifiers of type percent for which `IsAffectedBySpellmod` answers true when the loop
reaches them and that neither the zero-base rule nor the casting-time rule skips. -/
def appliedPct (w : World) (spellInfo : SpellEntry) (spellId : Nat) (basevalue : Int) :
    Option Nat → List SpellModifier → List SpellModifier
  | _, [] => []
  | ctx, mod :: rest =>
    (if isApplied w spellInfo basevalue ctx mod ∧ mod.type = .SPELLMOD_PCT then [mod] else [])
      ++ appliedPct w spellInfo spellId basevalue
          (nextContext w spellInfo spellId basevalue ctx mod) rest

/-- The sum `F` of the values of the affecting flat modifiers. -/
def flatTotal (w : World) (spellInfo : SpellEntry) (spellId : Nat) (basevalue : Int)
    (spell : Option Nat) (mods : List SpellModifier) : Int :=
  ((affectingFlat w spellInfo spellId basevalue spell mods).map (fun m => m.value)).sum

/-- The sum `P` of the values of the affecting percent modifiers that are not skipped. -/
def pctTotal (w : World) (spellInfo : SpellEntry) (spellId : Nat) (basevalue : Int)
    (spell : Option Nat) (mods : List SpellModifier) : Int :=
  ((appliedPct w spellInfo spellId basevalue spell mods).map (fun m => m.value)).sum

/-- The delta of section 4.4 in exact integer arithmetic, each division truncating
toward zero: `(b * P) / 100 + (F * (100 + P)) / 100`. -/
def exactDelta (b F P : Int) : Int := Int.tdiv (b * P) 100 + Int.tdiv (F * (100 + P)) 100

/-- No 32-bit overflow: the totals, every intermediate value of the delta and the
adjusted value are representable as `int32`. -/
def noOverflow (b F P : Int) : Prop :=
  isInt32 F ∧ isInt32 P ∧ isInt32 (b * P) ∧ isInt32 (100 + P) ∧ isInt32 (F * (100 + P))
    ∧ isInt32 (exactDelta b F P) ∧ isInt32 (b + exactDelta b F P)

instance (b F P : Int) : Decidable (noOverflow b F P) := by
  unfold noOverflow; infer_instance

/-- The fields of a modifier that identify it and its effect: all but the charges and
the last charge user. -/
def sameIdentity (m m2 : SpellModifier) : Prop :=
  m2.op = m.op ∧ m2.type = m.type ∧ m2.value = m.value ∧ m2.mask = m.mask
    ∧ m2.spellId = m.spellId

/-- The player with the list registered under `op` replaced by `mods`. -/
def setMods (p : Player) (op : SpellModOp) (mods : List SpellModifier) : Player :=
  ⟨Function.update p.m_spellMods op mods, p.m_SpellModRemoveCount⟩

/-- Two players that differ only in one modifier without charges to use, present in the
list of `op` of the first and absent from that of the second. -/
def differByUnlimited (op : SpellModOp) (mod : SpellModifier) (n : Nat) (p q : Player) : Prop :=
  (∃ pre post, p.m_spellMods op = pre ++ mod :: post ∧ q.m_spellMods op = pre ++ post
      ∧ pre.length = n)
    ∧ (∀ op2, op2 ≠ op → p.m_spellMods op2 = q.m_spellMods op2)
    ∧ p.m_SpellModRemoveCount = q.m_SpellModRemoveCount

/-! ## Data for the concrete checks -/

/-- A world in which every spell id is known, a modifier affects a spell exactly when
its mask is odd, and no current spell is found for a spell id. -/
def maskWorld : World :=
  ⟨fun spellId => some spellId, fun _ mod _ => mod.mask % 2 == 1, fun _ => none⟩

/-- A player whose list for operation `op` is `mods`, every other list being empty, with
no removal pending. -/
def playerWith (op : SpellModOp) (mods : List SpellModifier) : Player :=
  ⟨fun o => if o = op then mods else [], 0⟩

/-- The scenario of section 8: one `+10 flat` and one `+50 percent` modifier on
operation 3. -/
def scenarioPlayer : Player :=
  playerWith 3 [SpellModifier.new 3 .SPELLMOD_FLAT 10 500 1 0,
    SpellModifier.new 3 .SPELLMOD_PCT 50 501 1 0]

/-- A percent modifier and a flat modifier on operation 3, each with two charges. -/
def chargedPlayer : Player :=
  playerWith 3 [SpellModifier.new 3 .SPELLMOD_PCT 50 501 1 2,
    SpellModifier.new 3 .SPELLMOD_FLAT 15 500 1 2]

/-- A new modifier with one charge, followed by a modifier with two charges whose last
charge user is the cast at address 9; both on operation 3. -/
def lastUserPlayer : Player :=
  playerWith 3 [SpellModifier.new 3 .SPELLMOD_FLAT 10 500 1 1,
    ⟨3, .SPELLMOD_PCT, 2, 50, 1, 501, some 9⟩]

/-- A modifier whose mask does not select the spell (it is even), between two
modifiers that do; all on operation 3. -/
def mixedPlayer : Player :=
  playerWith 3 [SpellModifier.new 3 .SPELLMOD_FLAT 10 500 1 1,
    SpellModifier.new 3 .SPELLMOD_FLAT 1000 502 2 1,
    SpellModifier.new 3 .SPELLMOD_PCT 50 501 1 0]

/-- A modifier with one charge on operation 3. -/
def oneChargePlayer : Player :=
  playerWith 3 [SpellModifier.new 3 .SPELLMOD_FLAT 10 500 1 1]

/-- A modifier with three charges on operation 3. -/
def threeChargePlayer : Player :=
  playerWith 3 [SpellModifier.new 3 .SPELLMOD_FLAT 10 500 1 3]

/-- A query of operation 3 for spell 7 with base value 100, carrying the casting
context `spell`. -/
def queryBy (spell : Option Nat) : Call := ⟨maskWorld, 7, 3, 100, spell⟩

/-- A `-100 percent` casting-time modifier with one charge. -/
def instantCastPlayer : Player :=
  playerWith SPELLMOD_CASTING_TIME
    [SpellModifier.new SPELLMOD_CASTING_TIME .SPELLMOD_PCT (-100) 500 1 1]

/-! ## Slot space (Player.h:562-633) -/

/-- Enumerator `PLAYER_SLOT_START` of `PlayerSlots`: first slot for an item stored in
`m_items`. -/
def PLAYER_SLOT_START : Nat := 0
/-- Enumerator `PLAYER_SLOT_END` of `PlayerSlots`: last + 1 slot. -/
def PLAYER_SLOT_END : Nat := 118
/-- Enumerator `PLAYER_SLOTS_COUNT`, the length of `Item* m_items[PLAYER_SLOTS_COUNT]`
(Player.h:2320). -/
def PLAYER_SLOTS_COUNT : Nat := PLAYER_SLOT_END - PLAYER_SLOT_START
/-- The container id `INVENTORY_SLOT_BAG_0` of the player's own slot table. -/
def INVENTORY_SLOT_BAG_0 : Nat := 255
/-- Enumerator of `EquipmentSlots`. -/
def EQUIPMENT_SLOT_START : Nat := 0
/-- Enumerator of `EquipmentSlots`. -/
def EQUIPMENT_SLOT_MAINHAND : Nat := 15
/-- Enumerator of `EquipmentSlots`. -/
def EQUIPMENT_SLOT_END : Nat := 19
/-- Enumerator of `InventorySlots`. -/
def INVENTORY_SLOT_BAG_START : Nat := 19
/-- Enumerator of `InventorySlots`. -/
def INVENTORY_SLOT_BAG_END : Nat := 23
/-- Enumerator of `InventoryPackSlots`. -/
def INVENTORY_SLOT_ITEM_START : Nat := 23
/-- Enumerator of `InventoryPackSlots`. -/
def INVENTORY_SLOT_ITEM_END : Nat := 39
/-- Enumerator of `BankItemSlots`. -/
def BANK_SLOT_ITEM_START : Nat := 39
/-- Enumerator of `BankItemSlots`. -/
def BANK_SLOT_ITEM_END : Nat := 67
/-- Enumerator of `BankBagSlots`. -/
def BANK_SLOT_BAG_START : Nat := 67
/-- Enumerator of `BankBagSlots`. -/
def BANK_SLOT_BAG_END : Nat := 74
/-- Enumerator of `BuyBackSlots`. -/
def BUYBACK_SLOT_START : Nat := 74
/-- Enumerator of `BuyBackSlots`. -/
def BUYBACK_SLOT_END : Nat := 86
/-- Enumerator of `KeyRingSlots`. -/
def KEYRING_SLOT_START : Nat := 86
/-- Enumerator of `KeyRingSlots`. -/
def KEYRING_SLOT_END : Nat := 118

/-- The seven slot enumerations of Player.h:571-633, one per band. -/
inductive SlotBand where
  | equipment
  | bagContainer
  | pack
  | bankItem
  | bankBagContainer
  | buyback
  | keyRing
  deriving DecidableEq

/-- The `..._START` enumerator of a band. -/
def SlotBand.start : SlotBand → Nat
  | .equipment => EQUIPMENT_SLOT_START
  | .bagContainer => INVENTORY_SLOT_BAG_START
  | .pack => INVENTORY_SLOT_ITEM_START
  | .bankItem => BANK_SLOT_ITEM_START
  | .bankBagContainer => BANK_SLOT_BAG_START
  | .buyback => BUYBACK_SLOT_START
  | .keyRing => KEYRING_SLOT_START

/-- The `..._END` enumerator of a band, its last slot + 1. -/
def SlotBand.stop : SlotBand → Nat
  | .equipment => EQUIPMENT_SLOT_END
  | .bagContainer => INVENTORY_SLOT_BAG_END
  | .pack => INVENTORY_SLOT_ITEM_END
  | .bankItem => BANK_SLOT_ITEM_END
  | .bankBagContainer => BANK_SLOT_BAG_END
  | .buyback => BUYBACK_SLOT_END
  | .keyRing => KEYRING_SLOT_END

/-- The number of slots of a band: `END - START`. -/
def SlotBand.size (b : SlotBand) : Nat := b.stop - b.start

/-- The slot index `s` lies in the band: `START <= s < END`. -/
def SlotBand.contains (b : SlotBand) (s : Nat) : Prop := b.start ≤ s ∧ s < b.stop

instance (b : SlotBand) (s : Nat) : Decidable (b.contains s) := by
  unfold SlotBand.contains; infer_instance

/-- The bands in the order of their declarations. -/
def allSlotBands : List SlotBand :=
  [.equipment, .bagContainer, .pack, .bankItem, .bankBagContainer, .buyback, .keyRing]

/-- The container argument `pos >> 8` of the `uint16` overloads of `IsInventoryPos`,
`IsEquipmentPos`, `IsBankPos` and `IsValidPos` (Player.h:1102-1109), received as a
`uint8`. -/
def posBag (pos : Nat) : Nat := (pos >>> 8) % 256

/-- The slot argument `pos & 255` of the same overloads, received as a `uint8`. -/
def posSlot (pos : Nat) : Nat := (pos &&& 255) % 256

/-- Modelled from the spec: the encoder `Encode(container, slot)` of section 4.1 is not
in these sources. It packs the pair into one `uint16`, the container in the high byte
and the slot in the low byte: `(container << 8) | slot`. -/
def encodePos (bag slot : Nat) : Nat := ((bag <<< 8) ||| slot) % 65536

/-! ## Auction access mode (Player.h:494-509, 1021-1031) -/

/-- Enumerator of `PlayerExtraFlags`. -/
def PLAYER_EXTRA_AUCTION_NEUTRAL : Nat := 0x0040
/-- Enumerator of `PlayerExtraFlags`; its comment: overwrite
`PLAYER_EXTRA_AUCTION_NEUTRAL`. -/
def PLAYER_EXTRA_AUCTION_ENEMY : Nat := 0x0080

/-- The value of `~(PLAYER_EXTRA_AUCTION_ENEMY | PLAYER_EXTRA_AUCTION_NEUTRAL)` once it
is converted to `uint32` for the `&=` with `m_ExtraFlags`. -/
def auctionClearMask : Nat :=
  4294967295 - (PLAYER_EXTRA_AUCTION_ENEMY ||| PLAYER_EXTRA_AUCTION_NEUTRAL)

/-- Function `Player::GetAuctionAccessMode` (Player.h:1022) on the `uint32` field
`m_ExtraFlags`: 0 = own auction, -1 = enemy auction, 1 = goblin auction. -/
def GetAuctionAccessMode (m_ExtraFlags : Nat) : Int :=
  if m_ExtraFlags &&& PLAYER_EXTRA_AUCTION_ENEMY ≠ 0 then -1
  else if m_ExtraFlags &&& PLAYER_EXTRA_AUCTION_NEUTRAL ≠ 0 then 1
  else 0

/-- Function `Player::SetAuctionAccessMode` (Player.h:1023-1031): the field
`m_ExtraFlags` after the call. -/
def SetAuctionAccessMode (m_ExtraFlags : Nat) (state : Int) : Nat :=
  if state < 0 then
    (m_ExtraFlags &&& auctionClearMask) ||| PLAYER_EXTRA_AUCTION_ENEMY
  else if state > 0 then
    (m_ExtraFlags &&& auctionClearMask) ||| PLAYER_EXTRA_AUCTION_NEUTRAL
  else
    m_ExtraFlags &&& auctionClearMask

/-! ## The store checks (Player.h:1119-1129) -/

/-- Record `ItemPosCount` (Player.h:635-641): a position and a count. -/
structure ItemPosCount where
  pos : Nat
  count : Nat
  deriving DecidableEq

/-- The type `ItemPosCountVec`, a `std::vector<ItemPosCount>`. -/
abbrev ItemPosCountVec := List ItemPosCount

/-- Values of the enumeration `InventoryResult`, declared outside these sources. -/
abbrev InventoryResult := Nat

/-- An `Item` as `CanStoreItem` reads it, through `GetEntry()` and `GetCount()`. -/
structure Item where
  GetEntry : Nat
  GetCount : Nat
  deriving DecidableEq

/-- What a store check leaves behind: the returned `InventoryResult`, the vector `dest`
(passed by reference) and the value behind `no_space_count` when that pointer is not
null. -/
structure StoreOutcome where
  result : InventoryResult
  dest : ItemPosCountVec
  no_space_count : Option Nat
  deriving DecidableEq

/-- What the store checks use and these sources only declare: the enumerator
`EQUIP_ERR_ITEM_NOT_FOUND` and the member function `_CanStoreItem` (Player.h:1154) with
its arguments `bag, slot, dest, entry, count, pItem, swap, no_space_count` in that
order; `none` is a null pointer. The function is `const`: it reads the player. -/
structure StoreWorld where
  EQUIP_ERR_ITEM_NOT_FOUND : InventoryResult
  _CanStoreItem : Nat → Nat → ItemPosCountVec → Nat → Nat → Option Item → Bool → Option Nat →
    StoreOutcome

/-- Function `Player::CanStoreNewItem` (Player.h:1119-1122). -/
def CanStoreNewItem (w : StoreWorld) (bag slot : Nat) (dest : ItemPosCountVec) (item count : Nat)
    (no_space_count : Option Nat) : StoreOutcome :=
  w._CanStoreItem bag slot dest item count none false no_space_count

/-- Function `Player::CanStoreItem` (Player.h:1123-1129). -/
def CanStoreItem (w : StoreWorld) (bag slot : Nat) (dest : ItemPosCountVec) (pItem : Option Item)
    (swap : Bool) : StoreOutcome :=
  match pItem with
  | none => ⟨w.EQUIP_ERR_ITEM_NOT_FOUND, dest, none⟩
  | some item =>
    let count := item.GetCount
    w._CanStoreItem bag slot dest item.GetEntry count (some item) swap none


/-! ## Further data for the concrete checks -/

/-- A store world for the concrete checks: the error code 23 and a `_CanStoreItem` that
always reports success (result 0) and appends the requested count at position 5911. -/
def okStoreWorld : StoreWorld :=
  ⟨23, fun _ _ dest _ count _ _ _ => ⟨0, dest ++ [⟨5911, count⟩], none⟩⟩

/-- Two `-50 percent` casting-time modifiers without charges. -/
def halvingTwicePlayer : Player :=
  playerWith SPELLMOD_CASTING_TIME
    [SpellModifier.new SPELLMOD_CASTING_TIME .SPELLMOD_PCT (-50) 500 1 0,
      SpellModifier.new SPELLMOD_CASTING_TIME .SPELLMOD_PCT (-50) 501 1 0]

/-- One `-100 percent` and one `-30 percent` casting-time modifier without charges. -/
def instantAndHastePlayer : Player :=
  playerWith SPELLMOD_CASTING_TIME
    [SpellModifier.new SPELLMOD_CASTING_TIME .SPELLMOD_PCT (-100) 500 1 0,
      SpellModifier.new SPELLMOD_CASTING_TIME .SPELLMOD_PCT (-30) 501 1 0]

/-! ## `ApplySpellMod` at a floating base value

The instantiation `T = float`. A `float` is an IEEE 754 binary32 value and every
floating operation of the C++ expression is the exact operation followed by rounding to
the nearest `float`, ties to even; a result beyond the largest `float` is an infinity.
`totalpct` and `addedFlat` are `int32` whatever `T` is. -/

/-- A value of the C++ type `float`: a finite value (a rational `q` that is a binary32
number, see `roundFloat`), an infinity or a NaN. The two zeros are not told apart:
`ApplySpellMod<float>` never divides by a variable, so the sign of a zero reaches neither
a test nor the value of a result. -/
inductive Float32 where
  | finite (q : ℚ)
  | inf (negative : Bool)
  | nan
  deriving DecidableEq

/-- The quotient `n / d` rounded to the nearest natural number, a tie to the even one. -/
def roundHalfEven (n d : Nat) : Nat :=
  if 2 * (n % d) < d then n / d
  else if d < 2 * (n % d) then n / d + 1
  else if (n / d) % 2 = 0 then n / d
  else n / d + 1

/-- The exponent `k` with `2 ^ k ≤ n < 2 ^ (k + 1)` of a positive `n`, by halving `n` at
most `fuel` times. -/
def log2Fuel : Nat → Nat → Nat
  | 0, _ => 0
  | fuel + 1, n => if 2 ≤ n then log2Fuel fuel (n / 2) + 1 else 0

/-- The exponent `k` with `2 ^ k ≤ n / d < 2 ^ (k + 1)`, for positive `n` and `d`. -/
def floorLog2 (n d : Nat) : Int :=
  if d * 2 ^ ((log2Fuel n n : Int) - (log2Fuel d d : Int)).toNat
      ≤ n * 2 ^ ((log2Fuel d d : Int) - (log2Fuel n n : Int)).toNat then
    (log2Fuel n n : Int) - (log2Fuel d d : Int)
  else (log2Fuel n n : Int) - (log2Fuel d d : Int) - 1

/-- The `float` nearest to the rational `q`, ties to even: 24 significant bits, the unit
in the last place `2 ^ e` with `e` at least `-149` (subnormal numbers), and an infinity
when the rounded magnitude reaches `2 ^ 128`. -/
def roundFloat (q : ℚ) : Float32 :=
  if q = 0 then .finite 0
  else
    let e : Int := max (floorLog2 q.num.natAbs q.den) (-126) - 23
    let m : Nat := roundHalfEven (q.num.natAbs * 2 ^ (-e).toNat) (q.den * 2 ^ e.toNat)
    if 2 ^ 128 ≤ m * 2 ^ e.toNat then .inf (decide (q < 0))
    else .finite (Rat.divInt (Int.sign q.num * m * 2 ^ e.toNat) (2 ^ (-e).toNat))

/-- The value is one a `float` can hold: a finite value is a binary32 number, which
rounding leaves as it is. -/
def Float32.isFloat : Float32 → Prop
  | .finite q => roundFloat q = .finite q
  | _ => True

instance (x : Float32) : Decidable (Float32.isFloat x) := by
  cases x <;> unfold Float32.isFloat <;> infer_instance

/-- The conversion of an `int32` to `float`. -/
def Float32.ofInt (i : Int) : Float32 := roundFloat (i : ℚ)

/-- The product of two `float` values. -/
def Float32.mul : Float32 → Float32 → Float32
  | .finite a, .finite b => roundFloat (a * b)
  | .finite a, .inf s => if a = 0 then .nan else .inf (xor s (decide (a < 0)))
  | .inf s, .finite b => if b = 0 then .nan else .inf (xor s (decide (b < 0)))
  | .inf s, .inf s2 => .inf (xor s s2)
  | _, _ => .nan

/-- The quotient of two `float` values. A zero divisor is taken as `+0`; the source
divides by 100 only. -/
def Float32.div : Float32 → Float32 → Float32
  | .finite a, .finite b =>
    if b = 0 then (if a = 0 then .nan else .inf (decide (a < 0))) else roundFloat (a / b)
  | .finite _, .inf _ => .finite 0
  | .inf s, .finite b => .inf (xor s (decide (b < 0)))
  | _, _ => .nan

/-- The sum of two `float` values. -/
def Float32.add : Float32 → Float32 → Float32
  | .finite a, .finite b => roundFloat (a + b)
  | .finite _, .inf s => .inf s
  | .inf s, .finite _ => .inf s
  | .inf s, .inf s2 => if s = s2 then .inf s else .nan
  | _, _ => .nan

/-- The comparison `x == y` of two `float` values; a NaN equals nothing. -/
def Float32.eq : Float32 → Float32 → Bool
  | .finite a, .finite b => decide (a = b)
  | .inf s, .inf s2 => decide (s = s2)
  | _, _ => false

/-- The comparison `x >= y` of two `float` values; false when either is a NaN. -/
def Float32.ge : Float32 → Float32 → Bool
  | .finite a, .finite b => decide (b ≤ a)
  | .finite _, .inf s => s
  | .inf s, .finite _ => !s
  | .inf s, .inf s2 => !s || s2
  | _, _ => false

/-- One iteration of the loop of `ApplySpellMod<float>` (Player.h:2521-2558); the base
value is read by the tests `basevalue == T(0)` and
`basevalue >= T(10 * IN_MILLISECONDS)` only. -/
def spellModBodyF (w : World) (spellInfo : SpellEntry) (spellId : Nat) (basevalue : Float32)
    (st : ModLoop) (mod : SpellModifier) : ModLoop × SpellModifier :=
  if w.IsAffectedBySpellmod spellInfo mod st.spell = false then
    (st, mod)
  else
    match mod.type with
    | .SPELLMOD_FLAT =>
      consumeCharge w spellId
        ⟨st.totalpct, wrapInt32 (st.addedFlat + mod.value), st.spell, st.m_SpellModRemoveCount⟩ mod
    | .SPELLMOD_PCT =>
      if Float32.eq basevalue (Float32.ofInt 0) = true then
        (st, mod)
      else if mod.op = SPELLMOD_CASTING_TIME
          ∧ Float32.ge basevalue (Float32.ofInt (10 * IN_MILLISECONDS)) = true
          ∧ mod.value ≤ -100 then
        (st, mod)
      else
        consumeCharge w spellId
          ⟨wrapInt32 (st.totalpct + mod.value), st.addedFlat, st.spell, st.m_SpellModRemoveCount⟩
          mod

/-- The loop over `m_spellMods[op]` of `ApplySpellMod<float>` (Player.h:2519-2559). -/
def spellModLoopF (w : World) (spellInfo : SpellEntry) (spellId : Nat) (basevalue : Float32) :
    ModLoop → List SpellModifier → ModLoop × List SpellModifier
  | st, [] => (st, [])
  | st, mod :: rest =>
    let r := spellModBodyF w spellInfo spellId basevalue st mod
    let q := spellModLoopF w spellInfo spellId basevalue r.1 rest
    (q.1, r.2 :: q.2)

/-- What a call of `ApplySpellMod<float>` leaves behind. -/
structure ApplyResultF where
  ret : Float32
  basevalue : Float32
  player : Player

/-- The expression `basevalue * totalpct / 100 + addedFlat * (100 + totalpct) / 100`
(Player.h:2561) at `T = float`. The first term is floating: `totalpct` is converted to
`float`, the product is rounded, and so is its quotient by `100`. The second term is
`int32 * int32 / int`, an `int32` division that truncates toward zero; its result is
converted to `float` for the sum, which is rounded. -/
def spellModDiffF (basevalue : Float32) (totalpct addedFlat : Int) : Float32 :=
  Float32.add
    (Float32.div (Float32.mul basevalue (Float32.ofInt totalpct)) (Float32.ofInt 100))
    (Float32.ofInt (Int.tdiv (wrapInt32 (addedFlat * wrapInt32 (100 + totalpct))) 100))

/-- Function `Player::ApplySpellMod<float>` (Player.h:2513-2564). -/
def ApplySpellModF (w : World) (p : Player) (spellId : Nat) (op : SpellModOp)
    (basevalue : Float32) (spell : Option Nat) : ApplyResultF :=
  match w.LookupEntry spellId with
  | none => ⟨Float32.ofInt 0, basevalue, p⟩
  | some spellInfo =>
    let r := spellModLoopF w spellInfo spellId basevalue
      ⟨0, 0, spell, p.m_SpellModRemoveCount⟩ (p.m_spellMods op)
    let diff := spellModDiffF basevalue r.1.totalpct r.1.addedFlat
    ⟨diff, Float32.add basevalue diff,
      ⟨Function.update p.m_spellMods op r.2, r.1.m_SpellModRemoveCount⟩⟩

/-- An integer base value that answers the two tests of the loop as the floating base
value `b` does: zero for zero, the threshold for a value at or above it, one
otherwise. The totals `F` and `P` of a floating call are those of the integer loop at
this base value. -/
def baseClass (b : Float32) : Int :=
  if Float32.eq b (Float32.ofInt 0) = true then 0
  else if Float32.ge b (Float32.ofInt (10 * IN_MILLISECONDS)) = true then 10 * IN_MILLISECONDS
  else 1

/-- No 32-bit overflow in the integer part of a floating call: the totals and the
intermediate values of the flat term are representable as `int32`. -/
def noOverflowF (F P : Int) : Prop :=
  isInt32 F ∧ isInt32 P ∧ isInt32 (100 + P) ∧ isInt32 (F * (100 + P))

instance (F P : Int) : Decidable (noOverflowF F P) := by
  unfold noOverflowF; infer_instance

/-- One `+1 flat` and one `+50 percent` modifier on operation 3. -/
def fractionPlayer : Player :=
  playerWith 3 [SpellModifier.new 3 .SPELLMOD_FLAT 1 500 1 0,
    SpellModifier.new 3 .SPELLMOD_PCT 50 501 1 0]

/-- The `float` nearest to one tenth, the value of the literal `0.1f`. -/
def oneTenth : Float32 := .finite (13421773 / 134217728)

/-! ## Placement resolution (section 4.3 of the specification)

The bodies of `_CanStoreItem` and of its helpers are not in these sources; the resolver
is modelled from the specification. -/

/-- Modelled from the spec: a position, decoded into its pair `(container, slot)`
(section 3). The player's own slot table is the container `INVENTORY_SLOT_BAG_0`; a bag
is the container named by the slot index that holds it. -/
structure ItemPos where
  bag : Nat
  slot : Nat
  deriving DecidableEq

/-- Modelled from the spec: a stack, a count of identical items occupying one
position (glossary). -/
structure ItemStack where
  entry : Nat
  count : Nat
  deriving DecidableEq

/-- Modelled from the spec: the item-type metadata the resolver consumes (section 6):
the stack limit and, for an equip-only item, its equip slot. -/
structure ItemType where
  stackLimit : Nat
  equipSlot : Option Nat
  deriving DecidableEq

/-- Modelled from the spec: the slot table of a character: what each position holds,
and the number of slots of the bag held in each bag-container slot (0 without a bag). -/
structure SlotTable where
  content : ItemPos → Option ItemStack
  bagSize : Nat → Nat

/-- Modelled from the spec: the collaborator that supplies item-type metadata
(section 6). An unknown item type has no metadata. `limitRoom` is the number of further
units of an item type that the per-item uniqueness, per-category count and
unique-equipped limits leave to a slot table, `none` when no such limit applies. -/
structure ItemData where
  proto : Nat → Option ItemType
  limitRoom : SlotTable → Nat → Option Nat

/-- Modelled from the spec: the arguments of `Resolve` (section 4.3): the item type,
the requested count, the optional hint position and whether bank placement is
allowed. -/
structure PlacementQuery where
  entry : Nat
  count : Nat
  hint : Option ItemPos
  allowBank : Bool

/-- Modelled from the spec: the typed failures of `Resolve` (sections 4.3 and 7). -/
inductive ResolveError where
  | InsufficientSpace
  | InvalidItem
  deriving DecidableEq

/-- Modelled from the spec: the result of `Resolve`, an ordered list of
`(position, count)` placements or a typed failure. -/
inductive ResolveResult where
  | placements (plan : List (ItemPos × Nat))
  | failure (error : ResolveError)
  deriving DecidableEq

/-- Modelled from the spec: the count a slot can still take of an item type: the stack
limit when it is empty, the rest up to the stack limit when it holds a stack of the
same item type under its limit, nothing otherwise. -/
def roomAt (limit entry : Nat) (held : Option ItemStack) : Nat :=
  match held with
  | none => limit
  | some st => if st.entry = entry ∧ st.count < limit then limit - st.count else 0

/-- Modelled from the spec: the slot holds a compatible, non-full stack (step 3). -/
def canTopUp (limit entry : Nat) (held : Option ItemStack) : Bool :=
  match held with
  | none => false
  | some st => decide (st.entry = entry ∧ st.count < limit)

/-- Modelled from the spec: the slot is empty (step 3). -/
def isEmptySlot (held : Option ItemStack) : Bool :=
  match held with
  | none => true
  | some _ => false

/-- Modelled from the spec: the slots `first, first + 1, ...` of one container, in
ascending slot order. -/
def slotsOf (bag first size : Nat) : List ItemPos :=
  (List.range' first size).map (fun s => ⟨bag, s⟩)

/-- Modelled from the spec: the eligible containers in the fixed priority of step 2,
each as `(container, first slot, number of slots)`: the equip slot if the item is
equip-only and the count needs no splitting, each carried bag in ascending container
id, the main pack, and, only if bank placement is allowed, the bank item slots and the
bank bags in ascending container id. -/
def eligibleContainers (t : SlotTable) (ty : ItemType) (q : PlacementQuery) :
    List (Nat × Nat × Nat) :=
  (match ty.equipSlot with
    | some e =>
      if e < EQUIPMENT_SLOT_END ∧ q.count ≤ ty.stackLimit then [(INVENTORY_SLOT_BAG_0, e, 1)]
      else []
    | none => [])
  ++ (List.range' INVENTORY_SLOT_BAG_START 4).map (fun c => (c, 0, t.bagSize c))
  ++ [(INVENTORY_SLOT_BAG_0, INVENTORY_SLOT_ITEM_START, 16)]
  ++ (if q.allowBank then
        (INVENTORY_SLOT_BAG_0, BANK_SLOT_ITEM_START, 28)
          :: (List.range' BANK_SLOT_BAG_START 7).map (fun c => (c, 0, t.bagSize c))
      else [])

/-- Modelled from the spec: the order in which one container is filled (step 3): its
compatible non-full stacks in ascending slot order, then its empty slots in ascending
slot order. -/
def containerOrder (t : SlotTable) (limit entry : Nat) (slots : List ItemPos) : List ItemPos :=
  slots.filter (fun p => canTopUp limit entry (t.content p))
    ++ slots.filter (fun p => isEmptySlot (t.content p))

/-- Modelled from the spec: the search order of step 2 with step 3 inside each
container. -/
def searchOrder (t : SlotTable) (ty : ItemType) (q : PlacementQuery) : List ItemPos :=
  ((eligibleContainers t ty q).map
    (fun c => containerOrder t ty.stackLimit q.entry (slotsOf c.1 c.2.1 c.2.2))).flatten

/-- Modelled from the spec: step 1. A hint position that can host additional count
(an empty slot or a compatible non-full stack of an eligible container) is tried first;
the other positions follow in the search order. -/
def hintedOrder (t : SlotTable) (ty : ItemType) (q : PlacementQuery) : List ItemPos :=
  match q.hint with
  | none => searchOrder t ty q
  | some h =>
    if h ∈ searchOrder t ty q then h :: (searchOrder t ty q).erase h else searchOrder t ty q

/-- Modelled from the spec: step 4. The placements accumulate along the order until
the requested count is placed; a position takes what is left of the count, up to its
room. -/
def placeAlong (room : ItemPos → Nat) : Nat → List ItemPos → List (ItemPos × Nat)
  | _, [] => []
  | n, p :: rest =>
    if n = 0 then []
    else if room p = 0 then placeAlong room n rest
    else (p, min n (room p)) :: placeAlong room (n - min n (room p)) rest

/-- Modelled from the spec: the operation `Resolve` of section 4.3, which stands for
`_CanStoreItem` (Player.h:1154), whose body is not in these sources. It reads the slot
table and returns the placements or a typed failure. -/
def Resolve (d : ItemData) (t : SlotTable) (q : PlacementQuery) : ResolveResult :=
  match d.proto q.entry with
  | none => .failure .InvalidItem
  | some ty =>
    if (match d.limitRoom t q.entry with
        | some r => decide (r < q.count)
        | none => false) = true then
      .failure .InsufficientSpace
    else
      let plan := placeAlong (fun p => roomAt ty.stackLimit q.entry (t.content p)) q.count
        (hintedOrder t ty q)
      if (plan.map Prod.snd).sum = q.count then .placements plan
      else .failure .InsufficientSpace

/-- Modelled from the spec: the operation `CommitPlacement` of section 6, which
writes the placements of a plan for an item type into the slot table. -/
def CommitPlacement (entry : Nat) : List (ItemPos × Nat) → SlotTable → SlotTable
  | [], t => t
  | (p, k) :: rest, t =>
    CommitPlacement entry rest
      ⟨Function.update t.content p
        (match t.content p with
          | none => some ⟨entry, k⟩
          | some st => some ⟨st.entry, st.count + k⟩),
        t.bagSize⟩

/-- Modelled from the spec: the capacity for an item type across all eligible
containers (step 4): the room of all their slots together, respecting the limits of
`limitRoom`. -/
def capacity (d : ItemData) (t : SlotTable) (ty : ItemType) (q : PlacementQuery) : Nat :=
  let space := ((((eligibleContainers t ty q).map
    (fun c => slotsOf c.1 c.2.1 c.2.2)).flatten).map
      (fun p => roomAt ty.stackLimit q.entry (t.content p))).sum
  match d.limitRoom t q.entry with
  | some r => min space r
  | none => space

/-- Modelled from the spec: the character that owns the slot table and the modifier
collection (section 2). -/
structure Character where
  slots : SlotTable
  mods : Player

/-- Modelled from the spec: a resolution as the character sees it. The resolver is
read-only (`_CanStoreItem` and its callers are `const` members): the call returns its
result and the character as it was. -/
def ResolvePlacement (d : ItemData) (c : Character) (q : PlacementQuery) :
    ResolveResult × Character :=
  (Resolve d c.slots q, c)

/-- Item data for the concrete checks: the item type 4306 stacks to 20 and is not
equipment; no other item type is known and no limit applies. -/
def clothData : ItemData :=
  ⟨fun entry => if entry = 4306 then some ⟨20, none⟩ else none, fun _ _ => none⟩

/-- The scenario of section 8: every slot empty and no bag equipped, so the character
has an empty 16-slot pack and an empty main-hand slot. -/
def emptyTable : SlotTable := ⟨fun _ => none, fun _ => 0⟩

/-- Two containers, each given as `(container, first slot, number of slots)`, share no
position: they differ in the container id or their slot ranges do not meet. -/
def apartContainers (a b : Nat × Nat × Nat) : Prop :=
  a.1 ≠ b.1 ∨ a.2.1 + a.2.2 ≤ b.2.1 ∨ b.2.1 + b.2.2 ≤ a.2.1

/-- Modelled from the spec: within one container the slot `x` is filled before the
slot `y` (step 3): `x` holds a compatible non-full stack and `y` is empty, or both
hold compatible non-full stacks, or both are empty, and `x` comes first in ascending
slot order. -/
def filledBefore (t : SlotTable) (limit entry : Nat) (slots : List ItemPos) (x y : ItemPos) :
    Prop :=
  (canTopUp limit entry (t.content x) = true ∧ isEmptySlot (t.content y) = true
      ∧ x ∈ slots ∧ y ∈ slots)
    ∨ (canTopUp limit entry (t.content x) = true ∧ canTopUp limit entry (t.content y) = true
      ∧ List.Sublist [x, y] slots)
    ∨ (isEmptySlot (t.content x) = true ∧ isEmptySlot (t.content y) = true
      ∧ List.Sublist [x, y] slots)

/-! ## Data for the concrete checks of the last claims -/

/-- A world as `maskWorld` in which only the spell ids below 100 have a spell template
entry. -/
def sparseWorld : World :=
  ⟨fun spellId => if spellId < 100 then some spellId else none,
    fun _ mod _ => mod.mask % 2 == 1, fun _ => none⟩

/-! ## Timed quests (Player.h:1364-1365, 2240-2242) -/

/-- The member `insert` of the `std::set<uint32>` behind `QuestSet`, the set being the
strictly ascending list of its elements. -/
def QuestSet.insert (quest_id : Nat) : List Nat → List Nat
  | [] => [quest_id]
  | x :: rest =>
    if quest_id < x then quest_id :: x :: rest
    else if quest_id = x then x :: rest
    else x :: QuestSet.insert quest_id rest

/-- The member `erase` of the `std::set<uint32>` behind `QuestSet`. -/
def QuestSet.erase (quest_id : Nat) (s : List Nat) : List Nat :=
  s.filter (fun x => x ≠ quest_id)

/-- Function `Player::AddTimedQuest` (Player.h:1364) on the field `m_timedquests`. -/
def AddTimedQuest (m_timedquests : List Nat) (quest_id : Nat) : List Nat :=
  QuestSet.insert quest_id m_timedquests

/-- Function `Player::RemoveTimedQuest` (Player.h:1365) on the field
`m_timedquests`. -/
def RemoveTimedQuest (m_timedquests : List Nat) (quest_id : Nat) : List Nat :=
  QuestSet.erase quest_id m_timedquests

/-! ## Action buttons (Player.h:163-207) -/

/-- Enumeration `ActionButtonUpdateState` (Player.h:163-169). -/
inductive ActionButtonUpdateState where
  | ACTIONBUTTON_UNCHANGED
  | ACTIONBUTTON_CHANGED
  | ACTIONBUTTON_NEW
  | ACTIONBUTTON_DELETED
  deriving DecidableEq

/-- Macro `MAX_ACTION_BUTTON_ACTION_VALUE` (Player.h:182). -/
def MAX_ACTION_BUTTON_ACTION_VALUE : Nat := 0x00FFFFFF + 1

/-- Macro `ACTION_BUTTON_ACTION(X)` (Player.h:180) on a `uint32`. -/
def ACTION_BUTTON_ACTION (x : Nat) : Nat := x &&& 0x00FFFFFF

/-- Macro `ACTION_BUTTON_TYPE(X)` (Player.h:181) on a `uint32`. -/
def ACTION_BUTTON_TYPE (x : Nat) : Nat := (x &&& 0xFF000000) >>> 24

/-- Record `ActionButton` (Player.h:184-207); `packedData` is a `uint32`. -/
structure ActionButton where
  packedData : Nat
  uState : ActionButtonUpdateState
  deriving DecidableEq

/-- Constructor `ActionButton()` (Player.h:186). -/
def ActionButton.new : ActionButton := ⟨0, .ACTIONBUTTON_NEW⟩

/-- Helper `ActionButton::GetType` (Player.h:192), as the value of the enumeration. -/
def ActionButton.GetType (b : ActionButton) : Nat := ACTION_BUTTON_TYPE b.packedData

/-- Helper `ActionButton::GetAction` (Player.h:193). -/
def ActionButton.GetAction (b : ActionButton) : Nat := ACTION_BUTTON_ACTION b.packedData

/-- Helper `ActionButton::SetActionAndType` (Player.h:194-206); `action` and the type
converted by `uint32(type)` are `uint32` values. -/
def ActionButton.SetActionAndType (b : ActionButton) (action type : Nat) : ActionButton :=
  let newData := (action ||| ((type <<< 24) % 4294967296)) % 4294967296
  if newData ≠ b.packedData ∨ b.uState = .ACTIONBUTTON_DELETED then
    if b.uState ≠ .ACTIONBUTTON_NEW then ⟨newData, .ACTIONBUTTON_CHANGED⟩
    else ⟨newData, b.uState⟩
  else b

/-! ## Money (Player.h:772, 1416-1432) -/

/-- Macro `MAX_MONEY_AMOUNT` (Player.h:772): `0x7FFFFFFF - 1`. -/
def MAX_MONEY_AMOUNT : Int := 0x7FFFFFFF - 1

/-- The conversion `uint32(x)` of a signed value. -/
def toUInt32 (x : Int) : Nat := (x % 4294967296).toNat

/-- Function `Player::ModifyMoney` (Player.h:1417-1427) on the `uint32` field
`PLAYER_FIELD_COINAGE` that `GetMoney` reads and `SetMoney` writes: the field after the
call. In `GetMoney() + d` the `int32` is converted to `uint32` and the sum is taken
modulo 2^32; `-d` and `MAX_MONEY_AMOUNT - d` are `int` expressions. The closing
`SendEquipError` sends a message and leaves the field as it is. -/
def ModifyMoney (money : Nat) (d : Int) : Nat :=
  if d < 0 then
    if money > toUInt32 (wrapInt32 (-d)) then (money + toUInt32 d) % 4294967296 else 0
  else
    if money < toUInt32 (wrapInt32 (MAX_MONEY_AMOUNT - d)) then
      (money + toUInt32 d) % 4294967296
    else toUInt32 MAX_MONEY_AMOUNT

/-! ## Battleground queue slots (Player.h:1907-1964, 2227-2233) -/

/-- Record `BgBattleGroundQueueID_Rec` (Player.h:2227-2231). -/
structure BgBattleGroundQueueID_Rec where
  bgQueueTypeId : Nat
  invitedToInstance : Nat
  deriving DecidableEq

/-- The loop of `Player::GetBattleGroundQueueIndex` (Player.h:1909-1911) from the index
`i` on, over the slots that remain; `none` when the loop ends without a `return`. -/
def findQueueIndex (bgQueueTypeId : Nat) : Nat → List BgBattleGroundQueueID_Rec → Option Nat
  | _, [] => none
  | i, rec :: rest =>
    if rec.bgQueueTypeId = bgQueueTypeId then some i
    else findQueueIndex bgQueueTypeId (i + 1) rest

/-- Function `Player::GetBattleGroundQueueIndex` (Player.h:1907-1913) on the array
`m_bgBattleGroundQueueID`, whose length is `PLAYER_MAX_BATTLEGROUND_QUEUES`. -/
def GetBattleGroundQueueIndex (m_bgBattleGroundQueueID : List BgBattleGroundQueueID_Rec)
    (bgQueueTypeId : Nat) : Nat :=
  match findQueueIndex bgQueueTypeId 0 m_bgBattleGroundQueueID with
  | some i => i
  | none => m_bgBattleGroundQueueID.length

/-- Function `Player::InBattleGroundQueueForBattleGroundQueueType`
(Player.h:1921-1924). -/
def InBattleGroundQueueForBattleGroundQueueType
    (m_bgBattleGroundQueueID : List BgBattleGroundQueueID_Rec) (bgQueueTypeId : Nat) : Bool :=
  decide (GetBattleGroundQueueIndex m_bgBattleGroundQueueID bgQueueTypeId
    < m_bgBattleGroundQueueID.length)

/-- Function `Player::AddBattleGroundQueueId` (Player.h:1932-1944): the array after
the call. The first slot that is free or holds `val` takes `val`. The enumerator
`BATTLEGROUND_QUEUE_NONE`, which marks a free slot, is declared outside these sources
and is a parameter. -/
def AddBattleGroundQueueId (BATTLEGROUND_QUEUE_NONE : Nat) :
    List BgBattleGroundQueueID_Rec → Nat → List BgBattleGroundQueueID_Rec
  | [], _ => []
  | rec :: rest, val =>
    if rec.bgQueueTypeId = BATTLEGROUND_QUEUE_NONE ∨ rec.bgQueueTypeId = val then
      ⟨val, 0⟩ :: rest
    else rec :: AddBattleGroundQueueId BATTLEGROUND_QUEUE_NONE rest val

/-- Function `Player::RemoveBattleGroundQueueId` (Player.h:1953-1964): the array after
the call. The first slot that holds `val` is freed. -/
def RemoveBattleGroundQueueId (BATTLEGROUND_QUEUE_NONE : Nat) :
    List BgBattleGroundQueueID_Rec → Nat → List BgBattleGroundQueueID_Rec
  | [], _ => []
  | rec :: rest, val =>
    if rec.bgQueueTypeId = val then ⟨BATTLEGROUND_QUEUE_NONE, 0⟩ :: rest
    else rec :: RemoveBattleGroundQueueId BATTLEGROUND_QUEUE_NONE rest val

/-- The all-empty queue table of `PLAYER_MAX_BATTLEGROUND_QUEUES` slots; the constant is
declared outside these sources and is a parameter. -/
def emptyQueueTable (BATTLEGROUND_QUEUE_NONE PLAYER_MAX_BATTLEGROUND_QUEUES : Nat) :
    List BgBattleGroundQueueID_Rec :=
  List.replicate PLAYER_MAX_BATTLEGROUND_QUEUES ⟨BATTLEGROUND_QUEUE_NONE, 0⟩

/-- The queue table after `AddBattleGroundQueueId(a)`, `AddBattleGroundQueueId(b)`,
`RemoveBattleGroundQueueId(a)`, `AddBattleGroundQueueId(b)` and
`RemoveBattleGroundQueueId(b)` from the all-empty table. -/
def requeueScenario (BATTLEGROUND_QUEUE_NONE PLAYER_MAX_BATTLEGROUND_QUEUES a b : Nat) :
    List BgBattleGroundQueueID_Rec :=
  let t0 := emptyQueueTable BATTLEGROUND_QUEUE_NONE PLAYER_MAX_BATTLEGROUND_QUEUES
  let t1 := AddBattleGroundQueueId BATTLEGROUND_QUEUE_NONE t0 a
  let t2 := AddBattleGroundQueueId BATTLEGROUND_QUEUE_NONE t1 b
  let t3 := RemoveBattleGroundQueueId BATTLEGROUND_QUEUE_NONE t2 a
  let t4 := AddBattleGroundQueueId BATTLEGROUND_QUEUE_NONE t3 b
  RemoveBattleGroundQueueId BATTLEGROUND_QUEUE_NONE t4 b

/-! ## The pending-removal counter -/

/-- The number of modifiers whose charges a call changes from 1 to -1: the positions at
which the list before the call holds charges 1 and the list after it charges -1. -/
def exhaustedCount (before after : List SpellModifier) : Nat :=
  (List.zip before after).countP (fun q => decide (q.1.charges = 1 ∧ q.2.charges = -1))

/-- The number of modifiers of a list with `charges = -1`, the mark of a modifier that
waits for its removal. -/
def pendingRemoval (mods : List SpellModifier) : Nat :=
  mods.countP (fun m => decide (m.charges = -1))

/-- A player with one removal pending: on operation 3 a modifier with its last charge, a
modifier with two charges, a modifier already used up and a second modifier with its
last charge whose mask does not select the spell. -/
def pendingPlayer : Player :=
  ⟨fun o => if o = 3 then
      [SpellModifier.new 3 .SPELLMOD_FLAT 10 500 1 1,
        SpellModifier.new 3 .SPELLMOD_PCT 50 501 1 2,
        ⟨3, .SPELLMOD_FLAT, -1, 5, 1, 502, some 9⟩,
        SpellModifier.new 3 .SPELLMOD_FLAT 20 503 2 1]
    else [], 1⟩

/-! ## Calls without a casting context -/

/-- The call applies the modifier under the casting context `ctx`: its spell id has a
spell template entry, and the modifier affects that spell and is not skipped. -/
def appliesTo (c : Call) (ctx : Option Nat) (mod : SpellModifier) : Prop :=
  match c.w.LookupEntry c.spellId with
  | some spellInfo => isApplied c.w spellInfo c.basevalue ctx mod
  | none => False

instance (c : Call) (ctx : Option Nat) (mod : SpellModifier) :
    Decidable (appliesTo c ctx mod) := by
  unfold appliesTo; split <;> infer_instance

/-- Consecutive context-less calls on operation `op` that each apply the modifier as the
calls before left it: every call carries no casting context, none is found for its
spell id, and the modifier, one charge less after each call, affects the spell and is
not skipped. -/
def contextlessUses (op : SpellModOp) : SpellModifier → List Call → Prop
  | _, [] => True
  | mod, c :: cs =>
    c.op = op ∧ c.spell = none ∧ c.w.FindCurrentSpellBySpellId c.spellId = none
      ∧ appliesTo c none mod ∧ contextlessUses op (useCharge none mod) cs

instance contextlessUses.instDecidable (op : SpellModOp) :
    (mod : SpellModifier) → (cs : List Call) → Decidable (contextlessUses op mod cs)
  | _, [] => isTrue trivial
  | mod, c :: cs =>
    have := contextlessUses.instDecidable op (useCharge none mod) cs
    by unfold contextlessUses; infer_instance

/-- The modifier after `n` of its charges were used by calls without casting context:
`n` charges less, `-1` when none is left, no last charge user. -/
def afterUses (n : Nat) (mod : SpellModifier) : SpellModifier :=
  ⟨mod.op, mod.type, if (n : Int) = mod.charges then -1 else mod.charges - n, mod.value,
    mod.mask, mod.spellId, if n = 0 then mod.lastAffected else none⟩

/-! ## The order of the modifier list -/

/-- Modelled from the spec: the positions a resolution can place at, the slots of the
eligible containers of step 2. -/
def searchedSlots (t : SlotTable) (ty : ItemType) (q : PlacementQuery) : List ItemPos :=
  ((eligibleContainers t ty q).map (fun c => slotsOf c.1 c.2.1 c.2.2)).flatten

/-- Modelled from the spec: two slot tables are an identical inventory state for a
query: the same bags in the bag slots, the same answer of the limits of section 4.3, and
the same content at every slot of an eligible container. What the tables hold elsewhere
(other slots, and the bank while bank placement is not allowed) is not compared. -/
def sameInventory (d : ItemData) (t1 t2 : SlotTable) (q : PlacementQuery) : Prop :=
  (∀ c, t1.bagSize c = t2.bagSize c)
    ∧ d.limitRoom t1 q.entry = d.limitRoom t2 q.entry
    ∧ ∀ ty, d.proto q.entry = some ty →
        ∀ p ∈ searchedSlots t1 ty q, t1.content p = t2.content p

theorem wrapInt32_eq_self {x : Int} (h : isInt32 x) : wrapInt32 x = x := by
  unfold isInt32 at h
  unfold wrapInt32
  omega

theorem isInt32_wrapInt32 (x : Int) : isInt32 (wrapInt32 x) := by
  unfold isInt32 wrapInt32
  omega

theorem wrapInt32_wrapInt32_add (a b : Int) : wrapInt32 (wrapInt32 a + b) = wrapInt32 (a + b) := by
  unfold wrapInt32
  omega

/-- The whole effect of the charge block, component by component. -/
theorem consumeCharge_eq (w : World) (spellId : Nat) (st : ModLoop) (mod : SpellModifier) :
    consumeCharge w spellId st mod
      = (⟨st.totalpct, st.addedFlat,
          if mod.charges > 0 then callContext w spellId st.spell else st.spell,
          if mod.charges = 1
              ∧ (mod.lastAffected = none ∨ mod.lastAffected ≠ callContext w spellId st.spell) then
            wrapInt32 (st.m_SpellModRemoveCount + 1)
          else st.m_SpellModRemoveCount⟩,
         if mod.charges > 0
            ∧ (mod.lastAffected = none ∨ mod.lastAffected ≠ callContext w spellId st.spell) then
           useCharge (callContext w spellId st.spell) mod
         else mod) := by
  have hcc : (if st.spell = none then w.FindCurrentSpellBySpellId spellId else st.spell)
      = callContext w spellId st.spell := rfl
  unfold consumeCharge
  simp only [hcc]
  by_cases h1 : mod.charges > 0
  · by_cases h2 : mod.lastAffected = none ∨ mod.lastAffected ≠ callContext w spellId st.spell
    · by_cases h3 : mod.charges = 1
      · have h4 : mod.charges - 1 = 0 := by omega
        simp only [h1, h2, h4, if_true, and_self, and_true]
        simp [h3, useCharge]
      · have h4 : ¬ (mod.charges - 1 = 0) := by omega
        simp only [h1, h2, h3, h4, useCharge, if_true, if_false, and_self, false_and]
    · simp only [h1, h2, if_true, if_false, and_false]
  · have h3 : ¬ mod.charges = 1 := by omega
    simp only [h1, h3, if_false, false_and]

/-- The whole effect of one iteration, component by component. -/
theorem spellModBody_eq (w : World) (spellInfo : SpellEntry) (spellId : Nat) (basevalue : Int)
    (st : ModLoop) (mod : SpellModifier) :
    spellModBody w spellInfo spellId basevalue st mod
      = (⟨if isApplied w spellInfo basevalue st.spell mod ∧ mod.type = .SPELLMOD_PCT then
            wrapInt32 (st.totalpct + mod.value)
          else st.totalpct,
          if w.IsAffectedBySpellmod spellInfo mod st.spell = true
              ∧ mod.type = .SPELLMOD_FLAT then
            wrapInt32 (st.addedFlat + mod.value)
          else st.addedFlat,
          nextContext w spellInfo spellId basevalue st.spell mod,
          if isApplied w spellInfo basevalue st.spell mod ∧ mod.charges = 1
              ∧ (mod.lastAffected = none ∨ mod.lastAffected ≠ callContext w spellId st.spell) then
            wrapInt32 (st.m_SpellModRemoveCount + 1)
          else st.m_SpellModRemoveCount⟩,
         modAfter w spellInfo spellId basevalue st.spell mod) := by
  unfold spellModBody nextContext modAfter isApplied
  by_cases ha : w.IsAffectedBySpellmod spellInfo mod st.spell = true
  · have ha2 : ¬ (w.IsAffectedBySpellmod spellInfo mod st.spell = false) := by simp [ha]
    cases hty : mod.type
    · have hsk : ¬ pctSkipped basevalue mod := by
        unfold pctSkipped; simp [hty]
      simp only [ha, ha2, hsk, consumeCharge_eq, if_true, if_false, true_and, and_true,
        and_false, not_false_eq_true, reduceCtorEq]
    · by_cases hz : basevalue = 0
      · subst hz
        have hsk : pctSkipped 0 mod := ⟨hty, Or.inl rfl⟩
        simp only [ha, ha2, hsk, if_true, if_false, true_and, and_true, and_false,
          false_and, not_true_eq_false, reduceCtorEq]
      · by_cases hc : mod.op = SPELLMOD_CASTING_TIME ∧ basevalue ≥ 10 * IN_MILLISECONDS
            ∧ mod.value ≤ -100
        · have hsk : pctSkipped basevalue mod := ⟨hty, Or.inr hc⟩
          simp only [ha, ha2, hsk, hz, hc, if_true, if_false, true_and, and_true, and_false,
            false_and, not_true_eq_false, reduceCtorEq, and_self]
        · have hsk : ¬ pctSkipped basevalue mod := by
            unfold pctSkipped; simp only [hty, true_and]; tauto
          simp only [ha, ha2, hsk, hz, hc, consumeCharge_eq, if_true, if_false, true_and,
            and_true, and_false, not_false_eq_true, reduceCtorEq]
  · have ha2 : w.IsAffectedBySpellmod spellInfo mod st.spell = false := by
      simpa using ha
    simp only [ha2, if_true, false_and, if_false, Bool.false_eq_true]

/-! ## The loop, component by component -/

theorem callContext_some (w : World) (spellId a : Nat) :
    callContext w spellId (some a) = some a := by
  simp [callContext]

theorem callContext_idem (w : World) (spellId : Nat) (ctx : Option Nat) :
    callContext w spellId (callContext w spellId ctx) = callContext w spellId ctx := by
  unfold callContext
  by_cases h : ctx = none
  · simp only [h, if_true]
    split_ifs with h2
    · rfl
    · rfl
  · simp only [h, if_false]

theorem callContext_nextContext (w : World) (spellInfo : SpellEntry) (spellId : Nat)
    (basevalue : Int) (ctx : Option Nat) (mod : SpellModifier) :
    callContext w spellId (nextContext w spellInfo spellId basevalue ctx mod)
      = callContext w spellId ctx := by
  unfold nextContext
  split_ifs
  · exact callContext_idem w spellId ctx
  · rfl

theorem contextAt_nil (w : World) (spellInfo : SpellEntry) (spellId : Nat) (basevalue : Int)
    (spell : Option Nat) : contextAt w spellInfo spellId basevalue spell [] = spell := rfl

theorem contextAt_cons (w : World) (spellInfo : SpellEntry) (spellId : Nat) (basevalue : Int)
    (spell : Option Nat) (mod : SpellModifier) (rest : List SpellModifier) :
    contextAt w spellInfo spellId basevalue spell (mod :: rest)
      = contextAt w spellInfo spellId basevalue
          (nextContext w spellInfo spellId basevalue spell mod) rest := rfl

theorem contextAt_append (w : World) (spellInfo : SpellEntry) (spellId : Nat) (basevalue : Int)
    (spell : Option Nat) (xs ys : List SpellModifier) :
    contextAt w spellInfo spellId basevalue spell (xs ++ ys)
      = contextAt w spellInfo spellId basevalue
          (contextAt w spellInfo spellId basevalue spell xs) ys := by
  unfold contextAt
  exact List.foldl_append _ _ _ _

/-- The context the charge block compares with is the call's casting context, at every
position of the list. -/
theorem callContext_contextAt (w : World) (spellInfo : SpellEntry) (spellId : Nat)
    (basevalue : Int) (spell : Option Nat) (pre : List SpellModifier) :
    callContext w spellId (contextAt w spellInfo spellId basevalue spell pre)
      = callContext w spellId spell := by
  induction pre generalizing spell with
  | nil => rfl
  | cons mod rest ih =>
    rw [contextAt_cons, ih, callContext_nextContext]

/-- A call that carries a casting context keeps it throughout the loop. -/
theorem contextAt_some (w : World) (spellInfo : SpellEntry) (spellId : Nat) (basevalue : Int)
    (a : Nat) (pre : List SpellModifier) :
    contextAt w spellInfo spellId basevalue (some a) pre = some a := by
  induction pre with
  | nil => rfl
  | cons mod rest ih =>
    rw [contextAt_cons]
    have : nextContext w spellInfo spellId basevalue (some a) mod = some a := by
      unfold nextContext
      split_ifs
      · exact callContext_some w spellId a
      · rfl
    rw [this, ih]

theorem spellModLoop_spell (w : World) (spellInfo : SpellEntry) (spellId : Nat)
    (basevalue : Int) (st : ModLoop) (mods : List SpellModifier) :
    (spellModLoop w spellInfo spellId basevalue st mods).1.spell
      = contextAt w spellInfo spellId basevalue st.spell mods := by
  induction mods generalizing st with
  | nil => rfl
  | cons mod rest ih =>
    simp only [spellModLoop, contextAt_cons]
    rw [ih, spellModBody_eq]

theorem spellModLoop_mods (w : World) (spellInfo : SpellEntry) (spellId : Nat)
    (basevalue : Int) (st : ModLoop) (mods : List SpellModifier) :
    (spellModLoop w spellInfo spellId basevalue st mods).2
      = modsAfter w spellInfo spellId basevalue st.spell mods := by
  induction mods generalizing st with
  | nil => rfl
  | cons mod rest ih =>
    simp only [spellModLoop, modsAfter]
    rw [ih, spellModBody_eq]

theorem spellModLoop_count_congr (w : World) (spellInfo : SpellEntry) (spellId : Nat)
    (basevalue : Int) (st st2 : ModLoop) (mods : List SpellModifier)
    (hs : st.spell = st2.spell) (hc : st.m_SpellModRemoveCount = st2.m_SpellModRemoveCount) :
    (spellModLoop w spellInfo spellId basevalue st mods).1.m_SpellModRemoveCount
      = (spellModLoop w spellInfo spellId basevalue st2 mods).1.m_SpellModRemoveCount := by
  induction mods generalizing st st2 with
  | nil => exact hc
  | cons mod rest ih =>
    simp only [spellModLoop]
    apply ih
    · rw [spellModBody_eq, spellModBody_eq, hs]
    · rw [spellModBody_eq, spellModBody_eq, hs, hc]

theorem flatTotal_nil (w : World) (spellInfo : SpellEntry) (spellId : Nat) (basevalue : Int)
    (spell : Option Nat) : flatTotal w spellInfo spellId basevalue spell [] = 0 := rfl

theorem flatTotal_cons (w : World) (spellInfo : SpellEntry) (spellId : Nat) (basevalue : Int)
    (spell : Option Nat) (mod : SpellModifier) (rest : List SpellModifier) :
    flatTotal w spellInfo spellId basevalue spell (mod :: rest)
      = (if w.IsAffectedBySpellmod spellInfo mod spell = true ∧ mod.type = .SPELLMOD_FLAT then
          mod.value else 0)
        + flatTotal w spellInfo spellId basevalue
            (nextContext w spellInfo spellId basevalue spell mod) rest := by
  unfold flatTotal
  simp only [affectingFlat]
  split_ifs <;> simp

theorem pctTotal_nil (w : World) (spellInfo : SpellEntry) (spellId : Nat) (basevalue : Int)
    (spell : Option Nat) : pctTotal w spellInfo spellId basevalue spell [] = 0 := rfl

theorem pctTotal_cons (w : World) (spellInfo : SpellEntry) (spellId : Nat) (basevalue : Int)
    (spell : Option Nat) (mod : SpellModifier) (rest : List SpellModifier) :
    pctTotal w spellInfo spellId basevalue spell (mod :: rest)
      = (if isApplied w spellInfo basevalue spell mod ∧ mod.type = .SPELLMOD_PCT then
          mod.value else 0)
        + pctTotal w spellInfo spellId basevalue
            (nextContext w spellInfo spellId basevalue spell mod) rest := by
  unfold pctTotal
  simp only [appliedPct]
  split_ifs <;> simp

/-- The variable `addedFlat` after the loop is the wrapped sum of its start value and
the values of the affecting flat modifiers. -/
theorem spellModLoop_addedFlat (w : World) (spellInfo : SpellEntry) (spellId : Nat)
    (basevalue : Int) (st : ModLoop) (mods : List SpellModifier) (h : isInt32 st.addedFlat) :
    (spellModLoop w spellInfo spellId basevalue st mods).1.addedFlat
      = wrapInt32 (st.addedFlat + flatTotal w spellInfo spellId basevalue st.spell mods) := by
  induction mods generalizing st with
  | nil => simp [spellModLoop, flatTotal_nil, wrapInt32_eq_self h]
  | cons mod rest ih =>
    simp only [spellModLoop, flatTotal_cons]
    rw [ih, spellModBody_eq]
    · simp only []
      split_ifs
      · rw [wrapInt32_wrapInt32_add, add_assoc]
      · rw [zero_add]
    · rw [spellModBody_eq]
      simp only []
      split_ifs
      · exact isInt32_wrapInt32 _
      · exact h

/-- The variable `totalpct` after the loop is the wrapped sum of its start value and the
values of the affecting percent modifiers that are not skipped. -/
theorem spellModLoop_totalpct (w : World) (spellInfo : SpellEntry) (spellId : Nat)
    (basevalue : Int) (st : ModLoop) (mods : List SpellModifier) (h : isInt32 st.totalpct) :
    (spellModLoop w spellInfo spellId basevalue st mods).1.totalpct
      = wrapInt32 (st.totalpct + pctTotal w spellInfo spellId basevalue st.spell mods) := by
  induction mods generalizing st with
  | nil => simp [spellModLoop, pctTotal_nil, wrapInt32_eq_self h]
  | cons mod rest ih =>
    simp only [spellModLoop, pctTotal_cons]
    rw [ih, spellModBody_eq]
    · simp only []
      split_ifs
      · rw [wrapInt32_wrapInt32_add, add_assoc]
      · rw [zero_add]
    · rw [spellModBody_eq]
      simp only []
      split_ifs
      · exact isInt32_wrapInt32 _
      · exact h

theorem ApplySpellMod_unknown (w : World) (p : Player) (spellId : Nat) (op : SpellModOp)
    (b : Int) (spell : Option Nat) (h : w.LookupEntry spellId = none) :
    ApplySpellMod w p spellId op b spell = ⟨0, b, p⟩ := by
  unfold ApplySpellMod
  rw [h]

theorem ApplySpellMod_ret (w : World) (p : Player) (spellId : Nat) (op : SpellModOp)
    (b : Int) (spell : Option Nat) (spellInfo : SpellEntry)
    (h : w.LookupEntry spellId = some spellInfo) :
    (ApplySpellMod w p spellId op b spell).ret
      = spellModDiff b (wrapInt32 (pctTotal w spellInfo spellId b spell (p.m_spellMods op)))
          (wrapInt32 (flatTotal w spellInfo spellId b spell (p.m_spellMods op))) := by
  unfold ApplySpellMod
  rw [h]
  simp only []
  have h0 : isInt32 0 := by decide
  rw [spellModLoop_totalpct _ _ _ _ _ _ h0, spellModLoop_addedFlat _ _ _ _ _ _ h0]
  simp only [zero_add]

theorem ApplySpellMod_basevalue (w : World) (p : Player) (spellId : Nat) (op : SpellModOp)
    (b : Int) (spell : Option Nat) (spellInfo : SpellEntry)
    (h : w.LookupEntry spellId = some spellInfo) :
    (ApplySpellMod w p spellId op b spell).basevalue
      = wrapInt32 (b + (ApplySpellMod w p spellId op b spell).ret) := by
  unfold ApplySpellMod
  rw [h]

theorem ApplySpellMod_mods (w : World) (p : Player) (spellId : Nat) (op : SpellModOp)
    (b : Int) (spell : Option Nat) (spellInfo : SpellEntry)
    (h : w.LookupEntry spellId = some spellInfo) :
    (ApplySpellMod w p spellId op b spell).player.m_spellMods op
      = modsAfter w spellInfo spellId b spell (p.m_spellMods op) := by
  unfold ApplySpellMod
  rw [h]
  simp only [Function.update_same]
  rw [spellModLoop_mods]

theorem ApplySpellMod_mods_other (w : World) (p : Player) (spellId : Nat) (op : SpellModOp)
    (b : Int) (spell : Option Nat) (op2 : SpellModOp) (h : op2 ≠ op) :
    (ApplySpellMod w p spellId op b spell).player.m_spellMods op2 = p.m_spellMods op2 := by
  unfold ApplySpellMod
  cases w.LookupEntry spellId with
  | none => rfl
  | some spellInfo => simp only [Function.update_noteq h]

theorem spellModDiff_exact (b F P : Int) (h : noOverflow b F P) :
    spellModDiff b (wrapInt32 P) (wrapInt32 F) = exactDelta b F P := by
  obtain ⟨hF, hP, hbP, h100, hFP, hd, _⟩ := h
  unfold spellModDiff
  rw [wrapInt32_eq_self hP, wrapInt32_eq_self hF, wrapInt32_eq_self hbP,
    wrapInt32_eq_self h100, wrapInt32_eq_self hFP]
  exact wrapInt32_eq_self hd

theorem getElem?_middle {α : Type} (xs ys : List α) (x : α) (n : Nat) (h : xs.length = n) :
    (xs ++ x :: ys)[n]? = some x := by
  subst h
  rw [List.getElem?_append_right (le_refl _)]
  simp

theorem modsAfter_length (w : World) (spellInfo : SpellEntry) (spellId : Nat) (basevalue : Int)
    (ctx : Option Nat) (mods : List SpellModifier) :
    (modsAfter w spellInfo spellId basevalue ctx mods).length = mods.length := by
  induction mods generalizing ctx with
  | nil => rfl
  | cons mod rest ih => simp only [modsAfter, List.length_cons, ih]

theorem modsAfter_append (w : World) (spellInfo : SpellEntry) (spellId : Nat) (basevalue : Int)
    (ctx : Option Nat) (xs ys : List SpellModifier) :
    modsAfter w spellInfo spellId basevalue ctx (xs ++ ys)
      = modsAfter w spellInfo spellId basevalue ctx xs
        ++ modsAfter w spellInfo spellId basevalue
            (contextAt w spellInfo spellId basevalue ctx xs) ys := by
  induction xs generalizing ctx with
  | nil => rfl
  | cons mod rest ih =>
    rw [List.cons_append, contextAt_cons]
    simp only [modsAfter]
    rw [ih, List.cons_append]

/-- The modifier that follows `pre` in the list is, after the loop, what one iteration
makes of it under the context in force when the loop reaches it. -/
theorem modsAfter_getElem (w : World) (spellInfo : SpellEntry) (spellId : Nat)
    (basevalue : Int) (ctx : Option Nat) (pre post : List SpellModifier) (mod : SpellModifier) :
    (modsAfter w spellInfo spellId basevalue ctx (pre ++ mod :: post))[pre.length]?
      = some (modAfter w spellInfo spellId basevalue
          (contextAt w spellInfo spellId basevalue ctx pre) mod) := by
  rw [modsAfter_append]
  simp only [modsAfter]
  exact getElem?_middle _ _ _ _ (modsAfter_length _ _ _ _ _ _)

theorem modAfter_of_no_charges (w : World) (spellInfo : SpellEntry) (spellId : Nat)
    (basevalue : Int) (ctx : Option Nat) (mod : SpellModifier) (h : mod.charges ≤ 0) :
    modAfter w spellInfo spellId basevalue ctx mod = mod := by
  unfold modAfter
  rw [if_neg]
  intro hc
  have := hc.2.1
  omega

theorem spellModLoop_append (w : World) (spellInfo : SpellEntry) (spellId : Nat)
    (basevalue : Int) (st : ModLoop) (xs ys : List SpellModifier) :
    spellModLoop w spellInfo spellId basevalue st (xs ++ ys)
      = ((spellModLoop w spellInfo spellId basevalue
            (spellModLoop w spellInfo spellId basevalue st xs).1 ys).1,
         (spellModLoop w spellInfo spellId basevalue st xs).2
          ++ (spellModLoop w spellInfo spellId basevalue
            (spellModLoop w spellInfo spellId basevalue st xs).1 ys).2) := by
  induction xs generalizing st with
  | nil => rfl
  | cons mod rest ih =>
    rw [List.cons_append]
    simp only [spellModLoop]
    rw [ih, List.cons_append]

theorem spellModLoop_length (w : World) (spellInfo : SpellEntry) (spellId : Nat)
    (basevalue : Int) (st : ModLoop) (mods : List SpellModifier) :
    (spellModLoop w spellInfo spellId basevalue st mods).2.length = mods.length := by
  rw [spellModLoop_mods, modsAfter_length]

/-- An iteration that ends in a `continue` leaves the loop as if the modifier were not in
the list. -/
theorem spellModLoop_skip (w : World) (spellInfo : SpellEntry) (spellId : Nat)
    (basevalue : Int) (st : ModLoop) (pre post : List SpellModifier) (mod : SpellModifier)
    (h : spellModBody w spellInfo spellId basevalue
      (spellModLoop w spellInfo spellId basevalue st pre).1 mod
        = ((spellModLoop w spellInfo spellId basevalue st pre).1, mod)) :
    spellModLoop w spellInfo spellId basevalue st (pre ++ mod :: post)
      = ((spellModLoop w spellInfo spellId basevalue st (pre ++ post)).1,
         (spellModLoop w spellInfo spellId basevalue st pre).2 ++ mod ::
          (spellModLoop w spellInfo spellId basevalue
            (spellModLoop w spellInfo spellId basevalue st pre).1 post).2) := by
  rw [spellModLoop_append, spellModLoop_append]
  simp only [spellModLoop, h]

theorem spellModBody_of_not_affected (w : World) (spellInfo : SpellEntry) (spellId : Nat)
    (basevalue : Int) (st : ModLoop) (mod : SpellModifier)
    (h : w.IsAffectedBySpellmod spellInfo mod st.spell = false) :
    spellModBody w spellInfo spellId basevalue st mod = (st, mod) := by
  unfold spellModBody
  rw [if_pos h]

theorem ApplySpellMod_known (w : World) (p : Player) (spellId : Nat) (op : SpellModOp)
    (b : Int) (spell : Option Nat) (spellInfo : SpellEntry)
    (h : w.LookupEntry spellId = some spellInfo) :
    ApplySpellMod w p spellId op b spell
      = ⟨spellModDiff b
          (spellModLoop w spellInfo spellId b ⟨0, 0, spell, p.m_SpellModRemoveCount⟩
            (p.m_spellMods op)).1.totalpct
          (spellModLoop w spellInfo spellId b ⟨0, 0, spell, p.m_SpellModRemoveCount⟩
            (p.m_spellMods op)).1.addedFlat,
        wrapInt32 (b + spellModDiff b
          (spellModLoop w spellInfo spellId b ⟨0, 0, spell, p.m_SpellModRemoveCount⟩
            (p.m_spellMods op)).1.totalpct
          (spellModLoop w spellInfo spellId b ⟨0, 0, spell, p.m_SpellModRemoveCount⟩
            (p.m_spellMods op)).1.addedFlat),
        ⟨Function.update p.m_spellMods op
          (spellModLoop w spellInfo spellId b ⟨0, 0, spell, p.m_SpellModRemoveCount⟩
            (p.m_spellMods op)).2,
          (spellModLoop w spellInfo spellId b ⟨0, 0, spell, p.m_SpellModRemoveCount⟩
            (p.m_spellMods op)).1.m_SpellModRemoveCount⟩⟩ := by
  unfold ApplySpellMod
  rw [h]

theorem modAfter_cases (w : World) (spellInfo : SpellEntry) (spellId : Nat) (basevalue : Int)
    (ctx : Option Nat) (mod : SpellModifier) :
    modAfter w spellInfo spellId basevalue ctx mod = mod
      ∨ (mod.charges > 0
          ∧ modAfter w spellInfo spellId basevalue ctx mod
              = useCharge (callContext w spellId ctx) mod) := by
  unfold modAfter
  by_cases hc : isApplied w spellInfo basevalue ctx mod ∧ mod.charges > 0
      ∧ (mod.lastAffected = none ∨ mod.lastAffected ≠ callContext w spellId ctx)
  · rw [if_pos hc]
    exact Or.inr ⟨hc.2.1, rfl⟩
  · rw [if_neg hc]
    exact Or.inl rfl

theorem modsAfter_forall₂ (w : World) (spellInfo : SpellEntry) (spellId : Nat)
    (basevalue : Int) (ctx : Option Nat) (mods : List SpellModifier) :
    List.Forall₂
      (fun m m2 => sameIdentity m m2
        ∧ (m2 = m ∨ (m.charges > 0
            ∧ m2.charges = if m.charges = 1 then -1 else m.charges - 1)))
      mods (modsAfter w spellInfo spellId basevalue ctx mods) := by
  induction mods generalizing ctx with
  | nil => exact List.Forall₂.nil
  | cons m rest ih =>
    simp only [modsAfter]
    refine List.Forall₂.cons ?_ (ih _)
    rcases modAfter_cases w spellInfo spellId basevalue ctx m with h | ⟨hch, h⟩
    · rw [h]
      exact ⟨⟨rfl, rfl, rfl, rfl, rfl⟩, Or.inl rfl⟩
    · rw [h]
      exact ⟨⟨rfl, rfl, rfl, rfl, rfl⟩, Or.inr ⟨hch, rfl⟩⟩


theorem flatTotal_append (w : World) (spellInfo : SpellEntry) (spellId : Nat) (basevalue : Int)
    (spell : Option Nat) (xs ys : List SpellModifier) :
    flatTotal w spellInfo spellId basevalue spell (xs ++ ys)
      = flatTotal w spellInfo spellId basevalue spell xs
        + flatTotal w spellInfo spellId basevalue
            (contextAt w spellInfo spellId basevalue spell xs) ys := by
  induction xs generalizing spell with
  | nil => rw [List.nil_append, flatTotal_nil, zero_add, contextAt_nil]
  | cons mod rest ih => rw [List.cons_append, flatTotal_cons, flatTotal_cons, ih, contextAt_cons,
      add_assoc]

theorem pctTotal_append (w : World) (spellInfo : SpellEntry) (spellId : Nat) (basevalue : Int)
    (spell : Option Nat) (xs ys : List SpellModifier) :
    pctTotal w spellInfo spellId basevalue spell (xs ++ ys)
      = pctTotal w spellInfo spellId basevalue spell xs
        + pctTotal w spellInfo spellId basevalue
            (contextAt w spellInfo spellId basevalue spell xs) ys := by
  induction xs generalizing spell with
  | nil => rw [List.nil_append, pctTotal_nil, zero_add, contextAt_nil]
  | cons mod rest ih => rw [List.cons_append, pctTotal_cons, pctTotal_cons, ih, contextAt_cons,
      add_assoc]

theorem nextContext_of_not_applied (w : World) (spellInfo : SpellEntry) (spellId : Nat)
    (basevalue : Int) (ctx : Option Nat) (mod : SpellModifier)
    (h : ¬ isApplied w spellInfo basevalue ctx mod) :
    nextContext w spellInfo spellId basevalue ctx mod = ctx := by
  unfold nextContext
  rw [if_neg]
  exact fun hc => h hc.1

theorem nextContext_of_no_charges (w : World) (spellInfo : SpellEntry) (spellId : Nat)
    (basevalue : Int) (ctx : Option Nat) (mod : SpellModifier) (h : mod.charges ≤ 0) :
    nextContext w spellInfo spellId basevalue ctx mod = ctx := by
  unfold nextContext
  rw [if_neg]
  intro hc
  have := hc.2
  omega

theorem setMods_same (p : Player) (op : SpellModOp) (mods : List SpellModifier) :
    (setMods p op mods).m_spellMods op = mods := by
  simp [setMods]

theorem setMods_other (p : Player) (op op2 : SpellModOp) (mods : List SpellModifier)
    (h : op2 ≠ op) : (setMods p op mods).m_spellMods op2 = p.m_spellMods op2 := by
  simp [setMods, Function.update_noteq h]

theorem setMods_count (p : Player) (op : SpellModOp) (mods : List SpellModifier) :
    (setMods p op mods).m_SpellModRemoveCount = p.m_SpellModRemoveCount := rfl

theorem exists_split_of_getElem? {α : Type} (l : List α) (i : Nat) (x : α)
    (h : l[i]? = some x) : ∃ pre post, l = pre ++ x :: post ∧ pre.length = i := by
  induction l generalizing i with
  | nil => simp at h
  | cons y rest ih =>
    cases i with
    | zero =>
      simp at h
      exact ⟨[], rest, by rw [h]; rfl, rfl⟩
    | succ j =>
      simp at h
      obtain ⟨pre, post, hl, hlen⟩ := ih j h
      exact ⟨y :: pre, post, by rw [hl]; rfl, by simp [hlen]⟩

theorem ApplySpellMod_count (w : World) (p : Player) (spellId : Nat) (op : SpellModOp)
    (b : Int) (spell : Option Nat) (spellInfo : SpellEntry)
    (h : w.LookupEntry spellId = some spellInfo) :
    (ApplySpellMod w p spellId op b spell).player.m_SpellModRemoveCount
      = (spellModLoop w spellInfo spellId b ⟨0, 0, spell, p.m_SpellModRemoveCount⟩
          (p.m_spellMods op)).1.m_SpellModRemoveCount := by
  rw [ApplySpellMod_known w p spellId op b spell spellInfo h]

/-- A modifier without charges left to use (`0` unlimited, `-1` exhausted) is not
written to by any call. -/
theorem ApplySpellMod_frozen (w : World) (p : Player) (spellId : Nat) (op2 : SpellModOp)
    (b : Int) (spell : Option Nat) (op : SpellModOp) (i : Nat) (mod : SpellModifier)
    (hget : (p.m_spellMods op)[i]? = some mod) (hch : mod.charges ≤ 0) :
    ((ApplySpellMod w p spellId op2 b spell).player.m_spellMods op)[i]? = some mod := by
  by_cases hop : op = op2
  · subst hop
    cases hl : w.LookupEntry spellId with
    | none =>
      rw [ApplySpellMod_unknown w p spellId op b spell hl]
      exact hget
    | some spellInfo =>
      obtain ⟨pre, post, hlist, hlen⟩ := exists_split_of_getElem? _ _ _ hget
      rw [ApplySpellMod_mods w p spellId op b spell spellInfo hl, hlist, ← hlen,
        modsAfter_getElem, modAfter_of_no_charges _ _ _ _ _ _ hch]
  · rw [ApplySpellMod_mods_other w p spellId op2 b spell op hop]
    exact hget

theorem applyCalls_frozen (op : SpellModOp) (i : Nat) (mod : SpellModifier)
    (hch : mod.charges ≤ 0) (calls : List Call) (p : Player)
    (hget : (p.m_spellMods op)[i]? = some mod) :
    ((applyCalls p calls).m_spellMods op)[i]? = some mod := by
  induction calls generalizing p with
  | nil => exact hget
  | cons c rest ih =>
    simp only [applyCalls]
    exact ih _ (ApplySpellMod_frozen c.w p c.spellId c.op c.basevalue c.spell op i mod hget hch)

theorem flatTotal_insert (w : World) (spellInfo : SpellEntry) (spellId : Nat) (basevalue : Int)
    (spell : Option Nat) (pre post : List SpellModifier) (mod : SpellModifier)
    (hch : mod.charges ≤ 0) :
    flatTotal w spellInfo spellId basevalue spell (pre ++ mod :: post)
      = flatTotal w spellInfo spellId basevalue spell (pre ++ post)
        + (if w.IsAffectedBySpellmod spellInfo mod
              (contextAt w spellInfo spellId basevalue spell pre) = true
            ∧ mod.type = .SPELLMOD_FLAT then mod.value else 0) := by
  rw [flatTotal_append, flatTotal_append, flatTotal_cons,
    nextContext_of_no_charges _ _ _ _ _ _ hch]
  ring

theorem pctTotal_insert (w : World) (spellInfo : SpellEntry) (spellId : Nat) (basevalue : Int)
    (spell : Option Nat) (pre post : List SpellModifier) (mod : SpellModifier)
    (hch : mod.charges ≤ 0) :
    pctTotal w spellInfo spellId basevalue spell (pre ++ mod :: post)
      = pctTotal w spellInfo spellId basevalue spell (pre ++ post)
        + (if isApplied w spellInfo basevalue
              (contextAt w spellInfo spellId basevalue spell pre) mod
            ∧ mod.type = .SPELLMOD_PCT then mod.value else 0) := by
  rw [pctTotal_append, pctTotal_append, pctTotal_cons,
    nextContext_of_no_charges _ _ _ _ _ _ hch]
  ring

/-- The loop over a list that holds a modifier without charges to use, against the loop
over the list without it: the same counter, and the same modifiers around it. -/
theorem spellModLoop_insert (w : World) (spellInfo : SpellEntry) (spellId : Nat)
    (basevalue : Int) (st : ModLoop) (pre post : List SpellModifier) (mod : SpellModifier)
    (hch : mod.charges ≤ 0) :
    (spellModLoop w spellInfo spellId basevalue st (pre ++ mod :: post)).1.m_SpellModRemoveCount
        = (spellModLoop w spellInfo spellId basevalue st (pre ++ post)).1.m_SpellModRemoveCount
    ∧ (spellModLoop w spellInfo spellId basevalue st (pre ++ mod :: post)).2
        = modsAfter w spellInfo spellId basevalue st.spell pre ++ mod ::
            modsAfter w spellInfo spellId basevalue
              (contextAt w spellInfo spellId basevalue st.spell pre) post
    ∧ (spellModLoop w spellInfo spellId basevalue st (pre ++ post)).2
        = modsAfter w spellInfo spellId basevalue st.spell pre ++
            modsAfter w spellInfo spellId basevalue
              (contextAt w spellInfo spellId basevalue st.spell pre) post := by
  refine ⟨?_, ?_, ?_⟩
  · rw [spellModLoop_append, spellModLoop_append]
    simp only [spellModLoop]
    apply spellModLoop_count_congr
    · rw [spellModBody_eq]
      exact nextContext_of_no_charges _ _ _ _ _ _ hch
    · rw [spellModBody_eq]
      simp only []
      rw [if_neg]
      intro hc
      have := hc.2.1
      omega
  · rw [spellModLoop_mods, modsAfter_append]
    simp only [modsAfter]
    rw [modAfter_of_no_charges _ _ _ _ _ _ hch, nextContext_of_no_charges _ _ _ _ _ _ hch]
  · rw [spellModLoop_mods, modsAfter_append]

theorem differByUnlimited_step (op : SpellModOp) (mod : SpellModifier) (n : Nat)
    (hch : mod.charges ≤ 0) (p q : Player) (h : differByUnlimited op mod n p q) (c : Call) :
    differByUnlimited op mod n
      (ApplySpellMod c.w p c.spellId c.op c.basevalue c.spell).player
      (ApplySpellMod c.w q c.spellId c.op c.basevalue c.spell).player := by
  obtain ⟨⟨pre, post, hp, hq, hlen⟩, hother, hcount⟩ := h
  cases hl : c.w.LookupEntry c.spellId with
  | none =>
    rw [ApplySpellMod_unknown _ _ _ _ _ _ hl, ApplySpellMod_unknown _ _ _ _ _ _ hl]
    exact ⟨⟨pre, post, hp, hq, hlen⟩, hother, hcount⟩
  | some spellInfo =>
    by_cases hop : c.op = op
    · have hins := spellModLoop_insert c.w spellInfo c.spellId c.basevalue
        ⟨0, 0, c.spell, p.m_SpellModRemoveCount⟩ pre post mod hch
      refine ⟨⟨modsAfter c.w spellInfo c.spellId c.basevalue c.spell pre,
        modsAfter c.w spellInfo c.spellId c.basevalue
          (contextAt c.w spellInfo c.spellId c.basevalue c.spell pre) post, ?_, ?_, ?_⟩, ?_, ?_⟩
      · rw [← hop, ApplySpellMod_mods _ _ _ _ _ _ _ hl, hop, hp, ← spellModLoop_mods _ _ _ _
          ⟨0, 0, c.spell, p.m_SpellModRemoveCount⟩]
        exact hins.2.1
      · rw [← hop, ApplySpellMod_mods _ _ _ _ _ _ _ hl, hop, hq, ← spellModLoop_mods _ _ _ _
          ⟨0, 0, c.spell, p.m_SpellModRemoveCount⟩]
        exact hins.2.2
      · rw [modsAfter_length, hlen]
      · intro op2 hne
        rw [ApplySpellMod_mods_other _ _ _ _ _ _ op2 (hop ▸ hne),
          ApplySpellMod_mods_other _ _ _ _ _ _ op2 (hop ▸ hne)]
        exact hother op2 hne
      · rw [ApplySpellMod_count _ _ _ _ _ _ _ hl, ApplySpellMod_count _ _ _ _ _ _ _ hl, hop, hp,
          hq, ← hcount]
        exact hins.1
    · have hsame : p.m_spellMods c.op = q.m_spellMods c.op := hother c.op hop
      have hne : op ≠ c.op := fun h => hop h.symm
      refine ⟨⟨pre, post, ?_, ?_, hlen⟩, ?_, ?_⟩
      · rw [ApplySpellMod_mods_other _ _ _ _ _ _ op hne]
        exact hp
      · rw [ApplySpellMod_mods_other _ _ _ _ _ _ op hne]
        exact hq
      · intro op2 hne2
        by_cases h2 : op2 = c.op
        · rw [h2, ApplySpellMod_mods _ _ _ _ _ _ _ hl, ApplySpellMod_mods _ _ _ _ _ _ _ hl, hsame]
        · rw [ApplySpellMod_mods_other _ _ _ _ _ _ op2 h2,
            ApplySpellMod_mods_other _ _ _ _ _ _ op2 h2]
          exact hother op2 hne2
      · rw [ApplySpellMod_count _ _ _ _ _ _ _ hl, ApplySpellMod_count _ _ _ _ _ _ _ hl, hsame,
          hcount]

theorem differByUnlimited_calls (op : SpellModOp) (mod : SpellModifier) (n : Nat)
    (hch : mod.charges ≤ 0) (calls : List Call) (p q : Player)
    (h : differByUnlimited op mod n p q) :
    differByUnlimited op mod n (applyCalls p calls) (applyCalls q calls) := by
  induction calls generalizing p q with
  | nil => exact h
  | cons c rest ih =>
    simp only [applyCalls]
    exact ih _ _ (differByUnlimited_step op mod n hch p q h c)

/-! ## What the words of the specification select -/

theorem nextContext_some (w : World) (spellInfo : SpellEntry) (spellId : Nat) (basevalue : Int)
    (a : Nat) (mod : SpellModifier) :
    nextContext w spellInfo spellId basevalue (some a) mod = some a := by
  unfold nextContext
  split_ifs
  · exact callContext_some w spellId a
  · rfl

/-- In a call that carries a casting context, the affecting flat modifiers are the
modifiers of the list that the predicate accepts under that context and whose type is
flat. -/
theorem affectingFlat_some (w : World) (spellInfo : SpellEntry) (spellId : Nat)
    (basevalue : Int) (a : Nat) (mods : List SpellModifier) :
    affectingFlat w spellInfo spellId basevalue (some a) mods
      = mods.filter (fun m => decide (w.IsAffectedBySpellmod spellInfo m (some a) = true
          ∧ m.type = .SPELLMOD_FLAT)) := by
  induction mods with
  | nil => rfl
  | cons mod rest ih =>
    simp only [affectingFlat, nextContext_some, ih, List.filter_cons]
    by_cases h : w.IsAffectedBySpellmod spellInfo mod (some a) = true
        ∧ mod.type = .SPELLMOD_FLAT
    · rw [if_pos h, if_pos (decide_eq_true h)]
      rfl
    · rw [if_neg h, if_neg (by simpa using h)]
      rfl

/-- In a call that carries a casting context, the applied percent modifiers are the
modifiers of the list that the predicate accepts under that context, that neither the
zero-base rule nor the casting-time rule skips, and whose type is percent. -/
theorem appliedPct_some (w : World) (spellInfo : SpellEntry) (spellId : Nat)
    (basevalue : Int) (a : Nat) (mods : List SpellModifier) :
    appliedPct w spellInfo spellId basevalue (some a) mods
      = mods.filter (fun m => decide (isApplied w spellInfo basevalue (some a) m
          ∧ m.type = .SPELLMOD_PCT)) := by
  induction mods with
  | nil => rfl
  | cons mod rest ih =>
    simp only [appliedPct, nextContext_some, ih, List.filter_cons]
    by_cases h : isApplied w spellInfo basevalue (some a) mod ∧ mod.type = .SPELLMOD_PCT
    · rw [if_pos h, if_pos (decide_eq_true h)]
      rfl
    · rw [if_neg h, if_neg (by simpa using h)]
      rfl

/-- The context under which a modifier is judged is the `spell` argument or the call's
casting context. -/
theorem contextAt_eq_or (w : World) (spellInfo : SpellEntry) (spellId : Nat) (basevalue : Int)
    (spell : Option Nat) (pre : List SpellModifier) :
    contextAt w spellInfo spellId basevalue spell pre = spell
      ∨ contextAt w spellInfo spellId basevalue spell pre = callContext w spellId spell := by
  induction pre generalizing spell with
  | nil => exact Or.inl rfl
  | cons mod rest ih =>
    rw [contextAt_cons]
    unfold nextContext
    split_ifs
    · rcases ih (callContext w spellId spell) with h | h
      · exact Or.inr h
      · rw [callContext_idem] at h
        exact Or.inr h
    · exact ih spell

/-! ## The `ApplySpellMod` claims -/

/-- C1: for a known spell id and a base value `b`, when nothing overflows 32 bits,
`ApplySpellMod` returns `delta = (b * P) / 100 + (F * (100 + P)) / 100`, both divisions
truncating toward zero, and writes `b + delta` back into the base value; `F` is the sum
of the values of the affecting flat modifiers registered under the operation and `P`
the sum of the values of the affecting percent modifiers that are not skipped. -/
theorem applySpellMod_delta (w : World) (p : Player) (spellId : Nat) (op : SpellModOp)
    (b : Int) (spell : Option Nat) (spellInfo : SpellEntry) (F P : Int)
    (hknown : w.LookupEntry spellId = some spellInfo)
    (hF : F = flatTotal w spellInfo spellId b spell (p.m_spellMods op))
    (hP : P = pctTotal w spellInfo spellId b spell (p.m_spellMods op))
    (hfit : noOverflow b F P) :
    (ApplySpellMod w p spellId op b spell).ret = exactDelta b F P
      ∧ (ApplySpellMod w p spellId op b spell).basevalue = b + exactDelta b F P := by
  have hret : (ApplySpellMod w p spellId op b spell).ret = exactDelta b F P := by
    rw [ApplySpellMod_ret w p spellId op b spell spellInfo hknown, ← hF, ← hP]
    exact spellModDiff_exact b F P hfit
  refine ⟨hret, ?_⟩
  rw [ApplySpellMod_basevalue w p spellId op b spell spellInfo hknown, hret]
  exact wrapInt32_eq_self hfit.2.2.2.2.2.2

/-- C1, the scenario of section 8: base value 100 with one `+10 flat` and one
`+50 percent` modifier gives delta 65 and adjusted value 165. -/
theorem applySpellMod_delta_witness :
    maskWorld.LookupEntry 7 = some 7
      ∧ (10 : Int) = flatTotal maskWorld 7 7 100 none (scenarioPlayer.m_spellMods 3)
      ∧ (50 : Int) = pctTotal maskWorld 7 7 100 none (scenarioPlayer.m_spellMods 3)
      ∧ noOverflow 100 10 50
      ∧ exactDelta 100 10 50 = 65
      ∧ (ApplySpellMod maskWorld scenarioPlayer 7 3 100 none).ret = exactDelta 100 10 50
      ∧ (ApplySpellMod maskWorld scenarioPlayer 7 3 100 none).basevalue
          = 100 + exactDelta 100 10 50 :=
  ⟨rfl, by decide, by decide, by decide, by decide,
    applySpellMod_delta maskWorld scenarioPlayer 7 3 100 none 7 10 50 rfl (by decide)
      (by decide) (by decide)⟩

/-- C2: for a known spell id and an `int32` base value, when no modifier is registered
under the queried operation the call returns delta 0, leaves the base value as it is and
leaves the player as it is: every modifier of every list and the pending-removal counter
are unchanged. -/
theorem applySpellMod_no_modifier (w : World) (p : Player) (spellId : Nat) (op : SpellModOp)
    (b : Int) (spell : Option Nat) (spellInfo : SpellEntry)
    (hknown : w.LookupEntry spellId = some spellInfo)
    (hb : isInt32 b)
    (hnone : p.m_spellMods op = []) :
    (ApplySpellMod w p spellId op b spell).ret = 0
      ∧ (ApplySpellMod w p spellId op b spell).basevalue = b
      ∧ (ApplySpellMod w p spellId op b spell).player.m_spellMods = p.m_spellMods
      ∧ (ApplySpellMod w p spellId op b spell).player.m_SpellModRemoveCount
          = p.m_SpellModRemoveCount := by
  unfold ApplySpellMod
  rw [hknown, hnone]
  have hd : spellModDiff b 0 0 = 0 := by
    unfold spellModDiff
    simp [wrapInt32]
  simp only [spellModLoop, hd, add_zero, wrapInt32_eq_self hb, true_and]
  refine ⟨?_, trivial⟩
  rw [← hnone]
  exact Function.update_eq_self op p.m_spellMods

/-- C2 at a player whose only modifiers are registered under another operation. -/
theorem applySpellMod_no_modifier_witness :
    maskWorld.LookupEntry 7 = some 7 ∧ isInt32 100 ∧ scenarioPlayer.m_spellMods 4 = []
      ∧ (ApplySpellMod maskWorld scenarioPlayer 7 4 100 (some 1)).ret = 0
      ∧ (ApplySpellMod maskWorld scenarioPlayer 7 4 100 (some 1)).basevalue = 100
      ∧ (ApplySpellMod maskWorld scenarioPlayer 7 4 100 (some 1)).player.m_spellMods
          = scenarioPlayer.m_spellMods
      ∧ (ApplySpellMod maskWorld scenarioPlayer 7 4 100 (some 1)).player.m_SpellModRemoveCount
          = scenarioPlayer.m_SpellModRemoveCount :=
  ⟨rfl, by decide, by decide,
    applySpellMod_no_modifier maskWorld scenarioPlayer 7 4 100 (some 1) 7 rfl (by decide)
      (by decide)⟩

/-- C4 fails on the code: queries by the casts A = 1, B = 2 and again A = 1 use three
charges of a modifier with three charges, not two. After A two charges are left, after
A, B one, and after A, B, A none: the modifier is marked `-1` and counted for removal. -/
theorem interleaved_casts_use_three_charges :
    ((applyCalls threeChargePlayer [queryBy (some 1)]).m_spellMods 3).map
        (fun m => (m.charges, m.lastAffected)) = [(2, some 1)]
      ∧ ((applyCalls threeChargePlayer [queryBy (some 1), queryBy (some 2)]).m_spellMods 3).map
        (fun m => (m.charges, m.lastAffected)) = [(1, some 2)]
      ∧ ((applyCalls threeChargePlayer
          [queryBy (some 1), queryBy (some 2), queryBy (some 1)]).m_spellMods 3).map
        (fun m => (m.charges, m.lastAffected)) = [(-1, some 1)]
      ∧ (applyCalls threeChargePlayer
          [queryBy (some 1), queryBy (some 2), queryBy (some 1)]).m_SpellModRemoveCount = 1 := by
  decide

/-- C5 fails on the code as stated: the flat modifier of `chargedPlayer` has two charges;
after one query by the cast at address 9 it has `charges = 1` and that cast as its last
recorded context, it affects the spell and is not skipped, and further queries that all
carry the casting context 9 consume nothing: the charges stay at 1 and never become
`-1`. -/
theorem last_charge_kept_by_same_cast :
    ((applyCalls chargedPlayer [queryBy (some 9)]).m_spellMods 3)[1]?
        = some ⟨3, .SPELLMOD_FLAT, 1, 15, 1, 500, some 9⟩
      ∧ isApplied maskWorld 7 100 (some 9) ⟨3, .SPELLMOD_FLAT, 1, 15, 1, 500, some 9⟩
      ∧ ((applyCalls (applyCalls chargedPlayer [queryBy (some 9)])
            [queryBy (some 9), queryBy (some 9)]).m_spellMods 3)[1]?
          = some ⟨3, .SPELLMOD_FLAT, 1, 15, 1, 500, some 9⟩ := by
  decide

/-- C5 as amended: a modifier with one charge whose last recorded context is not the cast `a`, and
which affects the spell and is not skipped in a first call carrying the casting context
`a`, has charges `-1` after that call, and after every further sequence of calls,
whatever their casting contexts, spells and operations, it still has charges `-1`: one
charge is consumed in total. -/
theorem single_charge_consumed_once (p : Player) (op : SpellModOp)
    (pre post : List SpellModifier) (mod : SpellModifier) (w : World) (spellId : Nat) (b : Int)
    (a : Nat) (spellInfo : SpellEntry)
    (hlist : p.m_spellMods op = pre ++ mod :: post)
    (hch : mod.charges = 1)
    (hlast : mod.lastAffected ≠ some a)
    (hknown : w.LookupEntry spellId = some spellInfo)
    (happ : isApplied w spellInfo b (some a) mod)
    (later : List Call) :
    ((applyCalls p (⟨w, spellId, op, b, some a⟩ :: later)).m_spellMods op)[pre.length]?
      = some ⟨mod.op, mod.type, -1, mod.value, mod.mask, mod.spellId, some a⟩ := by
  simp only [applyCalls]
  apply applyCalls_frozen
  · show (-1 : Int) ≤ 0
    decide
  · have happ2 : isApplied w spellInfo b (contextAt w spellInfo spellId b (some a) pre) mod := by
      rw [contextAt_some]
      exact happ
    have hne : mod.lastAffected ≠ callContext w spellId (some a) := by
      rw [callContext_some]
      exact hlast
    rw [ApplySpellMod_mods w p spellId op b (some a) spellInfo hknown, hlist,
      modsAfter_getElem]
    unfold modAfter
    rw [callContext_contextAt, if_pos ⟨happ2, by omega, Or.inr hne⟩, callContext_some]
    unfold useCharge
    rw [if_pos hch]

/-- C5 on a modifier with one charge: a first query by the cast at address 9, then
queries by the same cast, by another cast and without a cast; the charges end at `-1`. -/
theorem single_charge_consumed_once_witness :
    oneChargePlayer.m_spellMods 3 = [] ++ SpellModifier.new 3 .SPELLMOD_FLAT 10 500 1 1 :: []
      ∧ (SpellModifier.new 3 .SPELLMOD_FLAT 10 500 1 1).charges = 1
      ∧ (SpellModifier.new 3 .SPELLMOD_FLAT 10 500 1 1).lastAffected ≠ some 9
      ∧ maskWorld.LookupEntry 7 = some 7
      ∧ isApplied maskWorld 7 100 (some 9) (SpellModifier.new 3 .SPELLMOD_FLAT 10 500 1 1)
      ∧ ((applyCalls oneChargePlayer
            (⟨maskWorld, 7, 3, 100, some 9⟩ :: [queryBy (some 9), queryBy (some 8),
              queryBy none])).m_spellMods 3)[0]?
          = some ⟨3, .SPELLMOD_FLAT, -1, 10, 1, 500, some 9⟩ :=
  ⟨rfl, rfl, by decide, rfl, by decide,
    single_charge_consumed_once oneChargePlayer 3 [] []
      (SpellModifier.new 3 .SPELLMOD_FLAT 10 500 1 1) maskWorld 7 100 9 7 rfl rfl (by decide)
      rfl (by decide) [queryBy (some 9), queryBy (some 8), queryBy none]⟩

/-- C6: in one call with a known spell id, a modifier that affects the spell, is not
skipped and has charges `c > 0` loses exactly one charge when its last recorded context
differs from the call's casting context, its charges becoming `-1` instead of `0` when
`c = 1`, and records the call's context; when its last recorded context is the call's
casting context and that context is not null, the modifier is left as it is. -/
theorem applySpellMod_charge_use (w : World) (p : Player) (spellId : Nat) (op : SpellModOp)
    (b : Int) (spell : Option Nat) (spellInfo : SpellEntry) (pre post : List SpellModifier)
    (mod : SpellModifier)
    (hknown : w.LookupEntry spellId = some spellInfo)
    (hlist : p.m_spellMods op = pre ++ mod :: post)
    (happ : isApplied w spellInfo b (contextAt w spellInfo spellId b spell pre) mod)
    (hch : mod.charges > 0) :
    (mod.lastAffected ≠ callContext w spellId spell →
      ((ApplySpellMod w p spellId op b spell).player.m_spellMods op)[pre.length]?
        = some ⟨mod.op, mod.type, if mod.charges = 1 then -1 else mod.charges - 1, mod.value,
            mod.mask, mod.spellId, callContext w spellId spell⟩)
    ∧ (mod.lastAffected = callContext w spellId spell → callContext w spellId spell ≠ none →
      ((ApplySpellMod w p spellId op b spell).player.m_spellMods op)[pre.length]?
        = some mod) := by
  rw [ApplySpellMod_mods w p spellId op b spell spellInfo hknown, hlist, modsAfter_getElem]
  unfold modAfter
  rw [callContext_contextAt]
  constructor
  · intro hne
    rw [if_pos ⟨happ, hch, Or.inr hne⟩]
    rfl
  · intro heq hnn
    rw [if_neg]
    intro hc
    rcases hc.2.2 with h | h
    · exact hnn (heq ▸ h)
    · exact h heq

/-- C6 for the cast at address 9: the new modifier with one charge ends with charges
`-1` and last context 9; the modifier whose last context already is 9 keeps its two
charges. -/
theorem applySpellMod_charge_use_witness :
    maskWorld.LookupEntry 7 = some 7
      ∧ ((ApplySpellMod maskWorld lastUserPlayer 7 3 100 (some 9)).player.m_spellMods 3)[0]?
          = some ⟨3, .SPELLMOD_FLAT, -1, 10, 1, 500, some 9⟩
      ∧ ((ApplySpellMod maskWorld lastUserPlayer 7 3 100 (some 9)).player.m_spellMods 3)[1]?
          = some ⟨3, .SPELLMOD_PCT, 2, 50, 1, 501, some 9⟩ :=
  ⟨rfl,
    (applySpellMod_charge_use maskWorld lastUserPlayer 7 3 100 (some 9) 7 []
      [⟨3, .SPELLMOD_PCT, 2, 50, 1, 501, some 9⟩]
      (SpellModifier.new 3 .SPELLMOD_FLAT 10 500 1 1) rfl rfl (by decide) (by decide)).1
      (by decide),
    (applySpellMod_charge_use maskWorld lastUserPlayer 7 3 100 (some 9) 7
      [SpellModifier.new 3 .SPELLMOD_FLAT 10 500 1 1] []
      ⟨3, .SPELLMOD_PCT, 2, 50, 1, 501, some 9⟩ rfl rfl (by decide) (by decide)).2
      (by decide) (by decide)⟩

/-- C7: a call never removes, adds or reorders modifiers: every list holds, position by
position, modifiers with the same op, type, value, mask and spell id as before; a
modifier differs from what it was only if it is registered under the queried op and had
charges `c > 0`, and then it has `c - 1` charges, or `-1` when `c = 1`: an exhausted
modifier stays in its list, marked `-1`. -/
theorem applySpellMod_frame (w : World) (p : Player) (spellId : Nat) (op : SpellModOp)
    (b : Int) (spell : Option Nat) (op2 : SpellModOp) :
    List.Forall₂
      (fun m m2 => sameIdentity m m2
        ∧ (m2 = m ∨ (op2 = op ∧ m.charges > 0
            ∧ m2.charges = if m.charges = 1 then -1 else m.charges - 1)))
      (p.m_spellMods op2) ((ApplySpellMod w p spellId op b spell).player.m_spellMods op2) := by
  by_cases hop : op2 = op
  · subst hop
    cases hl : w.LookupEntry spellId with
    | none =>
      rw [ApplySpellMod_unknown w p spellId op2 b spell hl]
      exact List.forall₂_same.mpr
        (fun m _ => ⟨⟨rfl, rfl, rfl, rfl, rfl⟩, Or.inl rfl⟩)
    | some spellInfo =>
      rw [ApplySpellMod_mods w p spellId op2 b spell spellInfo hl]
      refine List.Forall₂.imp ?_ (modsAfter_forall₂ w spellInfo spellId b spell _)
      intro m m2 h
      rcases h with ⟨hid, h | h⟩
      · exact ⟨hid, Or.inl h⟩
      · exact ⟨hid, Or.inr ⟨rfl, h⟩⟩
  · rw [ApplySpellMod_mods_other w p spellId op b spell op2 hop]
    exact List.forall₂_same.mpr
      (fun m _ => ⟨⟨rfl, rfl, rfl, rfl, rfl⟩, Or.inl rfl⟩)

/-- C8: a modifier with charges `0` is never written to: after any sequence of calls it
is in its place exactly as it was (charges `0`, last context as it was, unset for a new
modifier), and the pending-removal counter is what the same calls leave on the player
without the modifier; and in every call of a known spell in which it affects the spell
and is not skipped, its value is part of the total of its type: the returned delta is
computed from the totals of the other modifiers plus its value. -/
theorem unlimited_modifier (p : Player) (op : SpellModOp) (pre post : List SpellModifier)
    (mod : SpellModifier)
    (hlist : p.m_spellMods op = pre ++ mod :: post)
    (hch : mod.charges = 0) :
    (∀ calls : List Call,
      ((applyCalls p calls).m_spellMods op)[pre.length]? = some mod
      ∧ (applyCalls p calls).m_SpellModRemoveCount
          = (applyCalls (setMods p op (pre ++ post)) calls).m_SpellModRemoveCount)
    ∧ (∀ (w : World) (q : Player) (spellId : Nat) (b : Int) (spell : Option Nat)
        (spellInfo : SpellEntry) (pre2 post2 : List SpellModifier),
        w.LookupEntry spellId = some spellInfo →
        q.m_spellMods op = pre2 ++ mod :: post2 →
        isApplied w spellInfo b (contextAt w spellInfo spellId b spell pre2) mod →
        (ApplySpellMod w q spellId op b spell).ret
          = spellModDiff b
              (wrapInt32 (pctTotal w spellInfo spellId b spell (pre2 ++ post2)
                + if mod.type = .SPELLMOD_PCT then mod.value else 0))
              (wrapInt32 (flatTotal w spellInfo spellId b spell (pre2 ++ post2)
                + if mod.type = .SPELLMOD_FLAT then mod.value else 0))) := by
  have hle : mod.charges ≤ 0 := by omega
  refine ⟨fun calls => ⟨?_, ?_⟩, ?_⟩
  · apply applyCalls_frozen op pre.length mod hle
    rw [hlist]
    exact getElem?_middle _ _ _ _ rfl
  · have hrel : differByUnlimited op mod pre.length p (setMods p op (pre ++ post)) :=
      ⟨⟨pre, post, hlist, setMods_same _ _ _, rfl⟩,
        fun op2 hne => (setMods_other p op op2 _ hne).symm, rfl⟩
    exact (differByUnlimited_calls op mod pre.length hle calls _ _ hrel).2.2
  · intro w q spellId b spell spellInfo pre2 post2 hknown hq happ
    rw [ApplySpellMod_ret w q spellId op b spell spellInfo hknown, hq,
      flatTotal_insert _ _ _ _ _ _ _ _ hle, pctTotal_insert _ _ _ _ _ _ _ _ hle]
    have h1 : (isApplied w spellInfo b (contextAt w spellInfo spellId b spell pre2) mod
        ∧ mod.type = .SPELLMOD_PCT) ↔ mod.type = .SPELLMOD_PCT :=
      ⟨fun h => h.2, fun h => ⟨happ, h⟩⟩
    have h2 : (w.IsAffectedBySpellmod spellInfo mod
        (contextAt w spellInfo spellId b spell pre2) = true
        ∧ mod.type = .SPELLMOD_FLAT) ↔ mod.type = .SPELLMOD_FLAT :=
      ⟨fun h => h.2, fun h => ⟨happ.1, h⟩⟩
    simp only [h1, h2]

/-- C8 on the `+10 flat` modifier of the scenario of section 8: after two queries it is
unchanged and nothing is pending removal; in a query with base value 100 the delta is
65, of which `10 * 150 / 100 = 15` come from its value. -/
theorem unlimited_modifier_witness :
    scenarioPlayer.m_spellMods 3
        = [] ++ SpellModifier.new 3 .SPELLMOD_FLAT 10 500 1 0
            :: [SpellModifier.new 3 .SPELLMOD_PCT 50 501 1 0]
      ∧ (SpellModifier.new 3 .SPELLMOD_FLAT 10 500 1 0).charges = 0
      ∧ ((applyCalls scenarioPlayer [queryBy (some 9), queryBy none]).m_spellMods 3)[0]?
          = some (SpellModifier.new 3 .SPELLMOD_FLAT 10 500 1 0)
      ∧ (applyCalls scenarioPlayer [queryBy (some 9), queryBy none]).m_SpellModRemoveCount = 0
      ∧ (ApplySpellMod maskWorld scenarioPlayer 7 3 100 none).ret = 65 :=
  have h := unlimited_modifier scenarioPlayer 3 []
    [SpellModifier.new 3 .SPELLMOD_PCT 50 501 1 0]
    (SpellModifier.new 3 .SPELLMOD_FLAT 10 500 1 0) rfl rfl
  ⟨rfl, rfl, (h.1 [queryBy (some 9), queryBy none]).1,
    (h.1 [queryBy (some 9), queryBy none]).2.trans (by decide),
    (h.2 maskWorld scenarioPlayer 7 100 none 7 []
      [SpellModifier.new 3 .SPELLMOD_PCT 50 501 1 0] rfl rfl (by decide)).trans (by decide)⟩

/-- C9 fails on the code at a base cast time of exactly 10 000 ms: the loop tests
`basevalue >= 10 * IN_MILLISECONDS`, so the `-100 percent` casting-time modifier is
skipped there (delta 0, cast time still 10 000, charge kept), as it is at 10 001 ms; it
is applied at 9 999 ms (cast time 0, charge used). -/
theorem casting_time_skip_at_threshold :
    ((ApplySpellMod maskWorld instantCastPlayer 7 SPELLMOD_CASTING_TIME 10000 (some 9)).ret = 0
      ∧ (ApplySpellMod maskWorld instantCastPlayer 7 SPELLMOD_CASTING_TIME 10000
          (some 9)).basevalue = 10000
      ∧ (ApplySpellMod maskWorld instantCastPlayer 7 SPELLMOD_CASTING_TIME 10000
          (some 9)).player.m_spellMods SPELLMOD_CASTING_TIME
          = instantCastPlayer.m_spellMods SPELLMOD_CASTING_TIME)
      ∧ (ApplySpellMod maskWorld instantCastPlayer 7 SPELLMOD_CASTING_TIME 10001
          (some 9)).basevalue = 10001
      ∧ ((ApplySpellMod maskWorld instantCastPlayer 7 SPELLMOD_CASTING_TIME 9999
          (some 9)).basevalue = 0
        ∧ ((ApplySpellMod maskWorld instantCastPlayer 7 SPELLMOD_CASTING_TIME 9999
          (some 9)).player.m_spellMods SPELLMOD_CASTING_TIME).map (fun m => m.charges)
          = [-1]) := by
  decide

/-- C10: a modifier registered under the op for which `IsAffectedBySpellmod` answers
false when the loop reaches it is passed over: the call returns the same delta, writes the
same base value and leaves the same counter as the same call on the player without that
modifier; the modifier keeps its place in the list with charges and last context
unchanged, the other modifiers end as they do without it, and neither the flat nor the
percent total counts it. -/
theorem applySpellMod_not_affected (w : World) (p : Player) (spellId : Nat)
    (op : SpellModOp) (b : Int) (spell : Option Nat) (spellInfo : SpellEntry)
    (pre post : List SpellModifier) (mod : SpellModifier)
    (hknown : w.LookupEntry spellId = some spellInfo)
    (hlist : p.m_spellMods op = pre ++ mod :: post)
    (hnot : w.IsAffectedBySpellmod spellInfo mod (contextAt w spellInfo spellId b spell pre)
      = false) :
    (ApplySpellMod w p spellId op b spell).ret
        = (ApplySpellMod w (setMods p op (pre ++ post)) spellId op b spell).ret
    ∧ (ApplySpellMod w p spellId op b spell).basevalue
        = (ApplySpellMod w (setMods p op (pre ++ post)) spellId op b spell).basevalue
    ∧ (ApplySpellMod w p spellId op b spell).player.m_SpellModRemoveCount
        = (ApplySpellMod w (setMods p op (pre ++ post)) spellId op b spell).player.m_SpellModRemoveCount
    ∧ (ApplySpellMod w p spellId op b spell).player.m_spellMods op
        = ((ApplySpellMod w (setMods p op (pre ++ post)) spellId op b spell).player.m_spellMods
            op).take pre.length
          ++ mod :: ((ApplySpellMod w (setMods p op (pre ++ post)) spellId op b
            spell).player.m_spellMods op).drop pre.length
    ∧ flatTotal w spellInfo spellId b spell (pre ++ mod :: post)
        = flatTotal w spellInfo spellId b spell (pre ++ post)
    ∧ pctTotal w spellInfo spellId b spell (pre ++ mod :: post)
        = pctTotal w spellInfo spellId b spell (pre ++ post) := by
  have hna : ¬ isApplied w spellInfo b (contextAt w spellInfo spellId b spell pre) mod := by
    intro ha
    have h1 := ha.1
    rw [hnot] at h1
    exact Bool.false_ne_true h1
  have hbody : spellModBody w spellInfo spellId b
      (spellModLoop w spellInfo spellId b ⟨0, 0, spell, p.m_SpellModRemoveCount⟩ pre).1 mod
        = ((spellModLoop w spellInfo spellId b ⟨0, 0, spell, p.m_SpellModRemoveCount⟩ pre).1,
            mod) := by
    apply spellModBody_of_not_affected
    rw [spellModLoop_spell]
    exact hnot
  have hskip := spellModLoop_skip w spellInfo spellId b ⟨0, 0, spell, p.m_SpellModRemoveCount⟩
    pre post mod hbody
  have hlen : (spellModLoop w spellInfo spellId b ⟨0, 0, spell, p.m_SpellModRemoveCount⟩
      pre).2.length = pre.length := spellModLoop_length _ _ _ _ _ _
  rw [ApplySpellMod_known w p spellId op b spell spellInfo hknown,
    ApplySpellMod_known w (setMods p op (pre ++ post)) spellId op b spell spellInfo hknown,
    setMods_same, setMods_count, hlist, hskip]
  refine ⟨rfl, rfl, rfl, ?_, ?_, ?_⟩
  · simp only [Function.update_same]
    rw [spellModLoop_append, ← hlen, List.take_left, List.drop_left]
  · rw [flatTotal_append, flatTotal_append, flatTotal_cons,
      nextContext_of_not_applied _ _ _ _ _ _ hna, if_neg, zero_add]
    intro hc
    have h1 := hc.1
    rw [hnot] at h1
    exact Bool.false_ne_true h1
  · rw [pctTotal_append, pctTotal_append, pctTotal_cons,
      nextContext_of_not_applied _ _ _ _ _ _ hna, if_neg, zero_add]
    exact fun hc => hna hc.1

/-- C10 for a `+1000 flat` modifier that does not select the spell: delta 65 and
adjusted value 165 as without it, and it keeps its charge. -/
theorem applySpellMod_not_affected_witness :
    maskWorld.LookupEntry 7 = some 7
      ∧ maskWorld.IsAffectedBySpellmod 7 (SpellModifier.new 3 .SPELLMOD_FLAT 1000 502 2 1)
          (contextAt maskWorld 7 7 100 (some 9) [SpellModifier.new 3 .SPELLMOD_FLAT 10 500 1 1])
          = false
      ∧ (ApplySpellMod maskWorld mixedPlayer 7 3 100 (some 9)).ret = 65
      ∧ (ApplySpellMod maskWorld mixedPlayer 7 3 100 (some 9)).basevalue = 165
      ∧ (ApplySpellMod maskWorld mixedPlayer 7 3 100 (some 9)).player.m_spellMods 3
          = [⟨3, .SPELLMOD_FLAT, -1, 10, 1, 500, some 9⟩,
              SpellModifier.new 3 .SPELLMOD_FLAT 1000 502 2 1,
              SpellModifier.new 3 .SPELLMOD_PCT 50 501 1 0] :=
  have h := applySpellMod_not_affected maskWorld mixedPlayer 7 3 100 (some 9) 7
    [SpellModifier.new 3 .SPELLMOD_FLAT 10 500 1 1]
    [SpellModifier.new 3 .SPELLMOD_PCT 50 501 1 0]
    (SpellModifier.new 3 .SPELLMOD_FLAT 1000 502 2 1) rfl rfl (by decide)
  ⟨rfl, by decide, h.1.trans (by decide), h.2.1.trans (by decide),
    h.2.2.2.1.trans (by decide)⟩

/-! ## The slot space claims -/

/-- C11: the bands have the documented sizes, each `END` minus `START`: equipment 19,
carried bag containers 4, main pack 16, bank item slots 28, bank bag containers 7,
buyback 12 and key ring 32; the sizes sum to `PLAYER_SLOTS_COUNT` = 118, the length of
the item table `m_items`. -/
theorem slot_band_sizes :
    SlotBand.equipment.size = 19 ∧ SlotBand.bagContainer.size = 4 ∧ SlotBand.pack.size = 16
      ∧ SlotBand.bankItem.size = 28 ∧ SlotBand.bankBagContainer.size = 7
      ∧ SlotBand.buyback.size = 12 ∧ SlotBand.keyRing.size = 32
      ∧ (allSlotBands.map SlotBand.size).sum = PLAYER_SLOTS_COUNT
      ∧ PLAYER_SLOTS_COUNT = 118 := by
  decide

theorem slotBand_contains_iff (b : SlotBand) (s : Nat) :
    b.contains s ↔
      (b = .equipment ∧ s < 19) ∨ (b = .bagContainer ∧ 19 ≤ s ∧ s < 23)
      ∨ (b = .pack ∧ 23 ≤ s ∧ s < 39) ∨ (b = .bankItem ∧ 39 ≤ s ∧ s < 67)
      ∨ (b = .bankBagContainer ∧ 67 ≤ s ∧ s < 74) ∨ (b = .buyback ∧ 74 ≤ s ∧ s < 86)
      ∨ (b = .keyRing ∧ 86 ≤ s ∧ s < 118) := by
  cases b <;>
    simp [SlotBand.contains, SlotBand.start, SlotBand.stop, EQUIPMENT_SLOT_START,
      EQUIPMENT_SLOT_END, INVENTORY_SLOT_BAG_START, INVENTORY_SLOT_BAG_END,
      INVENTORY_SLOT_ITEM_START, INVENTORY_SLOT_ITEM_END, BANK_SLOT_ITEM_START,
      BANK_SLOT_ITEM_END, BANK_SLOT_BAG_START, BANK_SLOT_BAG_END, BUYBACK_SLOT_START,
      BUYBACK_SLOT_END, KEYRING_SLOT_START, KEYRING_SLOT_END]

/-- C12: the seven bands are contiguous (each band's `END` is the next band's `START`,
from `PLAYER_SLOT_START` to `PLAYER_SLOT_END`), every slot index below 118 lies in
exactly one band, and every slot index from 118 on lies in none. -/
theorem slot_bands_partition :
    (SlotBand.equipment.start = PLAYER_SLOT_START
      ∧ SlotBand.equipment.stop = SlotBand.bagContainer.start
      ∧ SlotBand.bagContainer.stop = SlotBand.pack.start
      ∧ SlotBand.pack.stop = SlotBand.bankItem.start
      ∧ SlotBand.bankItem.stop = SlotBand.bankBagContainer.start
      ∧ SlotBand.bankBagContainer.stop = SlotBand.buyback.start
      ∧ SlotBand.buyback.stop = SlotBand.keyRing.start
      ∧ SlotBand.keyRing.stop = PLAYER_SLOT_END)
    ∧ (∀ s : Nat, s < PLAYER_SLOT_END → ∃ b : SlotBand, b.contains s ∧
        ∀ b2 : SlotBand, b2.contains s → b2 = b)
    ∧ (∀ s : Nat, PLAYER_SLOT_END ≤ s → ∀ b : SlotBand, ¬ b.contains s) := by
  refine ⟨by decide, ?_, ?_⟩
  · intro s hs
    have hs2 : s < 118 := hs
    by_cases h1 : s < 19
    · refine ⟨.equipment, (slotBand_contains_iff _ _).mpr (Or.inl ⟨rfl, h1⟩), ?_⟩
      intro b2 hb
      rcases (slotBand_contains_iff _ _).mp hb with h | h | h | h | h | h | h <;>
        first | exact h.1 | (exfalso; omega)
    by_cases h2 : s < 23
    · refine ⟨.bagContainer, (slotBand_contains_iff _ _).mpr
        (Or.inr (Or.inl ⟨rfl, by omega, h2⟩)), ?_⟩
      intro b2 hb
      rcases (slotBand_contains_iff _ _).mp hb with h | h | h | h | h | h | h <;>
        first | exact h.1 | (exfalso; omega)
    by_cases h3 : s < 39
    · refine ⟨.pack, (slotBand_contains_iff _ _).mpr
        (Or.inr (Or.inr (Or.inl ⟨rfl, by omega, h3⟩))), ?_⟩
      intro b2 hb
      rcases (slotBand_contains_iff _ _).mp hb with h | h | h | h | h | h | h <;>
        first | exact h.1 | (exfalso; omega)
    by_cases h4 : s < 67
    · refine ⟨.bankItem, (slotBand_contains_iff _ _).mpr
        (Or.inr (Or.inr (Or.inr (Or.inl ⟨rfl, by omega, h4⟩)))), ?_⟩
      intro b2 hb
      rcases (slotBand_contains_iff _ _).mp hb with h | h | h | h | h | h | h <;>
        first | exact h.1 | (exfalso; omega)
    by_cases h5 : s < 74
    · refine ⟨.bankBagContainer, (slotBand_contains_iff _ _).mpr
        (Or.inr (Or.inr (Or.inr (Or.inr (Or.inl ⟨rfl, by omega, h5⟩))))), ?_⟩
      intro b2 hb
      rcases (slotBand_contains_iff _ _).mp hb with h | h | h | h | h | h | h <;>
        first | exact h.1 | (exfalso; omega)
    by_cases h6 : s < 86
    · refine ⟨.buyback, (slotBand_contains_iff _ _).mpr
        (Or.inr (Or.inr (Or.inr (Or.inr (Or.inr (Or.inl ⟨rfl, by omega, h6⟩)))))), ?_⟩
      intro b2 hb
      rcases (slotBand_contains_iff _ _).mp hb with h | h | h | h | h | h | h <;>
        first | exact h.1 | (exfalso; omega)
    · refine ⟨.keyRing, (slotBand_contains_iff _ _).mpr
        (Or.inr (Or.inr (Or.inr (Or.inr (Or.inr (Or.inr ⟨rfl, by omega, hs2⟩)))))), ?_⟩
      intro b2 hb
      rcases (slotBand_contains_iff _ _).mp hb with h | h | h | h | h | h | h <;>
        first | exact h.1 | (exfalso; omega)
  · intro s hs b hb
    have hs2 : 118 ≤ s := hs
    rcases (slotBand_contains_iff _ _).mp hb with h | h | h | h | h | h | h <;> omega

/-- C12 at the first pack slot, index 23, which lies in the pack band only, and at
index 118, which lies in no band. -/
theorem slot_bands_partition_witness :
    (23 < PLAYER_SLOT_END ∧ ∃ b : SlotBand, b.contains 23 ∧
        ∀ b2 : SlotBand, b2.contains 23 → b2 = b)
      ∧ (PLAYER_SLOT_END ≤ 118 ∧ ∀ b : SlotBand, ¬ b.contains 118) :=
  ⟨⟨by decide, slot_bands_partition.2.1 23 (by decide)⟩,
    ⟨by decide, slot_bands_partition.2.2 118 (by decide)⟩⟩

theorem posBag_eq (p : Nat) (h : p < 65536) : posBag p = p / 256 := by
  unfold posBag
  rw [Nat.shiftRight_eq_div_pow]
  have : p / 2 ^ 8 < 256 := by
    rw [Nat.div_lt_iff_lt_mul (by decide)]
    exact h
  exact Nat.mod_eq_of_lt this

theorem posSlot_eq (p : Nat) : posSlot p = p % 256 := by
  unfold posSlot
  have h : p &&& 255 = p % 2 ^ 8 := Nat.and_pow_two_sub_one_eq_mod p 8
  rw [h]
  exact Nat.mod_mod_of_dvd p (dvd_refl 256)

theorem encodePos_eq (bag slot : Nat) (hb : bag < 256) (hs : slot < 256) :
    encodePos bag slot = bag * 256 + slot := by
  unfold encodePos
  rw [Nat.shiftLeft_eq]
  have h : 2 ^ 8 * bag + slot = 2 ^ 8 * bag ||| slot := Nat.mul_add_lt_is_or hs bag
  rw [Nat.mul_comm bag (2 ^ 8), ← h]
  have : 2 ^ 8 * bag + slot < 65536 := by omega
  rw [Nat.mod_eq_of_lt this]

/-- C13: for every 16-bit position `p`, decoding it into the pair
`(p >> 8, p & 255)`, as the `uint16` overloads do, and encoding the pair again as
`(container << 8) | slot` gives back `p`. -/
theorem encode_decode_pos (p : Nat) (h : p < 65536) :
    encodePos (posBag p) (posSlot p) = p := by
  rw [posBag_eq p h, posSlot_eq]
  rw [encodePos_eq _ _ (by omega) (Nat.mod_lt _ (by decide))]
  exact Nat.div_add_mod' p 256

/-- C13 at the position of the first pack slot, container 255 and slot 23. -/
theorem encode_decode_pos_witness :
    (65303 : Nat) < 65536 ∧ posBag 65303 = 255 ∧ posSlot 65303 = 23
      ∧ encodePos (posBag 65303) (posSlot 65303) = 65303 :=
  ⟨by decide, by decide, by decide, encode_decode_pos 65303 (by decide)⟩

/-! ## The auction access mode claim -/

theorem testBit_auctionClearMask (i : Nat) :
    auctionClearMask.testBit i = decide (i < 32 ∧ i ≠ 6 ∧ i ≠ 7) := by
  by_cases h : i < 32
  · interval_cases i <;> decide
  · have hlt : auctionClearMask < 2 ^ i :=
      lt_of_lt_of_le (by decide : auctionClearMask < 2 ^ 32)
        (Nat.pow_le_pow_right (by decide) (by omega))
    rw [Nat.testBit_lt_two_pow hlt]
    simp [h]

theorem and_enemy_ne_zero_iff (x : Nat) :
    x &&& PLAYER_EXTRA_AUCTION_ENEMY ≠ 0 ↔ x.testBit 7 = true := by
  have h : x &&& PLAYER_EXTRA_AUCTION_ENEMY = (x.testBit 7).toNat * 2 ^ 7 := Nat.and_two_pow x 7
  rw [h]
  cases x.testBit 7 <;> simp

theorem and_neutral_ne_zero_iff (x : Nat) :
    x &&& PLAYER_EXTRA_AUCTION_NEUTRAL ≠ 0 ↔ x.testBit 6 = true := by
  have h : x &&& PLAYER_EXTRA_AUCTION_NEUTRAL = (x.testBit 6).toNat * 2 ^ 6 :=
    Nat.and_two_pow x 6
  rw [h]
  cases x.testBit 6 <;> simp

theorem testBit_enemy (i : Nat) : PLAYER_EXTRA_AUCTION_ENEMY.testBit i = decide (7 = i) :=
  @Nat.testBit_two_pow 7 i

theorem testBit_neutral (i : Nat) : PLAYER_EXTRA_AUCTION_NEUTRAL.testBit i = decide (6 = i) :=
  @Nat.testBit_two_pow 6 i

theorem testBit_SetAuctionAccessMode (flags : Nat) (state : Int) (i : Nat) :
    (SetAuctionAccessMode flags state).testBit i
      = ((flags.testBit i && decide (i < 32 ∧ i ≠ 6 ∧ i ≠ 7))
          || (decide (state < 0) && decide (7 = i))
          || (decide (¬ state < 0 ∧ state > 0) && decide (6 = i))) := by
  unfold SetAuctionAccessMode
  by_cases h1 : state < 0
  · simp [h1, Nat.testBit_lor, Nat.testBit_land, testBit_auctionClearMask, testBit_enemy]
  · by_cases h2 : state > 0
    · simp [h1, h2, Nat.testBit_lor, Nat.testBit_land, testBit_auctionClearMask,
        testBit_neutral]
    · simp [h1, h2, Nat.testBit_land, testBit_auctionClearMask]

/-- C20: for every `uint32` flag word and every integer state `s`, after
`SetAuctionAccessMode(s)` the getter returns -1 if `s < 0`, 1 if `s > 0` and 0 if
`s = 0`; every flag bit other than the neutral bit (bit 6) and the enemy bit (bit 7) is
as before; and for any flag word with the enemy bit set the getter returns -1, whether
or not the neutral bit is set. -/
theorem auction_access_mode_roundtrip (flags : Nat) (state : Int) (hflags : flags < 2 ^ 32) :
    GetAuctionAccessMode (SetAuctionAccessMode flags state)
        = (if state < 0 then -1 else if state > 0 then 1 else 0)
      ∧ (∀ i : Nat, i ≠ 6 → i ≠ 7 →
          (SetAuctionAccessMode flags state).testBit i = flags.testBit i)
      ∧ (∀ f : Nat, f &&& PLAYER_EXTRA_AUCTION_ENEMY ≠ 0 → GetAuctionAccessMode f = -1) := by
  refine ⟨?_, ?_, ?_⟩
  · unfold GetAuctionAccessMode
    simp only [and_enemy_ne_zero_iff, and_neutral_ne_zero_iff, testBit_SetAuctionAccessMode]
    by_cases h1 : state < 0
    · simp [h1]
    · by_cases h2 : state > 0
      · simp [h1, h2]
      · simp [h1, h2]
  · intro i h6 h7
    rw [testBit_SetAuctionAccessMode]
    by_cases h32 : i < 32
    · simp [h32, h6, h7, Ne.symm h6, Ne.symm h7]
    · have hlt : flags < 2 ^ i :=
        lt_of_lt_of_le hflags (Nat.pow_le_pow_right (by decide) (by omega))
      simp [h32, Nat.testBit_lt_two_pow hlt, Ne.symm h6, Ne.symm h7]
  · intro f hf
    unfold GetAuctionAccessMode
    rw [if_pos hf]

/-- C20 on a flag word with the GM, taxi-cheat and neutral-auction bits set: switching
to the enemy auction gives mode -1, to the neutral one 1 and to the own one 0, the GM
bit (bit 0) stays set, and a word with both auction bits set reads as -1. -/
theorem auction_access_mode_roundtrip_witness :
    (0x49 : Nat) < 2 ^ 32
      ∧ GetAuctionAccessMode (SetAuctionAccessMode 0x49 (-5)) = -1
      ∧ GetAuctionAccessMode (SetAuctionAccessMode 0x49 3) = 1
      ∧ GetAuctionAccessMode (SetAuctionAccessMode 0x49 0) = 0
      ∧ (SetAuctionAccessMode 0x49 (-5)).testBit 0 = Nat.testBit 0x49 0
      ∧ GetAuctionAccessMode 0xC0 = -1 :=
  ⟨by decide,
    (auction_access_mode_roundtrip 0x49 (-5) (by decide)).1,
    (auction_access_mode_roundtrip 0x49 3 (by decide)).1,
    (auction_access_mode_roundtrip 0x49 0 (by decide)).1,
    (auction_access_mode_roundtrip 0x49 (-5) (by decide)).2.1 0 (by decide) (by decide),
    (auction_access_mode_roundtrip 0x49 0 (by decide)).2.2 0xC0 (by decide)⟩

/-! ## The store check claim -/

/-- C19: `CanStoreItem` called with a null `pItem` returns `EQUIP_ERR_ITEM_NOT_FOUND`
for every bag, slot and swap flag and leaves `dest` as it is, whatever `_CanStoreItem`
would answer (two worlds that agree on the error code give the same outcome); called
with an item it returns exactly what `_CanStoreItem` returns for the item's entry and
count, the item itself, the swap flag and no `no_space_count`. -/
theorem canStoreItem_null_item (w : StoreWorld) (bag slot : Nat) (dest : ItemPosCountVec)
    (swap : Bool) :
    (CanStoreItem w bag slot dest none swap).result = w.EQUIP_ERR_ITEM_NOT_FOUND
      ∧ (CanStoreItem w bag slot dest none swap).dest = dest
      ∧ (∀ w2 : StoreWorld, w2.EQUIP_ERR_ITEM_NOT_FOUND = w.EQUIP_ERR_ITEM_NOT_FOUND →
          CanStoreItem w2 bag slot dest none swap = CanStoreItem w bag slot dest none swap)
      ∧ (∀ item : Item, CanStoreItem w bag slot dest (some item) swap
          = w._CanStoreItem bag slot dest item.GetEntry item.GetCount (some item) swap none) := by
  refine ⟨rfl, rfl, ?_, fun _ => rfl⟩
  intro w2 h
  simp only [CanStoreItem, h]


/-- C19 with the item of entry 4306 and count 7, and with no item. -/
theorem canStoreItem_null_item_witness :
    (CanStoreItem okStoreWorld 255 23 [⟨1, 1⟩] none true).result = 23
      ∧ (CanStoreItem okStoreWorld 255 23 [⟨1, 1⟩] none true).dest = [⟨1, 1⟩]
      ∧ CanStoreItem okStoreWorld 255 23 [⟨1, 1⟩] (some ⟨4306, 7⟩) true
          = ⟨0, [⟨1, 1⟩, ⟨5911, 7⟩], none⟩ :=
  ⟨(canStoreItem_null_item okStoreWorld 255 23 [⟨1, 1⟩] true).1,
    (canStoreItem_null_item okStoreWorld 255 23 [⟨1, 1⟩] true).2.1,
    (canStoreItem_null_item okStoreWorld 255 23 [⟨1, 1⟩] true).2.2.2 ⟨4306, 7⟩⟩

/-! ## Long casts -/

theorem mem_appliedPct (w : World) (spellInfo : SpellEntry) (spellId : Nat) (basevalue : Int)
    (spell : Option Nat) (mods : List SpellModifier) (m : SpellModifier)
    (h : m ∈ appliedPct w spellInfo spellId basevalue spell mods) :
    m ∈ mods ∧ m.type = .SPELLMOD_PCT ∧ ¬ pctSkipped basevalue m := by
  induction mods generalizing spell with
  | nil => cases h
  | cons mod rest ih =>
    simp only [appliedPct, List.mem_append] at h
    rcases h with h | h
    · split_ifs at h with hc
      · have hm : m = mod := by simpa using h
        subst hm
        exact ⟨List.mem_cons_self _ _, hc.2, hc.1.2⟩
      · cases h
    · obtain ⟨h1, h2⟩ := ih _ h
      exact ⟨List.mem_cons_of_mem _ h1, h2⟩

theorem flatTotal_of_all_pct (w : World) (spellInfo : SpellEntry) (spellId : Nat)
    (basevalue : Int) (spell : Option Nat) (mods : List SpellModifier)
    (h : ∀ m ∈ mods, m.type = .SPELLMOD_PCT) :
    flatTotal w spellInfo spellId basevalue spell mods = 0 := by
  induction mods generalizing spell with
  | nil => rfl
  | cons mod rest ih =>
    rw [flatTotal_cons, ih _ (fun m hm => h m (List.mem_cons_of_mem _ hm)), if_neg, add_zero]
    intro hc
    have := h mod (List.mem_cons_self _ _)
    rw [hc.2] at this
    cases this

theorem adjusted_pos_of_pct (b P : Int) (hb : 0 < b) (hP : -100 < P) :
    0 < b + Int.tdiv (b * P) 100 := by
  by_cases h0 : 0 ≤ P
  · have h1 : 0 ≤ b * P := mul_nonneg (le_of_lt hb) h0
    have h2 : 0 ≤ Int.tdiv (b * P) 100 := Int.tdiv_nonneg h1 (by decide)
    omega
  · have hneg : b * P = -(b * (-P)) := by ring
    have h1 : 0 ≤ b * (-P) := mul_nonneg (le_of_lt hb) (by omega)
    have h2 : b * (-P) ≤ b * 99 := mul_le_mul_of_nonneg_left (by omega) (le_of_lt hb)
    rw [hneg, Int.neg_tdiv, Int.tdiv_eq_ediv h1 (by decide)]
    omega

/-- C18 fails on the code: two `-50 percent` casting-time modifiers are both applied to
a base cast time of 10 000 ms (neither has a value of -100 or below), the total percent
is -100 and the adjusted cast time is 0. -/
theorem stacked_reductions_give_instant_cast :
    (ApplySpellMod maskWorld halvingTwicePlayer 7 SPELLMOD_CASTING_TIME 10000 none).ret = -10000
      ∧ (ApplySpellMod maskWorld halvingTwicePlayer 7 SPELLMOD_CASTING_TIME 10000
          none).basevalue = 0 := by
  decide

/-- C18 as amended: for a known spell, the casting-time operation with only percent
modifiers registered under it, and a base cast time `b` of at least 10 000 ms, every
modifier that is applied has a value above -100 (those of -100 or below are skipped);
when the sum `P` of the applied values is itself above -100 and nothing overflows 32
bits, the adjusted cast time `b + (b * P) / 100` is strictly positive. -/
theorem long_cast_stays_positive (w : World) (p : Player) (spellId : Nat) (b : Int)
    (spell : Option Nat) (spellInfo : SpellEntry) (P : Int)
    (hknown : w.LookupEntry spellId = some spellInfo)
    (hb : 10 * IN_MILLISECONDS ≤ b)
    (hop : ∀ m ∈ p.m_spellMods SPELLMOD_CASTING_TIME, m.op = SPELLMOD_CASTING_TIME)
    (hpct : ∀ m ∈ p.m_spellMods SPELLMOD_CASTING_TIME, m.type = .SPELLMOD_PCT)
    (hP : P = pctTotal w spellInfo spellId b spell (p.m_spellMods SPELLMOD_CASTING_TIME))
    (hfit : noOverflow b 0 P) :
    (∀ m ∈ appliedPct w spellInfo spellId b spell (p.m_spellMods SPELLMOD_CASTING_TIME),
        -100 < m.value)
      ∧ (ApplySpellMod w p spellId SPELLMOD_CASTING_TIME b spell).basevalue
          = b + Int.tdiv (b * P) 100
      ∧ (-100 < P →
          0 < (ApplySpellMod w p spellId SPELLMOD_CASTING_TIME b spell).basevalue) := by
  have hb2 : (10000 : Int) ≤ b := hb
  have hF : (0 : Int) = flatTotal w spellInfo spellId b spell
      (p.m_spellMods SPELLMOD_CASTING_TIME) := (flatTotal_of_all_pct _ _ _ _ _ _ hpct).symm
  have hret : (ApplySpellMod w p spellId SPELLMOD_CASTING_TIME b spell).ret
      = exactDelta b 0 P := by
    rw [ApplySpellMod_ret w p spellId SPELLMOD_CASTING_TIME b spell spellInfo hknown, ← hF, ← hP]
    exact spellModDiff_exact b 0 P hfit
  have hbase : (ApplySpellMod w p spellId SPELLMOD_CASTING_TIME b spell).basevalue
      = b + Int.tdiv (b * P) 100 := by
    rw [ApplySpellMod_basevalue w p spellId SPELLMOD_CASTING_TIME b spell spellInfo hknown, hret,
      wrapInt32_eq_self hfit.2.2.2.2.2.2]
    unfold exactDelta
    have h0 : Int.tdiv (0 * (100 + P)) 100 = 0 := by
      rw [zero_mul]
      decide
    rw [h0, add_zero]
  refine ⟨?_, hbase, ?_⟩
  · intro m hm
    obtain ⟨hmem, hty, hns⟩ := mem_appliedPct _ _ _ _ _ _ _ hm
    by_contra hv
    exact hns ⟨hty, Or.inr ⟨hop m hmem, hb, by omega⟩⟩
  · intro hPpos
    rw [hbase]
    exact adjusted_pos_of_pct b P (by omega) hPpos

/-- C18 as amended, on a `-100 percent` and a `-30 percent` modifier at a base cast
time of 20 000 ms: only the `-30 percent` one is applied and the adjusted cast time is
14 000 ms. -/
theorem long_cast_stays_positive_witness :
    maskWorld.LookupEntry 7 = some 7
      ∧ 10 * IN_MILLISECONDS ≤ 20000
      ∧ (-30 : Int) = pctTotal maskWorld 7 7 20000 none
          (instantAndHastePlayer.m_spellMods SPELLMOD_CASTING_TIME)
      ∧ noOverflow 20000 0 (-30)
      ∧ (ApplySpellMod maskWorld instantAndHastePlayer 7 SPELLMOD_CASTING_TIME 20000
          none).basevalue = 14000
      ∧ 0 < (ApplySpellMod maskWorld instantAndHastePlayer 7 SPELLMOD_CASTING_TIME 20000
          none).basevalue :=
  have h := long_cast_stays_positive maskWorld instantAndHastePlayer 7 20000 none 7 (-30) rfl
    (by decide) (by decide) (by decide) (by decide) (by decide)
  ⟨rfl, by decide, by decide, by decide, h.2.1.trans (by decide), h.2.2 (by decide)⟩

/-! ## The floating base value -/

theorem ofInt_zero : Float32.ofInt 0 = .finite 0 := by decide!

theorem ofInt_threshold : Float32.ofInt (10 * IN_MILLISECONDS) = .finite 10000 := by decide!

theorem baseClass_eq_zero_iff (b : Float32) :
    baseClass b = 0 ↔ Float32.eq b (Float32.ofInt 0) = true := by
  unfold baseClass IN_MILLISECONDS
  split_ifs with h1 h2
  · simp [h1]
  · simp [h1]
  · simp [h1]

theorem baseClass_ge_iff (b : Float32) :
    baseClass b ≥ 10 * IN_MILLISECONDS
      ↔ Float32.ge b (Float32.ofInt (10 * IN_MILLISECONDS)) = true := by
  unfold baseClass
  split_ifs with h1 h2
  · have hfalse : Float32.ge b (Float32.ofInt (10 * IN_MILLISECONDS)) = false := by
      rw [ofInt_zero] at h1
      rw [ofInt_threshold]
      cases b with
      | finite q =>
        have hq : q = 0 := by simpa [Float32.eq] using h1
        subst hq
        simp [Float32.ge]
      | inf s => simp [Float32.eq] at h1
      | nan => simp [Float32.eq] at h1
    rw [hfalse]
    constructor
    · intro h
      exact absurd h (by decide)
    · intro h
      exact absurd h (by decide)
  · exact ⟨fun _ => h2, fun _ => le_refl _⟩
  · constructor
    · intro h
      exact absurd h (by decide)
    · intro h
      exact absurd h h2

theorem spellModBodyF_eq (w : World) (spellInfo : SpellEntry) (spellId : Nat) (b : Float32)
    (st : ModLoop) (mod : SpellModifier) :
    spellModBodyF w spellInfo spellId b st mod
      = spellModBody w spellInfo spellId (baseClass b) st mod := by
  unfold spellModBodyF spellModBody
  simp only [baseClass_eq_zero_iff, baseClass_ge_iff]

theorem spellModLoopF_eq (w : World) (spellInfo : SpellEntry) (spellId : Nat) (b : Float32)
    (st : ModLoop) (mods : List SpellModifier) :
    spellModLoopF w spellInfo spellId b st mods
      = spellModLoop w spellInfo spellId (baseClass b) st mods := by
  induction mods generalizing st with
  | nil => rfl
  | cons mod rest ih =>
    simp only [spellModLoopF, spellModLoop, spellModBodyF_eq, ih]

theorem ApplySpellModF_ret (w : World) (p : Player) (spellId : Nat) (op : SpellModOp)
    (b : Float32) (spell : Option Nat) (spellInfo : SpellEntry)
    (h : w.LookupEntry spellId = some spellInfo) :
    (ApplySpellModF w p spellId op b spell).ret
      = spellModDiffF b
          (wrapInt32 (pctTotal w spellInfo spellId (baseClass b) spell (p.m_spellMods op)))
          (wrapInt32 (flatTotal w spellInfo spellId (baseClass b) spell (p.m_spellMods op)))
      ∧ (ApplySpellModF w p spellId op b spell).basevalue
          = Float32.add b (ApplySpellModF w p spellId op b spell).ret := by
  unfold ApplySpellModF
  rw [h]
  simp only [spellModLoopF_eq]
  have h0 : isInt32 0 := by decide
  rw [spellModLoop_totalpct _ _ _ _ _ _ h0, spellModLoop_addedFlat _ _ _ _ _ _ h0]
  simp only [zero_add, and_self]

/-- C14 fails on the code: at the `float` base value 1 with one `+1 flat` and one
`+50 percent` modifier the call returns `0.5 + 1 = 1.5`, not `0.5 + 1.5 = 2`: the flat
term `1 * 150 / 100` is an `int32` division and gives 1. Every value of this call is a
`float`, so no operation rounds. -/
theorem float_flat_term_is_truncated :
    (ApplySpellModF maskWorld fractionPlayer 7 3 (.finite 1) none).ret = .finite (3 / 2)
      ∧ (ApplySpellModF maskWorld fractionPlayer 7 3 (.finite 1) none).ret ≠ .finite 2
      ∧ (ApplySpellModF maskWorld fractionPlayer 7 3 (.finite 1) none).basevalue
          = .finite (5 / 2) := by
  decide!

theorem baseClass_oneTenth : baseClass oneTenth = 1 := by decide!

/-- C14 as amended: for a known spell id and a `float` base value `b` (finite, infinite
or NaN), when the integer
part does not overflow 32 bits, the call returns the sum of the percent term, evaluated
in `float` arithmetic without integer truncation (`P` converted to `float`, the product
`b * P` and its quotient by 100 each rounded to the nearest `float`), and of the flat
term `(F * (100 + P)) / 100`, an `int32` division truncating toward zero whose result is
converted to `float`; the sum is rounded, and `b` plus that delta, rounded, is written
back. `F` and `P` are the totals of C1. -/
theorem applySpellModF_delta (w : World) (p : Player) (spellId : Nat) (op : SpellModOp)
    (b : Float32) (spell : Option Nat) (spellInfo : SpellEntry) (F P : Int)
    (_hb : Float32.isFloat b)
    (hknown : w.LookupEntry spellId = some spellInfo)
    (hF : F = flatTotal w spellInfo spellId (baseClass b) spell (p.m_spellMods op))
    (hP : P = pctTotal w spellInfo spellId (baseClass b) spell (p.m_spellMods op))
    (hfit : noOverflowF F P) :
    (ApplySpellModF w p spellId op b spell).ret
        = Float32.add (Float32.div (Float32.mul b (Float32.ofInt P)) (Float32.ofInt 100))
            (Float32.ofInt (Int.tdiv (F * (100 + P)) 100))
      ∧ (ApplySpellModF w p spellId op b spell).basevalue
        = Float32.add b
            (Float32.add (Float32.div (Float32.mul b (Float32.ofInt P)) (Float32.ofInt 100))
              (Float32.ofInt (Int.tdiv (F * (100 + P)) 100))) := by
  obtain ⟨h1, h2, h3, h4⟩ := hfit
  have hr := ApplySpellModF_ret w p spellId op b spell spellInfo hknown
  rw [← hF, ← hP] at hr
  have hd : spellModDiffF b (wrapInt32 P) (wrapInt32 F)
      = Float32.add (Float32.div (Float32.mul b (Float32.ofInt P)) (Float32.ofInt 100))
          (Float32.ofInt (Int.tdiv (F * (100 + P)) 100)) := by
    unfold spellModDiffF
    rw [wrapInt32_eq_self h2, wrapInt32_eq_self h1, wrapInt32_eq_self h3, wrapInt32_eq_self h4]
  rw [hd] at hr
  exact ⟨hr.1, by rw [hr.2, hr.1]⟩

/-- C14 as amended, at the base value `0.1f` with `F = 1` and `P = 50`: the product
`0.1f * 50` rounds to 5, the quotient `5 / 100` to the `float` nearest to 0.05, and the
sum with the integer 1 to 4404019 / 4194304, about 1.04999995; the base value becomes
9646899 / 8388608, about 1.14999998. -/
theorem applySpellModF_delta_witness :
    Float32.isFloat oneTenth
      ∧ maskWorld.LookupEntry 7 = some 7
      ∧ (1 : Int) = flatTotal maskWorld 7 7 (baseClass oneTenth) none (fractionPlayer.m_spellMods 3)
      ∧ (50 : Int) = pctTotal maskWorld 7 7 (baseClass oneTenth) none (fractionPlayer.m_spellMods 3)
      ∧ noOverflowF 1 50
      ∧ Int.tdiv (1 * (100 + 50)) 100 = 1
      ∧ (ApplySpellModF maskWorld fractionPlayer 7 3 oneTenth none).ret
          = .finite (4404019 / 4194304)
      ∧ (ApplySpellModF maskWorld fractionPlayer 7 3 oneTenth none).basevalue
          = .finite (9646899 / 8388608) :=
  ⟨by decide!, rfl, by rw [baseClass_oneTenth]; decide, by rw [baseClass_oneTenth]; decide,
    by decide, by decide,
    (applySpellModF_delta maskWorld fractionPlayer 7 3 oneTenth none 7 1 50 (by decide!) rfl
      (by rw [baseClass_oneTenth]; decide) (by rw [baseClass_oneTenth]; decide)
      (by decide)).1.trans (by decide!),
    (applySpellModF_delta maskWorld fractionPlayer 7 3 oneTenth none 7 1 50 (by decide!) rfl
      (by rw [baseClass_oneTenth]; decide) (by rw [baseClass_oneTenth]; decide)
      (by decide)).2.trans (by decide!)⟩

/-! ## The placement resolution claims -/

theorem placeAlong_sum (room : ItemPos → Nat) (n : Nat) (order : List ItemPos) :
    ((placeAlong room n order).map Prod.snd).sum = min n ((order.map room).sum) := by
  induction order generalizing n with
  | nil => simp [placeAlong]
  | cons p rest ih =>
    simp only [placeAlong, List.map_cons, List.sum_cons]
    by_cases hn : n = 0
    · simp [hn]
    · rw [if_neg hn]
      by_cases hr : room p = 0
      · rw [if_pos hr, ih, hr, zero_add]
      · rw [if_neg hr, List.map_cons, List.sum_cons, ih]
        simp only []
        omega

theorem room_eq_zero_of_not (t : SlotTable) (limit entry : Nat) (p : ItemPos)
    (h1 : canTopUp limit entry (t.content p) = false)
    (h2 : isEmptySlot (t.content p) = false) :
    roomAt limit entry (t.content p) = 0 := by
  cases hc : t.content p with
  | none => rw [hc] at h2; cases h2
  | some st =>
    rw [hc] at h1
    simp only [canTopUp, decide_eq_false_iff_not] at h1
    simp only [roomAt, if_neg h1]

theorem not_both (held : Option ItemStack) (limit entry : Nat)
    (h1 : canTopUp limit entry held = true) : isEmptySlot held = false := by
  cases held with
  | none => cases h1
  | some st => rfl

theorem containerOrder_sum (t : SlotTable) (limit entry : Nat) (slots : List ItemPos) :
    ((containerOrder t limit entry slots).map
        (fun p => roomAt limit entry (t.content p))).sum
      = (slots.map (fun p => roomAt limit entry (t.content p))).sum := by
  unfold containerOrder
  rw [List.map_append, List.sum_append]
  induction slots with
  | nil => rfl
  | cons p rest ih =>
    simp only [List.filter_cons, List.map_cons, List.sum_cons]
    cases h1 : canTopUp limit entry (t.content p) with
    | true =>
      rw [not_both _ _ _ h1]
      simp only [if_true, List.map_cons, List.sum_cons, Bool.false_eq_true, if_false]
      omega
    | false =>
      cases h2 : isEmptySlot (t.content p) with
      | true =>
        simp only [if_true, List.map_cons, List.sum_cons, Bool.false_eq_true, if_false]
        omega
      | false =>
        simp only [Bool.false_eq_true, if_false, room_eq_zero_of_not t limit entry p h1 h2]
        omega

theorem searchOrder_sum (t : SlotTable) (ty : ItemType) (q : PlacementQuery) :
    ((searchOrder t ty q).map (fun p => roomAt ty.stackLimit q.entry (t.content p))).sum
      = ((((eligibleContainers t ty q).map (fun c => slotsOf c.1 c.2.1 c.2.2)).flatten).map
          (fun p => roomAt ty.stackLimit q.entry (t.content p))).sum := by
  unfold searchOrder
  generalize eligibleContainers t ty q = cs
  induction cs with
  | nil => rfl
  | cons c rest ih =>
    simp only [List.map_cons, List.flatten_cons, List.map_append, List.sum_append]
    rw [containerOrder_sum]
    simp only [List.map_append, List.sum_append] at ih
    rw [ih]

theorem hintedOrder_perm (t : SlotTable) (ty : ItemType) (q : PlacementQuery) :
    (hintedOrder t ty q).Perm (searchOrder t ty q) := by
  unfold hintedOrder
  cases q.hint with
  | none => exact List.Perm.refl _
  | some h =>
    simp only []
    split_ifs with hm
    · exact (List.perm_cons_erase hm).symm
    · exact List.Perm.refl _

theorem hintedOrder_sum (t : SlotTable) (ty : ItemType) (q : PlacementQuery) :
    ((hintedOrder t ty q).map (fun p => roomAt ty.stackLimit q.entry (t.content p))).sum
      = ((((eligibleContainers t ty q).map (fun c => slotsOf c.1 c.2.1 c.2.2)).flatten).map
          (fun p => roomAt ty.stackLimit q.entry (t.content p))).sum := by
  rw [← searchOrder_sum]
  exact ((hintedOrder_perm t ty q).map _).sum_eq

/-- The resolver places the whole count exactly when the capacity suffices. -/
theorem Resolve_eq (d : ItemData) (t : SlotTable) (q : PlacementQuery) (ty : ItemType)
    (hty : d.proto q.entry = some ty) :
    Resolve d t q
      = if q.count ≤ capacity d t ty q then
          .placements (placeAlong (fun p => roomAt ty.stackLimit q.entry (t.content p)) q.count
            (hintedOrder t ty q))
        else .failure .InsufficientSpace := by
  unfold Resolve capacity
  rw [hty]
  simp only [placeAlong_sum, hintedOrder_sum]
  cases hl : d.limitRoom t q.entry with
  | none =>
    simp only [Bool.false_eq_true, if_false]
    by_cases hc : q.count ≤ ((((eligibleContainers t ty q).map
        (fun c => slotsOf c.1 c.2.1 c.2.2)).flatten).map
          (fun p => roomAt ty.stackLimit q.entry (t.content p))).sum
    · rw [if_pos hc, if_pos (by omega)]
    · rw [if_neg hc, if_neg (by omega)]
  | some r =>
    simp only [decide_eq_true_eq]
    by_cases hr : r < q.count
    · rw [if_pos hr, if_neg (by omega)]
    · rw [if_neg hr]
      by_cases hc : q.count ≤ ((((eligibleContainers t ty q).map
          (fun c => slotsOf c.1 c.2.1 c.2.2)).flatten).map
            (fun p => roomAt ty.stackLimit q.entry (t.content p))).sum
      · rw [if_pos (by omega), if_pos (by omega)]
      · rw [if_neg (by omega), if_neg (by omega)]


/-- C16: resolution is all-or-nothing and read-only. For a known item type, if the
capacity for the item across all eligible containers is below the requested count, the
resolver returns the failure `InsufficientSpace`; whatever it returns, the character's
slot table and modifier collection after the call are those before it; and a plan it
returns places exactly the requested count. -/
theorem resolve_all_or_nothing (d : ItemData) (c : Character) (q : PlacementQuery)
    (ty : ItemType)
    (hty : d.proto q.entry = some ty)
    (hcap : capacity d c.slots ty q < q.count) :
    (ResolvePlacement d c q).1 = .failure .InsufficientSpace
      ∧ (ResolvePlacement d c q).2 = c
      ∧ (∀ (q2 : PlacementQuery) (plan : List (ItemPos × Nat)),
          (ResolvePlacement d c q2).1 = .placements plan →
          (plan.map Prod.snd).sum = q2.count ∧ (ResolvePlacement d c q2).2 = c) := by
  refine ⟨?_, rfl, ?_⟩
  · show Resolve d c.slots q = _
    rw [Resolve_eq d c.slots q ty hty, if_neg (by omega)]
  · intro q2 plan hplan
    refine ⟨?_, rfl⟩
    have h : Resolve d c.slots q2 = .placements plan := hplan
    unfold Resolve at h
    cases hp : d.proto q2.entry with
    | none =>
      rw [hp] at h
      cases h
    | some ty2 =>
      rw [hp] at h
      simp only [] at h
      split_ifs at h with h1 h2
      · cases h
        exact h2

/-- C16 on the empty 16-slot pack: 321 units of an item that stacks to 20 exceed the
capacity of 320, the resolver answers `InsufficientSpace` and the character is as
before; 320 units are placed in full. -/
theorem resolve_all_or_nothing_witness :
    clothData.proto 4306 = some ⟨20, none⟩
      ∧ capacity clothData emptyTable ⟨20, none⟩ ⟨4306, 321, none, false⟩ = 320
      ∧ (ResolvePlacement clothData ⟨emptyTable, scenarioPlayer⟩
          ⟨4306, 321, none, false⟩).1 = .failure .InsufficientSpace
      ∧ ((Resolve clothData emptyTable ⟨4306, 320, none, false⟩
            = .placements ((slotsOf 255 23 16).map (fun p => (p, 20))))
          ∧ (((slotsOf 255 23 16).map (fun p => (p, 20))).map Prod.snd).sum = 320) :=
  have h := resolve_all_or_nothing clothData ⟨emptyTable, scenarioPlayer⟩
    ⟨4306, 321, none, false⟩ ⟨20, none⟩ rfl (by decide)
  ⟨rfl, by decide, h.1, by decide,
    (h.2.2 ⟨4306, 320, none, false⟩ ((slotsOf 255 23 16).map (fun p => (p, 20)))
      (by decide)).1⟩

theorem slotsOf_nodup (bag first size : Nat) : (slotsOf bag first size).Nodup := by
  unfold slotsOf
  apply List.Nodup.map
  · intro a b h
    exact congrArg ItemPos.slot h
  · exact List.nodup_range' first size

theorem mem_slotsOf (bag first size : Nat) (p : ItemPos) :
    p ∈ slotsOf bag first size ↔ p.bag = bag ∧ first ≤ p.slot ∧ p.slot < first + size := by
  unfold slotsOf
  simp only [List.mem_map, List.mem_range', one_mul]
  constructor
  · rintro ⟨s, ⟨i, hi, hs⟩, rfl⟩
    refine ⟨rfl, ?_, ?_⟩
    · show first ≤ s
      omega
    · show s < first + size
      omega
  · rintro ⟨hb, h1, h2⟩
    obtain ⟨pb, ps⟩ := p
    simp only [] at hb h1 h2
    subst hb
    refine ⟨ps, ⟨ps - first, ?_, ?_⟩, rfl⟩
    · omega
    · omega

theorem slotsOf_disjoint (a b : Nat × Nat × Nat) (h : apartContainers a b) :
    (slotsOf a.1 a.2.1 a.2.2).Disjoint (slotsOf b.1 b.2.1 b.2.2) := by
  rw [List.disjoint_left]
  intro p hpa hpb
  rw [mem_slotsOf] at hpa hpb
  unfold apartContainers at h
  omega

theorem eligibleContainers_pairwise (t : SlotTable) (ty : ItemType) (q : PlacementQuery) :
    (eligibleContainers t ty q).Pairwise apartContainers := by
  have hb : List.range' INVENTORY_SLOT_BAG_START 4 = [19, 20, 21, 22] := rfl
  have hk : List.range' BANK_SLOT_BAG_START 7 = [67, 68, 69, 70, 71, 72, 73] := rfl
  unfold eligibleContainers
  rw [hb, hk]
  cases ty.equipSlot with
  | none =>
    cases q.allowBank <;>
      simp [apartContainers, INVENTORY_SLOT_BAG_0, INVENTORY_SLOT_ITEM_START,
        BANK_SLOT_ITEM_START]
  | some e =>
    by_cases he : e < EQUIPMENT_SLOT_END ∧ q.count ≤ ty.stackLimit
    · have he2 : e < 19 := he.1
      cases q.allowBank <;>
        simp [he, apartContainers, INVENTORY_SLOT_BAG_0, INVENTORY_SLOT_ITEM_START,
          BANK_SLOT_ITEM_START] <;> omega
    · cases q.allowBank <;>
        simp [he, apartContainers, INVENTORY_SLOT_BAG_0, INVENTORY_SLOT_ITEM_START,
          BANK_SLOT_ITEM_START]

theorem containerOrder_nodup (t : SlotTable) (limit entry : Nat) (slots : List ItemPos)
    (h : slots.Nodup) : (containerOrder t limit entry slots).Nodup := by
  unfold containerOrder
  rw [List.nodup_append]
  refine ⟨h.filter _, h.filter _, ?_⟩
  rw [List.disjoint_left]
  intro p hp1 hp2
  rw [List.mem_filter] at hp1 hp2
  have := not_both _ _ _ hp1.2
  rw [this] at hp2
  exact Bool.false_ne_true hp2.2

theorem mem_containerOrder (t : SlotTable) (limit entry : Nat) (slots : List ItemPos)
    (p : ItemPos) (h : p ∈ containerOrder t limit entry slots) : p ∈ slots := by
  unfold containerOrder at h
  rw [List.mem_append, List.mem_filter, List.mem_filter] at h
  rcases h with h | h
  · exact h.1
  · exact h.1

theorem searchOrder_nodup (t : SlotTable) (ty : ItemType) (q : PlacementQuery) :
    (searchOrder t ty q).Nodup := by
  unfold searchOrder
  rw [List.nodup_flatten]
  constructor
  · intro l hl
    rw [List.mem_map] at hl
    obtain ⟨c, _, rfl⟩ := hl
    exact containerOrder_nodup _ _ _ _ (slotsOf_nodup _ _ _)
  · rw [List.pairwise_map]
    refine (eligibleContainers_pairwise t ty q).imp ?_
    intro a b hab
    rw [List.disjoint_left]
    intro p hpa hpb
    exact (List.disjoint_left.mp (slotsOf_disjoint a b hab))
      (mem_containerOrder _ _ _ _ _ hpa) (mem_containerOrder _ _ _ _ _ hpb)

theorem hintedOrder_nodup (t : SlotTable) (ty : ItemType) (q : PlacementQuery) :
    (hintedOrder t ty q).Nodup := by
  unfold hintedOrder
  cases q.hint with
  | none => exact searchOrder_nodup t ty q
  | some h =>
    simp only []
    split_ifs with hm
    · rw [List.nodup_cons]
      refine ⟨?_, (searchOrder_nodup t ty q).erase h⟩
      intro hmem
      exact ((searchOrder_nodup t ty q).mem_erase_iff.mp hmem).1 rfl
    · exact searchOrder_nodup t ty q

theorem placeAlong_zero (room : ItemPos → Nat) (order : List ItemPos) :
    placeAlong room 0 order = [] := by
  cases order with
  | nil => rfl
  | cons p rest => simp [placeAlong]

theorem mem_placeAlong (room : ItemPos → Nat) (n : Nat) (order : List ItemPos) (y : ItemPos)
    (k : Nat) (h : (y, k) ∈ placeAlong room n order) : y ∈ order ∧ 0 < room y ∧ 0 < k := by
  induction order generalizing n with
  | nil => simp [placeAlong] at h
  | cons p rest ih =>
    simp only [placeAlong] at h
    split_ifs at h with hn hr
    · cases h
    · obtain ⟨h1, h2⟩ := ih _ h
      exact ⟨List.mem_cons_of_mem _ h1, h2⟩
    · rw [List.mem_cons] at h
      rcases h with h | h
      · have h1 : y = p := congrArg Prod.fst h
        have h2 : k = min n (room p) := congrArg Prod.snd h
        subst h1
        exact ⟨List.mem_cons_self _ _, by omega, by omega⟩
      · obtain ⟨h1, h2⟩ := ih _ h
        exact ⟨List.mem_cons_of_mem _ h1, h2⟩

/-- A position that comes before a used position in the order has been filled to its
whole room, earlier in the plan. -/
theorem placeAlong_sublist (room : ItemPos → Nat) (order : List ItemPos) (hnd : order.Nodup)
    (x y : ItemPos) (hxy : List.Sublist [x, y] order) (hx : 0 < room x) (n : Nat) (k : Nat)
    (hy : (y, k) ∈ placeAlong room n order) :
    List.Sublist [(x, room x), (y, k)] (placeAlong room n order) := by
  induction order generalizing n with
  | nil => cases hxy
  | cons z zs ih =>
    rw [List.nodup_cons] at hnd
    simp only [placeAlong] at hy ⊢
    by_cases hn : n = 0
    · rw [if_pos hn] at hy
      cases hy
    · rw [if_neg hn] at hy ⊢
      rw [List.sublist_cons_iff] at hxy
      by_cases hr : room z = 0
      · rw [if_pos hr] at hy ⊢
        rcases hxy with h | ⟨r, h1, h2⟩
        · exact ih hnd.2 h n hy
        · have hxz : x = z := (List.cons.inj h1).1
          rw [hxz] at hx
          omega
      · rw [if_neg hr] at hy ⊢
        rcases hxy with h | ⟨r, h1, h2⟩
        · have hyz : y ∈ zs := h.subset (by simp)
          rw [List.mem_cons] at hy
          rcases hy with hy | hy
          · have : y = z := congrArg Prod.fst hy
            rw [this] at hyz
            exact absurd hyz hnd.1
          · exact (ih hnd.2 h _ hy).cons _
        · have hxz : x = z := (List.cons.inj h1).1
          have hr2 : r = [y] := (List.cons.inj h1).2.symm
          subst hxz hr2
          have hyz : y ∈ zs := List.singleton_sublist.mp h2
          rw [List.mem_cons] at hy
          rcases hy with hy | hy
          · have : y = x := congrArg Prod.fst hy
            rw [this] at hyz
            exact absurd hyz hnd.1
          · have hrest : n - min n (room x) ≠ 0 := by
              intro h0
              rw [h0, placeAlong_zero] at hy
              cases hy
            have hmin : min n (room x) = room x := by omega
            rw [hmin] at hy ⊢
            exact (List.singleton_sublist.mpr hy).cons₂ _

theorem roomAt_pos_of_canTopUp (limit entry : Nat) (held : Option ItemStack)
    (h : canTopUp limit entry held = true) : 0 < roomAt limit entry held := by
  cases held with
  | none => cases h
  | some st =>
    simp only [canTopUp, decide_eq_true_eq] at h
    simp only [roomAt, if_pos h]
    omega

theorem roomAt_of_isEmptySlot (limit entry : Nat) (held : Option ItemStack)
    (h : isEmptySlot held = true) : roomAt limit entry held = limit := by
  cases held with
  | none => rfl
  | some st => cases h

theorem sublist_containerOrder_of_filledBefore (t : SlotTable) (limit entry : Nat)
    (slots : List ItemPos) (x y : ItemPos) (h : filledBefore t limit entry slots x y) :
    List.Sublist [x, y] (containerOrder t limit entry slots) := by
  unfold containerOrder
  rcases h with ⟨hx, hy, hxs, hys⟩ | ⟨hx, hy, hs⟩ | ⟨hx, hy, hs⟩
  · have h1 : List.Sublist [x] (slots.filter (fun p => canTopUp limit entry (t.content p))) :=
      List.singleton_sublist.mpr (List.mem_filter.mpr ⟨hxs, hx⟩)
    have h2 : List.Sublist [y] (slots.filter (fun p => isEmptySlot (t.content p))) :=
      List.singleton_sublist.mpr (List.mem_filter.mpr ⟨hys, hy⟩)
    exact h1.append h2
  · have h1 := hs.filter (fun p => canTopUp limit entry (t.content p))
    simp only [List.filter_cons, hx, hy, if_true, List.filter_nil] at h1
    exact List.sublist_append_of_sublist_left h1
  · have h1 := hs.filter (fun p => isEmptySlot (t.content p))
    simp only [List.filter_cons, hx, hy, if_true, List.filter_nil] at h1
    exact List.sublist_append_of_sublist_right h1

theorem sublist_hintedOrder (t : SlotTable) (ty : ItemType) (q : PlacementQuery)
    (x y : ItemPos) (h : List.Sublist [x, y] (searchOrder t ty q)) (hhint : q.hint ≠ some y) :
    List.Sublist [x, y] (hintedOrder t ty q) := by
  unfold hintedOrder
  cases hq : q.hint with
  | none => exact h
  | some a =>
    simp only []
    split_ifs with hm
    · have hya : y ≠ a := by
        intro hya
        rw [hq, hya] at hhint
        exact hhint rfl
      by_cases hxa : x = a
      · subst hxa
        have hy : y ∈ searchOrder t ty q := h.subset (by simp)
        exact (List.singleton_sublist.mpr ((List.mem_erase_of_ne hya).mpr hy)).cons₂ _
      · have h2 := List.Sublist.erase a h
        have h3 : [x, y].erase a = [x, y] := by
          rw [List.erase_of_not_mem]
          simp only [List.mem_cons, List.mem_singleton, List.not_mem_nil, or_false, not_or]
          exact ⟨fun e => hxa e.symm, fun e => hya e.symm⟩
        rw [h3] at h2
        exact h2.cons _
    · exact h

/-- C15 fails as stated on a hinted resolution: the pack holds a stack of 5 (limit 20) in
its first slot and the hint names the empty pack slot 30; step 1 prefers the hint, so
the 20 units go to the hinted empty slot and the compatible non-full stack is not
topped up. -/
theorem hinted_slot_opened_before_top_up :
    Resolve clothData (CommitPlacement 4306 [(⟨255, 23⟩, 5)] emptyTable)
        ⟨4306, 20, some ⟨255, 30⟩, false⟩ = .placements [(⟨255, 30⟩, 20)]
      ∧ canTopUp 20 4306
          ((CommitPlacement 4306 [(⟨255, 23⟩, 5)] emptyTable).content ⟨255, 23⟩) = true
      ∧ isEmptySlot
          ((CommitPlacement 4306 [(⟨255, 23⟩, 5)] emptyTable).content ⟨255, 30⟩) = true := by
  decide

/-- C15 as amended: resolution tops up before it opens. In a plan the resolver returns for a
known item type, whenever a slot `y` of an eligible container is used and `y` is not
the hinted position, every slot `x` of the same container that is filled before `y`,
that is every compatible non-full stack if `y` is empty, and every slot of `y`'s kind
that precedes it in ascending slot order, has been filled to its whole room earlier in
the plan. -/
theorem resolve_tops_up_before_opening (d : ItemData) (t : SlotTable) (q : PlacementQuery)
    (ty : ItemType) (plan : List (ItemPos × Nat)) (c : Nat × Nat × Nat) (x y : ItemPos) (k : Nat)
    (hty : d.proto q.entry = some ty)
    (hres : Resolve d t q = .placements plan)
    (hc : c ∈ eligibleContainers t ty q)
    (hbefore : filledBefore t ty.stackLimit q.entry (slotsOf c.1 c.2.1 c.2.2) x y)
    (hy : (y, k) ∈ plan)
    (hhint : q.hint ≠ some y) :
    List.Sublist [(x, roomAt ty.stackLimit q.entry (t.content x)), (y, k)] plan := by
  rw [Resolve_eq d t q ty hty] at hres
  split_ifs at hres with hcap
  have hplan : placeAlong (fun p => roomAt ty.stackLimit q.entry (t.content p)) q.count
      (hintedOrder t ty q) = plan := by
    injection hres
  rw [← hplan] at hy ⊢
  have h1 := sublist_containerOrder_of_filledBefore t ty.stackLimit q.entry _ x y hbefore
  have h2 : List.Sublist [x, y] (searchOrder t ty q) := by
    unfold searchOrder
    refine h1.trans (List.sublist_flatten_of_mem ?_)
    exact List.mem_map.mpr ⟨c, hc, rfl⟩
  have h3 := sublist_hintedOrder t ty q x y h2 hhint
  have hroomy := (mem_placeAlong _ _ _ _ _ hy).2.1
  have hroomx : 0 < roomAt ty.stackLimit q.entry (t.content x) := by
    rcases hbefore with ⟨hx, _⟩ | ⟨hx, _⟩ | ⟨hx, hye, _⟩
    · exact roomAt_pos_of_canTopUp _ _ _ hx
    · exact roomAt_pos_of_canTopUp _ _ _ hx
    · rw [roomAt_of_isEmptySlot _ _ _ hx]
      simp only [roomAt_of_isEmptySlot _ _ _ hye] at hroomy
      exact hroomy
  exact placeAlong_sublist _ _ (hintedOrder_nodup t ty q) x y h3 hroomx q.count k hy

/-- C15, the scenario of section 8: on the empty 16-slot pack, 5 units of an item that
stacks to 20 are placed in the first pack slot; once that is committed, 20 more give 15
for the first pack slot, which fills its stack, followed by 5 for the next pack slot. -/
theorem resolve_tops_up_before_opening_witness :
    Resolve clothData emptyTable ⟨4306, 5, none, false⟩ = .placements [(⟨255, 23⟩, 5)]
      ∧ Resolve clothData (CommitPlacement 4306 [(⟨255, 23⟩, 5)] emptyTable)
          ⟨4306, 20, none, false⟩ = .placements [(⟨255, 23⟩, 15), (⟨255, 24⟩, 5)]
      ∧ roomAt 20 4306 ((CommitPlacement 4306 [(⟨255, 23⟩, 5)] emptyTable).content ⟨255, 23⟩)
          = 15
      ∧ List.Sublist
          [((⟨255, 23⟩ : ItemPos),
              roomAt 20 4306
                ((CommitPlacement 4306 [(⟨255, 23⟩, 5)] emptyTable).content ⟨255, 23⟩)),
            (⟨255, 24⟩, 5)]
          [((⟨255, 23⟩ : ItemPos), 15), (⟨255, 24⟩, 5)] :=
  ⟨by decide, by decide, by decide,
    resolve_tops_up_before_opening clothData
      (CommitPlacement 4306 [(⟨255, 23⟩, 5)] emptyTable) ⟨4306, 20, none, false⟩ ⟨20, none⟩
      [(⟨255, 23⟩, 15), (⟨255, 24⟩, 5)] (255, 23, 16) ⟨255, 23⟩ ⟨255, 24⟩ 5 rfl (by decide)
      (by decide) (Or.inl ⟨by decide, by decide, by decide, by decide⟩) (by decide)
      (by decide)⟩

/-! ## The unknown spell id -/

/-- C22: `ApplySpellMod` called with a spell id that has no spell-template entry
returns 0 and changes nothing: the caller's base value and the player, with every
modifier's charges and last context and the pending-removal counter, are as before. -/
theorem applySpellMod_unknown_spell (w : World) (p : Player) (spellId : Nat) (op : SpellModOp)
    (b : Int) (spell : Option Nat)
    (hunknown : w.LookupEntry spellId = none) :
    (ApplySpellMod w p spellId op b spell).ret = 0
      ∧ (ApplySpellMod w p spellId op b spell).basevalue = b
      ∧ (ApplySpellMod w p spellId op b spell).player = p := by
  rw [ApplySpellMod_unknown w p spellId op b spell hunknown]
  exact ⟨rfl, rfl, rfl⟩

/-- C22 for the unknown spell id 100 on the player with charged modifiers. -/
theorem applySpellMod_unknown_spell_witness :
    sparseWorld.LookupEntry 100 = none
      ∧ (ApplySpellMod sparseWorld chargedPlayer 100 3 500 (some 9)).ret = 0
      ∧ (ApplySpellMod sparseWorld chargedPlayer 100 3 500 (some 9)).basevalue = 500
      ∧ (ApplySpellMod sparseWorld chargedPlayer 100 3 500 (some 9)).player = chargedPlayer :=
  ⟨rfl, applySpellMod_unknown_spell sparseWorld chargedPlayer 100 3 500 (some 9) rfl⟩

/-! ## The timed quest set -/

/-- C21 fails on the code: `AddTimedQuest` inserts into the set without looking at
what it holds, so after adding the quests 10 and 20 to the empty set both are in it;
removing one leaves the other. -/
theorem two_timed_quests_active :
    AddTimedQuest (AddTimedQuest [] 10) 20 = [10, 20]
      ∧ (AddTimedQuest (AddTimedQuest [] 10) 20).length = 2
      ∧ RemoveTimedQuest (AddTimedQuest (AddTimedQuest [] 10) 20) 10 = [20] := by
  decide

/-! ## The action button packing -/

theorem packed_eq (action type : Nat) (ha : action < 2 ^ 24) (ht : type < 256) :
    (action ||| ((type <<< 24) % 4294967296)) % 4294967296 = 2 ^ 24 * type + action := by
  have h1 : type <<< 24 = 2 ^ 24 * type := by
    rw [Nat.shiftLeft_eq, Nat.mul_comm]
  have h2 : 2 ^ 24 * type < 4294967296 := by omega
  rw [h1, Nat.mod_eq_of_lt h2, Nat.lor_comm, ← Nat.mul_add_lt_is_or ha type]
  exact Nat.mod_eq_of_lt (by omega)

theorem action_of_packed (action type : Nat) (ha : action < 2 ^ 24) :
    ACTION_BUTTON_ACTION (2 ^ 24 * type + action) = action := by
  unfold ACTION_BUTTON_ACTION
  have h : (2 ^ 24 * type + action) &&& (2 ^ 24 - 1) = (2 ^ 24 * type + action) % 2 ^ 24 :=
    Nat.and_pow_two_sub_one_eq_mod _ 24
  have h2 : (0x00FFFFFF : Nat) = 2 ^ 24 - 1 := by decide
  rw [h2, h]
  omega

theorem type_of_packed (action type : Nat) (ha : action < 2 ^ 24) (ht : type < 256) :
    ACTION_BUTTON_TYPE (2 ^ 24 * type + action) = type := by
  unfold ACTION_BUTTON_TYPE
  apply Nat.eq_of_testBit_eq
  intro i
  rw [Nat.testBit_shiftRight, Nat.testBit_land]
  have hm : Nat.testBit 0xFF000000 (24 + i) = decide (i < 8) := by
    by_cases h : i < 8
    · interval_cases i <;> decide
    · have hlt : (0xFF000000 : Nat) < 2 ^ (24 + i) :=
        lt_of_lt_of_le (by decide : (0xFF000000 : Nat) < 2 ^ 32)
          (Nat.pow_le_pow_right (by decide) (by omega))
      rw [Nat.testBit_lt_two_pow hlt]
      simp [h]
  have hx : (2 ^ 24 * type + action).testBit (24 + i) = type.testBit i := by
    rw [Nat.testBit_mul_pow_two_add type ha]
    simp
  rw [hm, hx]
  by_cases h : i < 8
  · simp [h]
  · have hlt : type < 2 ^ i :=
      lt_of_lt_of_le ht (by
        calc 256 = 2 ^ 8 := by decide
          _ ≤ 2 ^ i := Nat.pow_le_pow_right (by decide) (by omega))
    simp [h, Nat.testBit_lt_two_pow hlt]

/-- C28: for every action below `MAX_ACTION_BUTTON_ACTION_VALUE` = 2^24 and every type
below 256, after `SetActionAndType(action, type)` on any button `GetAction()` returns
the action and `GetType()` the type, and `packedData` is `type * 2^24 + action`: the
action in the low 24 bits and the type in the high 8 bits. -/
theorem action_button_roundtrip (b : ActionButton) (action type : Nat)
    (ha : action < MAX_ACTION_BUTTON_ACTION_VALUE) (ht : type < 256) :
    (b.SetActionAndType action type).GetAction = action
      ∧ (b.SetActionAndType action type).GetType = type
      ∧ (b.SetActionAndType action type).packedData = type * 2 ^ 24 + action := by
  have ha2 : action < 2 ^ 24 := ha
  have hp : (b.SetActionAndType action type).packedData = 2 ^ 24 * type + action := by
    unfold ActionButton.SetActionAndType
    simp only [packed_eq action type ha2 ht]
    split_ifs with h1 h2
    · rfl
    · rfl
    · have h3 : 2 ^ 24 * type + action = b.packedData := by
        by_contra hne
        exact h1 (Or.inl hne)
      exact h3.symm
  refine ⟨?_, ?_, ?_⟩
  · unfold ActionButton.GetAction
    rw [hp]
    exact action_of_packed action type ha2
  · unfold ActionButton.GetType
    rw [hp]
    exact type_of_packed action type ha2 ht
  · rw [hp, Nat.mul_comm]

/-- C28 on a new button, with the action 133 and the type `ACTION_BUTTON_ITEM` = 0x80. -/
theorem action_button_roundtrip_witness :
    (133 : Nat) < MAX_ACTION_BUTTON_ACTION_VALUE ∧ (0x80 : Nat) < 256
      ∧ (ActionButton.new.SetActionAndType 133 0x80).GetAction = 133
      ∧ (ActionButton.new.SetActionAndType 133 0x80).GetType = 0x80
      ∧ (ActionButton.new.SetActionAndType 133 0x80).packedData = 0x80 * 2 ^ 24 + 133 :=
  ⟨by decide, by decide,
    action_button_roundtrip ActionButton.new 133 0x80 (by decide) (by decide)⟩

/-! ## The money claim -/

/-- Away from `d = 0x7FFFFFFF` the function `ModifyMoney` clamps `money + d` to
`[0, MAX_MONEY_AMOUNT]`. -/
theorem ModifyMoney_clamps (money : Nat) (d : Int) (hm : (money : Int) ≤ MAX_MONEY_AMOUNT)
    (hlo : -2147483648 ≤ d) (hhi : d < 2147483647) :
    (ModifyMoney money d : Int) = max 0 (min (money + d) MAX_MONEY_AMOUNT) := by
  unfold ModifyMoney toUInt32 wrapInt32 MAX_MONEY_AMOUNT
  unfold MAX_MONEY_AMOUNT at hm
  split_ifs <;> omega

/-- C26 fails on the code at `d = 0x7FFFFFFF`: `MAX_MONEY_AMOUNT - d` is -1, which the
conversion `uint32(...)` turns into 4294967295, so the test `GetMoney() < ...` holds and
the money becomes `GetMoney() + d`: from 0 it becomes 2147483647, above
`MAX_MONEY_AMOUNT` = 2147483646, and from `MAX_MONEY_AMOUNT` it becomes 4294967293. For
`d = 0x7FFFFFFE` the clamp works. -/
theorem modifyMoney_exceeds_limit :
    ModifyMoney 0 0x7FFFFFFF = 2147483647
      ∧ (MAX_MONEY_AMOUNT : Int) < (ModifyMoney 0 0x7FFFFFFF : Nat)
      ∧ ModifyMoney 2147483646 0x7FFFFFFF = 4294967293
      ∧ ModifyMoney 5 0x7FFFFFFE = 2147483646 := by
  decide

/-! ## The battleground queue claim -/

/-- Whatever the value of `BATTLEGROUND_QUEUE_NONE` and the size (at least two slots) of
the table: after queueing for `a` and `b`, leaving `a`, queueing for `b` again and
leaving `b`, slot 1 still holds `b`. -/
theorem requeueScenario_eq (qnone n a b : Nat) (ha : a ≠ qnone) (hab : a ≠ b) :
    requeueScenario qnone (n + 2) a b
      = ⟨qnone, 0⟩ :: ⟨b, 0⟩ :: List.replicate n ⟨qnone, 0⟩ := by
  have hba : b ≠ a := fun h => hab h.symm
  have hqa : qnone ≠ a := fun h => ha h.symm
  simp [requeueScenario, emptyQueueTable, List.replicate_succ, AddBattleGroundQueueId,
    RemoveBattleGroundQueueId, ha, hab, hba, hqa]

/-- After the scenario of `requeueScenario` the player is still queued for `b`. -/
theorem requeueScenario_index (qnone n a b : Nat) (ha : a ≠ qnone) (hb : b ≠ qnone)
    (hab : a ≠ b) :
    GetBattleGroundQueueIndex (requeueScenario qnone (n + 2) a b) b = 1 := by
  have hqb : qnone ≠ b := fun h => hb h.symm
  rw [requeueScenario_eq qnone n a b ha hab]
  simp [GetBattleGroundQueueIndex, findQueueIndex, hqb]

/-- C27 fails on the code: from the all-empty table of three slots (with
`BATTLEGROUND_QUEUE_NONE` = 0), after queueing for 1 and for 2, leaving 1 and queueing
for 2 again, the queue type 2 holds two slots (the freed slot 0 comes before the slot
that already holds 2); `RemoveBattleGroundQueueId(2)` frees the first of them only, and
the player is still queued for 2, at index 1. -/
theorem queue_type_left_after_remove :
    AddBattleGroundQueueId 0
        (RemoveBattleGroundQueueId 0
          (AddBattleGroundQueueId 0 (AddBattleGroundQueueId 0 (emptyQueueTable 0 3) 1) 2) 1) 2
      = [⟨2, 0⟩, ⟨2, 0⟩, ⟨0, 0⟩]
    ∧ requeueScenario 0 3 1 2 = [⟨0, 0⟩, ⟨2, 0⟩, ⟨0, 0⟩]
    ∧ GetBattleGroundQueueIndex (requeueScenario 0 3 1 2) 2 = 1
    ∧ InBattleGroundQueueForBattleGroundQueueType (requeueScenario 0 3 1 2) 2 = true := by
  decide

/-! ## The pending-removal counter claim -/

theorem exhaustedCount_cons (m m2 : SpellModifier) (ms ms2 : List SpellModifier) :
    exhaustedCount (m :: ms) (m2 :: ms2)
      = exhaustedCount ms ms2 + if m.charges = 1 ∧ m2.charges = -1 then 1 else 0 := by
  simp [exhaustedCount, List.countP_cons]

theorem pendingRemoval_cons (m : SpellModifier) (ms : List SpellModifier) :
    pendingRemoval (m :: ms) = pendingRemoval ms + if m.charges = -1 then 1 else 0 := by
  simp [pendingRemoval, List.countP_cons]

/-- One iteration never raises the charges of a modifier and never leaves them at 0
unless they were 0; the charges are -1 afterwards exactly when they were -1 before or
the iteration used the last charge. -/
theorem modAfter_charges (w : World) (spellInfo : SpellEntry) (spellId : Nat) (basevalue : Int)
    (ctx : Option Nat) (mod : SpellModifier) :
    (modAfter w spellInfo spellId basevalue ctx mod).charges ≤ mod.charges
      ∧ ((modAfter w spellInfo spellId basevalue ctx mod).charges = 0 → mod.charges = 0)
      ∧ ((modAfter w spellInfo spellId basevalue ctx mod).charges = -1
          ↔ (mod.charges = -1
              ∨ (mod.charges = 1
                  ∧ (modAfter w spellInfo spellId basevalue ctx mod).charges = -1))) := by
  rcases modAfter_cases w spellInfo spellId basevalue ctx mod with h | ⟨hpos, h⟩
  · rw [h]
    refine ⟨le_refl _, fun h0 => h0, ?_⟩
    constructor
    · intro h1; exact Or.inl h1
    · rintro (h1 | ⟨_, h1⟩) <;> exact h1
  · rw [h]
    simp only [useCharge]
    split_ifs with h1
    · refine ⟨by omega, fun hx => absurd hx (by decide), ?_⟩
      constructor
      · intro _; exact Or.inr ⟨h1, rfl⟩
      · intro _; rfl
    · refine ⟨by omega, fun hx => by omega, ?_⟩
      constructor
      · intro h2; omega
      · rintro (h2 | ⟨h2, _⟩) <;> omega

/-- The iteration turns the charges from 1 to -1 exactly when it increments the
counter. -/
theorem exhausted_iff (w : World) (spellInfo : SpellEntry) (spellId : Nat) (basevalue : Int)
    (ctx : Option Nat) (mod : SpellModifier) :
    (mod.charges = 1 ∧ (modAfter w spellInfo spellId basevalue ctx mod).charges = -1)
      ↔ (isApplied w spellInfo basevalue ctx mod ∧ mod.charges = 1
          ∧ (mod.lastAffected = none ∨ mod.lastAffected ≠ callContext w spellId ctx)) := by
  unfold modAfter
  constructor
  · rintro ⟨h1, h2⟩
    split_ifs at h2 with hc
    · exact ⟨hc.1, h1, hc.2.2⟩
    · omega
  · rintro ⟨ha, h1, hl⟩
    have hc : isApplied w spellInfo basevalue ctx mod ∧ mod.charges > 0
        ∧ (mod.lastAffected = none ∨ mod.lastAffected ≠ callContext w spellId ctx) :=
      ⟨ha, by omega, hl⟩
    rw [if_pos hc]
    exact ⟨h1, by simp [useCharge, h1]⟩

/-- The counter after the loop: the counter before it plus the number of modifiers the
loop used up, stored in an `int32`. -/
theorem spellModLoop_count (w : World) (spellInfo : SpellEntry) (spellId : Nat)
    (basevalue : Int) (mods : List SpellModifier) :
    ∀ st : ModLoop, isInt32 st.m_SpellModRemoveCount →
      (spellModLoop w spellInfo spellId basevalue st mods).1.m_SpellModRemoveCount
        = wrapInt32 (st.m_SpellModRemoveCount
            + exhaustedCount mods (modsAfter w spellInfo spellId basevalue st.spell mods)) := by
  induction mods with
  | nil =>
    intro st h
    simp [spellModLoop, modsAfter, exhaustedCount, wrapInt32_eq_self h]
  | cons mod rest ih =>
    intro st h
    simp only [spellModLoop, modsAfter, exhaustedCount_cons, spellModBody_eq]
    have hiff := exhausted_iff w spellInfo spellId basevalue st.spell mod
    by_cases hc : isApplied w spellInfo basevalue st.spell mod ∧ mod.charges = 1
        ∧ (mod.lastAffected = none ∨ mod.lastAffected ≠ callContext w spellId st.spell)
    · rw [ih _ (by simp only [if_pos hc]; exact isInt32_wrapInt32 _)]
      simp only [if_pos hc, if_pos (hiff.mpr hc)]
      rw [wrapInt32_wrapInt32_add]
      congr 1
      push_cast
      ring
    · rw [ih _ (by simp only [if_neg hc]; exact h)]
      simp only [if_neg hc, if_neg (fun hx => hc (hiff.mp hx))]
      simp

/-- The modifiers with `charges = -1` after the loop are those that had `charges = -1`
before it and those the loop used up. -/
theorem pendingRemoval_modsAfter (w : World) (spellInfo : SpellEntry) (spellId : Nat)
    (basevalue : Int) (mods : List SpellModifier) :
    ∀ ctx : Option Nat,
      pendingRemoval (modsAfter w spellInfo spellId basevalue ctx mods)
        = pendingRemoval mods
          + exhaustedCount mods (modsAfter w spellInfo spellId basevalue ctx mods) := by
  induction mods with
  | nil => intro ctx; simp [modsAfter, pendingRemoval, exhaustedCount]
  | cons mod rest ih =>
    intro ctx
    simp only [modsAfter, pendingRemoval_cons, exhaustedCount_cons, ih]
    have h := (modAfter_charges w spellInfo spellId basevalue ctx mod).2.2
    by_cases h1 : (modAfter w spellInfo spellId basevalue ctx mod).charges = -1
    · rcases h.mp h1 with h2 | ⟨h2, _⟩
      · have h3 : ¬ mod.charges = 1 := by omega
        simp [h1, h2, h3]
        omega
      · have h3 : ¬ mod.charges = -1 := by omega
        simp [h1, h2, h3]
        omega
    · have h2 : ¬ mod.charges = -1 := fun hx => h1 (h.mpr (Or.inl hx))
      simp [h1, h2]

/-- No iteration raises the charges of a modifier or turns them into 0. -/
theorem modsAfter_charges (w : World) (spellInfo : SpellEntry) (spellId : Nat)
    (basevalue : Int) (mods : List SpellModifier) :
    ∀ ctx : Option Nat,
      List.Forall₂ (fun m m2 => m2.charges ≤ m.charges ∧ (m2.charges = 0 → m.charges = 0))
        mods (modsAfter w spellInfo spellId basevalue ctx mods) := by
  induction mods with
  | nil => intro ctx; exact List.Forall₂.nil
  | cons mod rest ih =>
    intro ctx
    have h := modAfter_charges w spellInfo spellId basevalue ctx mod
    exact List.Forall₂.cons ⟨h.1, h.2.1⟩ (ih _)


theorem exhaustedCount_self (mods : List SpellModifier) : exhaustedCount mods mods = 0 := by
  induction mods with
  | nil => rfl
  | cons m ms ih =>
    rw [exhaustedCount_cons, ih]
    have h : ¬ (m.charges = 1 ∧ m.charges = -1) := by omega
    simp [h]

/-- C23: a call of `ApplySpellMod` whose counter does not overflow adds to
`m_SpellModRemoveCount` exactly the number of modifiers whose charges it changes from 1
to -1, so the counter minus the number of modifiers with `charges = -1` is the same
before and after the call; no modifier's charges grow, none become 0 that were not 0
before, and the lists of the other operations are as before. -/
theorem removal_counter_tracks_exhausted (w : World) (p : Player) (spellId : Nat)
    (op : SpellModOp) (b : Int) (spell : Option Nat)
    (hc : isInt32 p.m_SpellModRemoveCount)
    (hno : p.m_SpellModRemoveCount
        + exhaustedCount (p.m_spellMods op)
            ((ApplySpellMod w p spellId op b spell).player.m_spellMods op) ≤ 2147483647) :
    (ApplySpellMod w p spellId op b spell).player.m_SpellModRemoveCount
        = p.m_SpellModRemoveCount
          + exhaustedCount (p.m_spellMods op)
              ((ApplySpellMod w p spellId op b spell).player.m_spellMods op)
      ∧ (ApplySpellMod w p spellId op b spell).player.m_SpellModRemoveCount
          - pendingRemoval ((ApplySpellMod w p spellId op b spell).player.m_spellMods op)
        = p.m_SpellModRemoveCount - pendingRemoval (p.m_spellMods op)
      ∧ List.Forall₂
          (fun m m2 => m2.charges ≤ m.charges ∧ (m2.charges = 0 → m.charges = 0))
          (p.m_spellMods op) ((ApplySpellMod w p spellId op b spell).player.m_spellMods op)
      ∧ ∀ op2 : SpellModOp, op2 ≠ op →
          (ApplySpellMod w p spellId op b spell).player.m_spellMods op2 = p.m_spellMods op2 := by
  refine ⟨?_, ?_, ?_, fun op2 h2 => ApplySpellMod_mods_other w p spellId op b spell op2 h2⟩
  all_goals cases h : w.LookupEntry spellId with
    | none =>
      rw [ApplySpellMod_unknown w p spellId op b spell h] <;> first
        | (rw [exhaustedCount_self]; simp)
        | exact List.forall₂_same.mpr (fun m _ => ⟨le_refl _, fun h0 => h0⟩)
    | some spellInfo =>
      rw [ApplySpellMod_mods w p spellId op b spell spellInfo h] at hno ⊢
      have hcount := spellModLoop_count w spellInfo spellId b (p.m_spellMods op)
        ⟨0, 0, spell, p.m_SpellModRemoveCount⟩ hc
      rw [← ApplySpellMod_count w p spellId op b spell spellInfo h] at hcount
      have hfit : isInt32 (p.m_SpellModRemoveCount
          + exhaustedCount (p.m_spellMods op)
              (modsAfter w spellInfo spellId b spell (p.m_spellMods op))) := by
        unfold isInt32 at hc ⊢
        omega
      rw [wrapInt32_eq_self hfit] at hcount
      first
        | exact hcount
        | (rw [hcount, pendingRemoval_modsAfter]; push_cast; omega)
        | exact modsAfter_charges w spellInfo spellId b (p.m_spellMods op) spell

/-- C23 at a concrete call: the player `pendingPlayer` (counter 1) queried on operation 3
by the cast at address 9. -/
theorem removal_counter_tracks_exhausted_witness :
    isInt32 pendingPlayer.m_SpellModRemoveCount
      ∧ (ApplySpellMod maskWorld pendingPlayer 7 3 100 (some 9)).player.m_SpellModRemoveCount
          = 2
      ∧ (ApplySpellMod maskWorld pendingPlayer 7 3 100 (some 9)).player.m_SpellModRemoveCount
          - pendingRemoval
              ((ApplySpellMod maskWorld pendingPlayer 7 3 100 (some 9)).player.m_spellMods 3)
        = pendingPlayer.m_SpellModRemoveCount - pendingRemoval (pendingPlayer.m_spellMods 3) :=
  ⟨by decide,
    ((removal_counter_tracks_exhausted maskWorld pendingPlayer 7 3 100 (some 9) (by decide)
      (by decide)).1).trans (by decide),
    (removal_counter_tracks_exhausted maskWorld pendingPlayer 7 3 100 (some 9) (by decide)
      (by decide)).2.1⟩

/-! ## The context-less calls claim -/

/-- One context-less call that applies a modifier with charges uses one charge, whatever
its last charge user was. -/
theorem contextless_step (c : Call) (p : Player) (i : Nat) (mod : SpellModifier)
    (hget : (p.m_spellMods c.op)[i]? = some mod) (hpos : 0 < mod.charges)
    (hspell : c.spell = none) (hfind : c.w.FindCurrentSpellBySpellId c.spellId = none)
    (happ : appliesTo c none mod) :
    ((ApplySpellMod c.w p c.spellId c.op c.basevalue c.spell).player.m_spellMods c.op)[i]?
      = some (useCharge none mod) := by
  unfold appliesTo at happ
  cases h : c.w.LookupEntry c.spellId with
  | none => rw [h] at happ; exact happ.elim
  | some spellInfo =>
    rw [h] at happ
    simp only at happ
    obtain ⟨pre, post, hlist, hlen⟩ := exists_split_of_getElem? _ i mod hget
    rw [ApplySpellMod_mods c.w p c.spellId c.op c.basevalue c.spell spellInfo h, hlist, ← hlen,
      modsAfter_getElem, hspell]
    have hcall : callContext c.w c.spellId none = none := by
      simp [callContext, hfind]
    have hctx : contextAt c.w spellInfo c.spellId c.basevalue none pre = none := by
      rcases contextAt_eq_or c.w spellInfo c.spellId c.basevalue none pre with h1 | h1
      · exact h1
      · rw [h1, hcall]
    rw [hctx]
    unfold modAfter
    rw [hcall, if_pos ⟨happ, hpos, Classical.em _⟩]

theorem afterUses_one (mod : SpellModifier) : afterUses 1 mod = useCharge none mod := by
  unfold afterUses useCharge
  by_cases h : mod.charges = 1
  · have h2 : ((1 : Nat) : Int) = mod.charges := by omega
    simp [h, h2]
  · have h2 : ¬ ((1 : Nat) : Int) = mod.charges := by omega
    have h3 : ¬ (1 : Int) = mod.charges := by omega
    simp [h, h3]

theorem afterUses_succ (n : Nat) (mod : SpellModifier) (hn : 0 < n)
    (hle : ((n + 1 : Nat) : Int) ≤ mod.charges) :
    afterUses n (useCharge none mod) = afterUses (n + 1) mod := by
  unfold afterUses useCharge
  have h1 : ¬ mod.charges = 1 := by omega
  have h2 : n ≠ 0 := by omega
  simp only [if_neg h1, if_neg h2, if_neg (Nat.succ_ne_zero n)]
  by_cases h : ((n + 1 : Nat) : Int) = mod.charges
  · have h3 : (n : Int) = mod.charges - 1 := by omega
    simp [h, h3]
  · have h3 : ¬ (n : Int) = mod.charges - 1 := by omega
    simp only [if_neg h, if_neg h3]
    congr 1
    push_cast
    omega

theorem afterUses_zero (mod : SpellModifier) (hpos : 0 < mod.charges) :
    afterUses 0 mod = mod := by
  unfold afterUses
  have h : ¬ ((0 : Nat) : Int) = mod.charges := by omega
  simp only [if_neg h, if_true]
  cases mod
  simp

/-- C24: `n` consecutive context-less calls (no casting context carried, none found for
the spell id) that each apply a modifier with `c > 0` charges, `n <= c`, leave it with
`c - n` charges (`-1`, the mark of a used-up modifier, when `n = c`), whatever its last
charge user was before the calls. -/
theorem contextless_calls_use_charges (op : SpellModOp) (i : Nat) (cs : List Call)
    (p : Player) (mod : SpellModifier)
    (hget : (p.m_spellMods op)[i]? = some mod) (hpos : 0 < mod.charges)
    (hle : (cs.length : Int) ≤ mod.charges) (huses : contextlessUses op mod cs) :
    ((applyCalls p cs).m_spellMods op)[i]? = some (afterUses cs.length mod)
      ∧ (afterUses cs.length mod).charges
          = (if (cs.length : Int) = mod.charges then -1 else mod.charges - cs.length) := by
  refine ⟨?_, rfl⟩
  induction cs generalizing p mod with
  | nil =>
    rw [List.length_nil, afterUses_zero mod hpos]
    exact hget
  | cons c cs ih =>
    obtain ⟨hop, hspell, hfind, happ, hrest⟩ := huses
    subst hop
    have hstep := contextless_step c p i mod hget hpos hspell hfind happ
    rw [List.length_cons] at hle ⊢
    show ((applyCalls (ApplySpellMod c.w p c.spellId c.op c.basevalue c.spell).player cs).m_spellMods
      c.op)[i]? = _
    by_cases hlen : cs.length = 0
    · have hnil : cs = [] := List.length_eq_zero.mp hlen
      subst hnil
      rw [List.length_nil, Nat.zero_add, afterUses_one]
      exact hstep
    · have hn : 0 < cs.length := Nat.pos_of_ne_zero hlen
      have hch : (useCharge none mod).charges = mod.charges - 1 := by
        have h1 : ¬ mod.charges = 1 := by omega
        simp [useCharge, h1]
      rw [← afterUses_succ cs.length mod hn hle]
      exact ih _ _ hstep (by rw [hch]; omega) (by rw [hch]; omega) hrest

/-- C24 at a concrete player: the modifier with two charges of `lastUserPlayer`, last
used by the cast at address 9, is used up by two context-less queries. -/
theorem contextless_calls_use_charges_witness :
    ((applyCalls lastUserPlayer [queryBy none, queryBy none]).m_spellMods 3)[1]?
      = some ⟨3, .SPELLMOD_PCT, -1, 50, 1, 501, none⟩ :=
  (contextless_calls_use_charges 3 1 [queryBy none, queryBy none] lastUserPlayer
    ⟨3, .SPELLMOD_PCT, 2, 50, 1, 501, some 9⟩ (by decide) (by decide) (by decide)
    (by decide)).1.trans (by decide)

/-! ## The list order claim -/

/-- A slot table is the same inventory state as itself, for every query. -/
theorem sameInventory_refl (d : ItemData) (t : SlotTable) (q : PlacementQuery) :
    sameInventory d t t q :=
  ⟨fun _ => rfl, rfl, fun _ _ _ _ => rfl⟩

end Mangos
